import Mathlib

/-!
# epoll-server: connection reactor, free-list and slot allocator

A shallow embedding of `mem.hpp`, `atomic_stack.hpp`, `client.hpp`, `epoll.hpp`
and `pool.hpp`.

* `size_t` values are naturals reduced modulo `2^64` at every arithmetic step.
* A `client*` is the index of the slot inside the slot array `buffer_`.
* Results of system calls (`recv`, `ioctl`, `epoll_ctl`, `accept`, ...) are
  inputs of the model; the calls a function issues are appended to a trace.
* The user handler `Tderiv` is a record of three callbacks acting on a user
  state; the defaults of `client_pool` are the identity.
-/

set_option autoImplicit false

namespace comm

/-! ## `size_t` arithmetic -/

/-- Number of values of a 64-bit `size_t`. -/
def SIZE_MOD : Nat := 18446744073709551616

/-- Addition on `size_t`. -/
def size_add (a b : Nat) : Nat := (a + b) % SIZE_MOD

/-- Subtraction on `size_t` (wraps below zero). -/
def size_sub (a b : Nat) : Nat := (a % SIZE_MOD + SIZE_MOD - b % SIZE_MOD) % SIZE_MOD

/-- Multiplication on `size_t`. -/
def size_mul (a b : Nat) : Nat := (a * b) % SIZE_MOD

/-! ## mem.hpp -/

/-- The rounding step shared by `detail::genmap` and `std_alloc::create`:
`if (*sizeHint % pagesize) *sizeHint = *sizeHint + pagesize - (*sizeHint % pagesize);`
The value returned is the one left in `*sizeHint`. -/
def round_hint (pagesize sizeHint : Nat) : Nat :=
  if sizeHint % pagesize ≠ 0 then
    size_sub (size_add sizeHint pagesize) (sizeHint % pagesize)
  else sizeHint

/-- Results of the system calls issued by `detail::genmap`. -/
structure MapEnv where
  memfd_create : Int
  ftruncate : Int
  mmap_none_ok : Bool
  mmap_fixed_ok : Bool
deriving DecidableEq, Repr

/-- What `detail::genmap` hands back: `nullptr`, the `MAP_FAILED` value of a
failed first `mmap`, a region left `PROT_NONE` because the second `mmap`
failed, or a readable and writable zero-filled region. -/
inductive MapPtr where
  | nullptr
  | map_failed
  | prot_none
  | mem
deriving DecidableEq, Repr

/-- The function `detail::genmap(unitsize, sizeHint)`: returns the pointer, the
value written back to `*sizeHint` and the byte size that was mapped. -/
def detail.genmap (pagesize : Nat) (env : MapEnv) (unitsize sizeHint : Nat) :
    MapPtr × Nat × Nat :=
  let hint := round_hint pagesize sizeHint
  let size := size_mul hint unitsize
  if env.memfd_create = -1 then (MapPtr.nullptr, hint, size)
  else if env.ftruncate = -1 then (MapPtr.nullptr, hint, size)
  else if !env.mmap_none_ok then (MapPtr.map_failed, hint, size)
  else if !env.mmap_fixed_ok then (MapPtr.prot_none, hint, size)
  else (MapPtr.mem, hint, size)

/-- The function `detail::delmap(tgt, unitsize, count)`: the byte length passed to `munmap`. -/
def detail.delmap (unitsize count : Nat) : Nat := size_mul count unitsize

/-- The template `delmap<T>(src, size)`: calls `detail::delmap(src, sizeof(T), size * 2)`. -/
def delmap (unitsize size : Nat) : Nat := detail.delmap unitsize (size_mul size 2)

/-- The capacity written back by `std_alloc::create`. -/
def std_alloc.create_hint (pagesize sizeHint : Nat) : Nat := round_hint pagesize sizeHint

/-! ## client.hpp and the node of atomic_stack.hpp -/

/-- The constant `MAX_READ_SIZE` (`client::size`). -/
def MAX_READ_SIZE : Nat := 4096

/-- One element of the slot array: `atomic_node<client>`, that is the members of
`client` (`sfd`, `buff[size + 1]`) followed by the free-list link `next`
(`none` is `nullptr`, `some i` points at element `i` of the slot array). -/
structure atomic_node where
  sfd : Int
  buff : List Nat
  next : Option Nat
deriving DecidableEq, Repr

/-- Content of one element of a freshly mapped (zero-filled) region. -/
def zero_node : atomic_node :=
  { sfd := 0, buff := List.replicate (MAX_READ_SIZE + 1) 0, next := none }

/-- Placement `new (p) atomic_node<T>(ptrNext)`: runs `client()`, which sets
`sfd` to `0` and leaves `buff` alone, then stores `next`. -/
def atomic_node.construct (old : atomic_node) (ptrNext : Option Nat) : atomic_node :=
  { old with sfd := 0, next := ptrNext }

/-- Placement `new (mem) client(sfd)`: sets `sfd`; `buff` and the link that lies
behind the `client` part keep their content. -/
def atomic_node.construct_client (old : atomic_node) (sfd : Int) : atomic_node :=
  { old with sfd := sfd }

/-! ## atomic_stack.hpp -/

/-- The class `atomic_stack<client>`: `head_`, `capacity_` and `buffer_`
(`none` is `nullptr`, otherwise the content of the slot array). -/
structure atomic_stack where
  head_ : Option Nat
  capacity_ : Nat
  buffer_ : Option (List atomic_node)
deriving DecidableEq, Repr

/-- The constructor `atomic_stack()`. -/
def atomic_stack.init : atomic_stack :=
  { head_ := none, capacity_ := 0, buffer_ := none }

/-- The accessor `data()` as the content of the slot array (empty when `buffer_` is null). -/
def atomic_stack.data (st : atomic_stack) : List atomic_node := st.buffer_.getD []

/-- Read of element `i` of the slot array. -/
def atomic_stack.node (st : atomic_stack) (i : Nat) : atomic_node := st.data.getD i zero_node

/-- Write of element `i` of the slot array. -/
def atomic_stack.set_node (st : atomic_stack) (i : Nat) (nd : atomic_node) : atomic_stack :=
  { st with buffer_ := st.buffer_.map (fun b => b.set i nd) }

/-- The linking loop of `create`:
`for ( ; i != end; ++i) new (&buffer_[i + 1]) atomic_node<T>(&buffer_[i]);`
with `n` iterations left and loop counter `i`. -/
def link_nodes : Nat → Nat → List atomic_node → List atomic_node
  | 0, _, buf => buf
  | n + 1, i, buf =>
    link_nodes n (i + 1) (buf.set (i + 1) ((buf.getD (i + 1) zero_node).construct (some i)))

/-- The method `atomic_stack::create(capacityHint)` over the `map_alloc` backend.
Returns the boolean result, the value written back to `*capacityHint` and the
new stack. `none` stands for undefined behaviour: the linking loop writes
through a pointer that is not a readable and writable region of the full array
size (`MAP_FAILED`, a `PROT_NONE` region, a capacity of zero, or a byte size
that wrapped). -/
def atomic_stack.create (st : atomic_stack) (pagesize unitsize : Nat) (env : MapEnv)
    (capacityHint : Nat) : Option (Bool × Nat × atomic_stack) :=
  if st.buffer_ ≠ none then some (false, capacityHint, st)
  else
    match detail.genmap pagesize env unitsize capacityHint with
    | (MapPtr.nullptr, hint, _) => some (false, hint, st)
    | (MapPtr.mem, hint, size) =>
      if hint = 0 ∨ size ≠ hint * unitsize then none
      else
        let last := size_sub hint 1
        let buf0 := (List.replicate hint zero_node).set 0 (zero_node.construct none)
        some (true, hint,
          { head_ := some last, capacity_ := hint, buffer_ := some (link_nodes last 0 buf0) })
    | (_, _, _) => none

/-- The method `atomic_stack::push(value)` without contention: `newHead->next = head_`
and the first compare-and-swap installs `newHead`. -/
def atomic_stack.push (st : atomic_stack) (value : Nat) : atomic_stack :=
  { (st.set_node value { st.node value with next := st.head_ }) with head_ := some value }

/-- The method `atomic_stack::pop()` without contention: returns `head_` and, when it is
not null, the first compare-and-swap installs `oldHead->next`. -/
def atomic_stack.pop (st : atomic_stack) : Option Nat × atomic_stack :=
  match st.head_ with
  | none => (none, st)
  | some oldHead => (some oldHead, { st with head_ := (st.node oldHead).next })

/-- The slots reached from `p` by following `next`, at most `fuel` of them. -/
def walk (buf : List atomic_node) : Nat → Option Nat → List Nat
  | 0, _ => []
  | _ + 1, none => []
  | fuel + 1, some i => i :: walk buf fuel ((buf.getD i zero_node).next)

/-- The free-list: the slots reached from `head_`. -/
def atomic_stack.free_list (st : atomic_stack) : List Nat :=
  walk st.data st.data.length st.head_

/-! ## endpoint.hpp and epoll.hpp -/

/-- The flag `EPOLLIN` of `<sys/epoll.h>`. -/
def EPOLLIN : Nat := 0x001
/-- The flag `EPOLLPRI` of `<sys/epoll.h>`. -/
def EPOLLPRI : Nat := 0x002
/-- The flag `EPOLLOUT` of `<sys/epoll.h>`. -/
def EPOLLOUT : Nat := 0x004
/-- The flag `EPOLLERR` of `<sys/epoll.h>`. -/
def EPOLLERR : Nat := 0x008
/-- The flag `EPOLLHUP` of `<sys/epoll.h>`. -/
def EPOLLHUP : Nat := 0x010
/-- The flag `EPOLLRDHUP` of `<sys/epoll.h>`. -/
def EPOLLRDHUP : Nat := 0x2000
/-- The flag `EPOLLEXCLUSIVE` of `<sys/epoll.h>`. -/
def EPOLLEXCLUSIVE : Nat := 0x10000000
/-- The flag `EPOLLONESHOT` of `<sys/epoll.h>`. -/
def EPOLLONESHOT : Nat := 0x40000000
/-- The flag `EPOLLET` of `<sys/epoll.h>`. -/
def EPOLLET : Nat := 0x80000000
/-- The opcode `EPOLL_CTL_ADD`. -/
def EPOLL_CTL_ADD : Nat := 1
/-- The opcode `EPOLL_CTL_DEL`. -/
def EPOLL_CTL_DEL : Nat := 2
/-- The opcode `EPOLL_CTL_MOD`. -/
def EPOLL_CTL_MOD : Nat := 3
/-- The error number `EAGAIN`. -/
def EAGAIN : Int := 11
/-- The `recv` flag `MSG_OOB`. -/
def MSG_OOB : Nat := 1
/-- The constant `epoll::DEFAULT_MAX_EVENTS`. -/
def DEFAULT_MAX_EVENTS : Int := 65536

/-- The `data` member of an `epoll_event` as the two overloads of `detail::ctl`
fill it: a pointer (`none` is `nullptr`, `some i` the address of slot `i`) or
the 32-bit `userdata`. -/
inductive Cookie where
  | ptr (p : Option Nat)
  | u32 (userdata : Int)
deriving DecidableEq, Repr

/-- One call that leaves the process, in the order the code issues them. -/
inductive Call where
  | epoll_ctl (epfd : Int) (opcode : Nat) (sfd : Int) (events : Nat) (data : Cookie)
  | endpoint_close (sfd : Int)
  | endpoint_read (sfd : Int) (bufflen : Nat)
  | endpoint_read_oob (sfd : Int)
  | endpoint_write (sfd : Int) (bytes : List Nat)
  | endpoint_accept (sfd : Int)
  | endpoint_unblock (sfd : Int)
  | ioctl_SIOCATMARK (sfd : Int)
deriving DecidableEq, Repr

/-- Result of one `endpoint_read` (`recv`): the return value, the value of `errno`
after the call, and the bytes the kernel stored at the start of the buffer. -/
structure RecvResult where
  ret : Int
  errno : Int
  data : List Nat
deriving DecidableEq, Repr

/-- What one iteration of the loop of `handle_epollpri` gets from the kernel: the
result of `ioctl(SIOCATMARK)` with the mark it stores, the result of
`endpoint_read_oob` with the byte it stores, and the result of the in-band
`endpoint_read`. A field is looked at only when the iteration reaches its call. -/
structure PriStep where
  ioctl_ret : Int
  mark : Int
  oob_ret : Int
  oobdata : Nat
  rd : RecvResult
deriving DecidableEq, Repr

/-- What one iteration of the accept loop of `server_pool::process` gets from the
kernel: the result of `endpoint_accept`, of `endpoint_unblock` and of the
`epoll_ctl` issued by `add_client`. -/
structure Accepted where
  cfd : Int
  unblock_ret : Int
  ctl_ret : Int
deriving DecidableEq, Repr

/-- The data members of `epoll<Tderiv>`. -/
structure epoll where
  selfpipe_ : Int × Int
  epfd_ : Int
  maxevents_ : Int
deriving DecidableEq, Repr

/-- Results of the system calls issued by the constructor of `epoll`. -/
structure EpollEnv where
  epoll_create1 : Int
  socketpair : Int
  selfpipe : Int × Int
  ctl : Int
deriving DecidableEq, Repr

/-- The exceptions thrown by the constructors. -/
inductive Exception where
  | runtime_error (what : String)
  | bad_alloc
deriving DecidableEq, Repr

/-- The constructor `epoll(maxevents)`: the object and the calls it issued. -/
def epoll.ctor (maxevents : Int) (env : EpollEnv) : Except Exception (epoll × List Call) :=
  if env.epoll_create1 = -1 then
    Except.error (Exception.runtime_error "failed to create epoll descriptor")
  else if env.socketpair = -1 then
    Except.error (Exception.runtime_error "failed to create epoll descriptor")
  else if env.ctl = -1 then
    Except.error (Exception.runtime_error "failed to create epoll descriptor")
  else
    Except.ok
      ({ selfpipe_ := env.selfpipe, epfd_ := env.epoll_create1, maxevents_ := maxevents },
       [Call.epoll_ctl env.epoll_create1 EPOLL_CTL_ADD env.selfpipe.2
          (EPOLLIN ||| EPOLLET ||| EPOLLONESHOT) (Cookie.ptr none)])

/-! ## pool.hpp: the connection reactor -/

/-- The user handler type `Tderiv` with user state `σ`: the three callbacks a
derived class may define. -/
structure Tderiv (σ : Type) where
  on_oob : Int → Nat → σ → σ
  on_input : Int → List Nat → Int → σ → σ
  on_write_ready : Int → σ → σ

/-- The class `client_pool<Tderiv>`: its `epoll` base, its data members
(`threads_` is the number of worker threads held), the state of the derived
object, and the log of calls issued so far by the process. -/
structure client_pool (σ : Type) where
  base : epoll
  workerCount_ : Nat
  clientCap_ : Nat
  clientCount_ : Nat
  freeMem_ : atomic_stack
  threads_ : Nat
  threadCount_ : Nat
  derived : σ
  trace : List Call

namespace client_pool

variable {σ : Type}

/-- The member `client_pool::on_oob`: the default, which ignores its arguments. -/
def on_oob (_sfd : Int) (_oobdata : Nat) (u : σ) : σ := u

/-- The member `client_pool::on_input`: the default, which ignores its arguments. -/
def on_input (_sfd : Int) (_data : List Nat) (_datalen : Int) (u : σ) : σ := u

/-- The member `client_pool::on_write_ready`: the default, which ignores its argument. -/
def on_write_ready (_sfd : Int) (u : σ) : σ := u

/-- Appends one call to the log. -/
def log (s : client_pool σ) (c : Call) : client_pool σ := { s with trace := s.trace ++ [c] }

/-- Read of `*cl`. -/
def slot (s : client_pool σ) (cl : Nat) : atomic_node := s.freeMem_.node cl

/-- The method `get_active_count()`. -/
def get_active_count (s : client_pool σ) : Nat := s.clientCount_

/-- The method `epoll::remove(sfd)`; the result is ignored by every caller. -/
def remove (s : client_pool σ) (sfd : Int) : client_pool σ :=
  s.log (Call.epoll_ctl s.base.epfd_ EPOLL_CTL_DEL sfd 0 (Cookie.ptr none))

/-- The method `epoll::add(client*)`; its result is the `ret` given by the kernel. -/
def add (s : client_pool σ) (handler : Nat) : client_pool σ :=
  s.log (Call.epoll_ctl s.base.epfd_ EPOLL_CTL_ADD (s.slot handler).sfd
    (EPOLLIN ||| EPOLLET ||| EPOLLRDHUP ||| EPOLLPRI ||| EPOLLONESHOT) (Cookie.ptr (some handler)))

/-- The method `epoll::rearm(client*)`; the result is ignored by every caller. -/
def rearm (s : client_pool σ) (handler : Nat) : client_pool σ :=
  s.log (Call.epoll_ctl s.base.epfd_ EPOLL_CTL_MOD (s.slot handler).sfd
    (EPOLLIN ||| EPOLLET ||| EPOLLRDHUP ||| EPOLLPRI ||| EPOLLONESHOT) (Cookie.ptr (some handler)))

/-- The method `client_pool::unuse(cl)`. -/
def unuse (s : client_pool σ) (cl : Nat) : client_pool σ :=
  let s1 := s.remove (s.slot cl).sfd
  let s2 := s1.log (Call.endpoint_close (s1.slot cl).sfd)
  let s3 := { s2 with freeMem_ := s2.freeMem_.set_node cl { s2.slot cl with sfd := 0 } }
  let s4 := { s3 with freeMem_ := s3.freeMem_.push cl }
  { s4 with clientCount_ := size_sub s4.clientCount_ 1 }

/-- The method `client_pool::use(sfd)`. -/
def use (s : client_pool σ) (sfd : Int) : Option Nat × client_pool σ :=
  match s.freeMem_.pop with
  | (none, _) => (none, s)
  | (some mem, fm) =>
    let s1 := { s with freeMem_ := fm, clientCount_ := size_add s.clientCount_ 1 }
    (some mem,
      { s1 with freeMem_ := s1.freeMem_.set_node mem ((s1.slot mem).construct_client sfd) })

/-- The method `client_pool::add_client(sfd)`; `ctl_ret` is what `epoll_ctl` returns
when the slot is registered. -/
def add_client (s : client_pool σ) (sfd : Int) (ctl_ret : Int) : Bool × client_pool σ :=
  match s.use sfd with
  | (none, s1) => (false, s1)
  | (some cl, s1) => (decide (ctl_ret = 0), s1.add cl)

/-- The sweep at the end of `client_pool::stop()`:
`for (i = 0; i != clientCap_; ++i) if (data[i].sfd) unuse(&data[i]);`. -/
def stop_sweep (s : client_pool σ) : client_pool σ :=
  (List.range s.clientCap_).foldl
    (fun acc i => if (acc.slot i).sfd ≠ 0 then acc.unuse i else acc) s

/-- The bytes of `cl->buff` after the kernel stored `data` at its start. -/
def store (s : client_pool σ) (cl : Nat) (data : List Nat) : client_pool σ :=
  let nd := s.slot cl
  { s with freeMem_ := s.freeMem_.set_node cl { nd with buff := data ++ nd.buff.drop data.length } }

/-- The method `client_pool::handle_epollout(cl)`. -/
def handle_epollout (h : Tderiv σ) (s : client_pool σ) (cl : Nat) : client_pool σ :=
  { s with derived := h.on_write_ready (s.slot cl).sfd s.derived }

/-- The method `client_pool::handle_epollin(cl)`, run against the results of its
successive `endpoint_read` calls; `none` when the loop is still running after the
last given result. -/
def handle_epollin (h : Tderiv σ) : List RecvResult → client_pool σ → Nat → Option (client_pool σ)
  | [], _, _ => none
  | r :: rs, s, cl =>
    let s1 := s.log (Call.endpoint_read (s.slot cl).sfd MAX_READ_SIZE)
    if r.ret = -1 then
      if r.errno ≠ EAGAIN then some (s1.unuse cl)
      else some (s1.rearm cl)
    else if r.ret = 0 then some (s1.unuse cl)
    else
      let s2 := s1.store cl r.data
      handle_epollin h rs
        { s2 with derived := h.on_input (s2.slot cl).sfd (s2.slot cl).buff r.ret s2.derived } cl

/-- The method `client_pool::handle_epollpri(cl)`, run against what the kernel
gives to its successive iterations; `none` when the loop is still running after
the last given iteration. The call `on_oob(cl->sfd, oobdata)` is written without
`static_cast<Tderiv*>(this)`, so it is the member `client_pool::on_oob`. -/
def handle_epollpri (h : Tderiv σ) : List PriStep → client_pool σ → Nat → Option (client_pool σ)
  | [], _, _ => none
  | p :: ps, s, cl =>
    -- the in-band read that ends every iteration not left by `break`
    let inband := fun (s3 : client_pool σ) =>
      let s4 := s3.log (Call.endpoint_read (s3.slot cl).sfd MAX_READ_SIZE)
      if p.rd.ret = -1 then
        if p.rd.errno ≠ EAGAIN then some (s4.unuse cl)
        else some (s4.rearm cl)
      else if p.rd.ret = 0 then some (s4.unuse cl)
      else
        let s5 := s4.store cl p.rd.data
        handle_epollpri h ps
          { s5 with derived := h.on_input (s5.slot cl).sfd (s5.slot cl).buff p.rd.ret s5.derived }
          cl
    let s1 := s.log (Call.ioctl_SIOCATMARK (s.slot cl).sfd)
    if p.ioctl_ret = -1 then some (s1.unuse cl)
    else if p.mark ≠ 0 then
      let s2 := s1.log (Call.endpoint_read_oob (s1.slot cl).sfd)
      if p.oob_ret ≠ -1 then
        inband { s2 with derived := on_oob (s2.slot cl).sfd p.oobdata s2.derived }
      else some (s2.unuse cl)
    else inband s1

/-- The method `client_pool::process(client, flags)`; `rs` feeds `handle_epollin` and
`ps` feeds `handle_epollpri` when the switch reaches them. -/
def process (h : Tderiv σ) (s : client_pool σ) (client : Nat) (flags : Nat)
    (rs : List RecvResult) (ps : List PriStep) : Option (client_pool σ) :=
  if flags = EPOLLHUP ∨ flags = EPOLLHUP ||| EPOLLOUT
      ∨ flags = EPOLLRDHUP ∨ flags = EPOLLRDHUP ||| EPOLLOUT then
    some (s.unuse client)
  else if flags = EPOLLIN ∨ flags = EPOLLIN ||| EPOLLHUP
      ∨ flags = EPOLLIN ||| EPOLLHUP ||| EPOLLOUT
      ∨ flags = EPOLLIN ||| EPOLLRDHUP
      ∨ flags = EPOLLIN ||| EPOLLRDHUP ||| EPOLLOUT then
    handle_epollin h rs s client
  else if flags = EPOLLPRI ∨ flags = EPOLLPRI ||| EPOLLHUP
      ∨ flags = EPOLLPRI ||| EPOLLHUP ||| EPOLLOUT
      ∨ flags = EPOLLPRI ||| EPOLLRDHUP
      ∨ flags = EPOLLPRI ||| EPOLLRDHUP ||| EPOLLOUT then
    handle_epollpri h ps s client
  else if flags = EPOLLIN ||| EPOLLPRI ∨ flags = EPOLLIN ||| EPOLLPRI ||| EPOLLHUP
      ∨ flags = EPOLLIN ||| EPOLLPRI ||| EPOLLHUP ||| EPOLLOUT
      ∨ flags = EPOLLIN ||| EPOLLPRI ||| EPOLLRDHUP
      ∨ flags = EPOLLIN ||| EPOLLPRI ||| EPOLLRDHUP ||| EPOLLOUT then
    handle_epollpri h ps s client
  else if flags = EPOLLOUT then
    some (handle_epollout h s client)
  else if flags = EPOLLIN ||| EPOLLOUT then
    (handle_epollin h rs s client).map (fun s1 => handle_epollout h s1 client)
  else if flags = EPOLLPRI ||| EPOLLOUT then
    (handle_epollpri h ps s client).map (fun s1 => handle_epollout h s1 client)
  else if flags = EPOLLIN ||| EPOLLPRI ||| EPOLLOUT then
    (handle_epollpri h ps s client).map (fun s1 => handle_epollout h s1 client)
  else if flags &&& EPOLLERR = EPOLLERR then
    some (s.unuse client)
  else some s

/-- The constructor `client_pool(workerCount, clientCap)`: the `epoll` base is built
first, then `freeMem_.create(&clientCap_)` runs in the body. `none` stands for the
undefined behaviour of `create`. The atomic `threadCount_` has no initialiser in
the source and is taken as `0`. -/
def ctor (derived : σ) (workerCount clientCap : Nat) (pagesize unitsize : Nat)
    (eenv : EpollEnv) (menv : MapEnv) : Option (Except Exception (client_pool σ)) :=
  match epoll.ctor DEFAULT_MAX_EVENTS eenv with
  | Except.error e => some (Except.error e)
  | Except.ok (ep, tr) =>
    match atomic_stack.init.create pagesize unitsize menv (clientCap % SIZE_MOD) with
    | none => none
    | some (false, _, _) => some (Except.error Exception.bad_alloc)
    | some (true, cap, fm) =>
      some (Except.ok
        { base := ep, workerCount_ := workerCount, clientCap_ := cap, clientCount_ := 0,
          freeMem_ := fm, threads_ := 0, threadCount_ := 0, derived := derived, trace := tr })

end client_pool

/-! ## pool.hpp: the acceptor reactor -/

/-- The class `server_pool<T>`: its own `epoll` base, the connection reactor
`clientPool_` and `threadCount_`. Calls are logged in the log of `clientPool_`. -/
structure server_pool (σ : Type) where
  base : epoll
  clientPool_ : client_pool σ
  threadCount_ : Nat

namespace server_pool

variable {σ : Type}

/-- Appends one call to the log of the process. -/
def log (sp : server_pool σ) (c : Call) : server_pool σ :=
  { sp with clientPool_ := sp.clientPool_.log c }

/-- The accept loop of `server_pool::process`:
`while ((cfd = endpoint_accept(sfd)) != -1) { if (endpoint_unblock(cfd) != 0 || !clientPool_.add_client(cfd)) endpoint_close(cfd); }`
run against what the kernel gives to its successive iterations; `none` when the
loop is still running after the last given iteration. -/
def accept_loop : List Accepted → server_pool σ → Int → Option (server_pool σ)
  | [], _, _ => none
  | a :: rest, sp, sfd =>
    let sp1 := sp.log (Call.endpoint_accept sfd)
    if a.cfd = -1 then some sp1
    else
      let sp2 := sp1.log (Call.endpoint_unblock a.cfd)
      if a.unblock_ret ≠ 0 then
        accept_loop rest (sp2.log (Call.endpoint_close a.cfd)) sfd
      else
        let r := sp2.clientPool_.add_client a.cfd a.ctl_ret
        let sp3 := { sp2 with clientPool_ := r.2 }
        if !r.1 then accept_loop rest (sp3.log (Call.endpoint_close a.cfd)) sfd
        else accept_loop rest sp3 sfd

/-- The method `server_pool::process(sfd, flags)`. -/
def process (sp : server_pool σ) (sfd : Int) (flags : Nat) (accepts : List Accepted) :
    Option (server_pool σ) :=
  if flags = EPOLLERR then some (sp.log (Call.endpoint_close sfd))
  else accept_loop accepts sp sfd

end server_pool

/-! ## The free-list as a chain of slots -/

/-- The relation `chain buf p l`: following `next` from `p` visits exactly the slots of
`l`, each inside the slot array, and then reaches `nullptr`. -/
def chain (buf : List atomic_node) : Option Nat → List Nat → Prop
  | p, [] => p = none
  | p, x :: xs => p = some x ∧ x < buf.length ∧ chain buf (buf.getD x zero_node).next xs

/-- The sequential invariant of the connection reactor with free-list `l`. -/
def good {σ : Type} (s : client_pool σ) (l : List Nat) : Prop :=
  ∃ buf, s.freeMem_.buffer_ = some buf ∧ buf.length = s.clientCap_ ∧ s.clientCap_ < SIZE_MOD ∧
    chain buf s.freeMem_.head_ l ∧ l.Nodup ∧ (∀ i ∈ l, (buf.getD i zero_node).sfd = 0) ∧
    l.length + s.clientCount_ = s.clientCap_

/-- The invariant of the connection reactor in the sequential model: the slot array
is allocated with `clientCap_` slots, the free-list reached from `head_` ends at
`nullptr` and repeats no slot, every slot on it has a zero descriptor, and the
number of slots on the free-list plus `clientCount_` is `clientCap_`. -/
structure client_pool.invariant {σ : Type} (s : client_pool σ) : Prop where
  allocated : s.freeMem_.buffer_.isSome = true
  size : s.freeMem_.data.length = s.clientCap_
  cap_lt : s.clientCap_ < SIZE_MOD
  ends : chain s.freeMem_.data s.freeMem_.head_ s.freeMem_.free_list
  nodup : s.freeMem_.free_list.Nodup
  free_zero : ∀ i ∈ s.freeMem_.free_list, (s.slot i).sfd = 0
  count : s.freeMem_.free_list.length + s.clientCount_ = s.clientCap_

/-- The slots `m, m - 1, ..., 0`. -/
def descending : Nat → List Nat
  | 0 => [0]
  | m + 1 => (m + 1) :: descending m

/-! ## Helpers used to state the properties -/

/-- One invocation of a user callback. -/
inductive Callback where
  | oob (sfd : Int) (oobdata : Nat)
  | input (sfd : Int) (received : List Nat) (datalen : Int)
  | write_ready (sfd : Int)
deriving DecidableEq, Repr

/-- A derived class that overrides the three callbacks and writes down each
invocation it gets (for `on_input`, the first `datalen` bytes of `data`). -/
def recorder : Tderiv (List Callback) :=
  { on_oob := fun sfd oobdata u => u ++ [Callback.oob sfd oobdata],
    on_input := fun sfd data datalen u => u ++ [Callback.input sfd (data.take datalen.toNat) datalen],
    on_write_ready := fun sfd u => u ++ [Callback.write_ready sfd] }

/-- The content of a buffer after the kernel stored `data` at its start. -/
def store_buff (buff data : List Nat) : List Nat := data ++ buff.drop data.length

/-- The arguments `(data, datalen)` the successive `on_input` calls get when the
reads `rs` all deliver data into a buffer that starts as `buff`. -/
def on_input_calls : List Nat → List RecvResult → List (List Nat × Int)
  | _, [] => []
  | buff, r :: rs => (store_buff buff r.data, r.ret) :: on_input_calls (store_buff buff r.data) rs

/-- The calls `add_client(fd)` made one after the other, each with the result of its
`epoll_ctl`; returns the results and the final state. -/
def add_clients {σ : Type} : client_pool σ → List (Int × Int) → List Bool × client_pool σ
  | s, [] => ([], s)
  | s, c :: rest =>
    let r := s.add_client c.1 c.2
    let q := add_clients r.2 rest
    (r.1 :: q.1, q.2)

/-- Results of the system calls of a constructor of `epoll` that succeeds. -/
def epoll_ok : EpollEnv := { epoll_create1 := 5, socketpair := 0, selfpipe := (3, 4), ctl := 0 }

/-- Results of the system calls of a `detail::genmap` that succeeds. -/
def map_ok : MapEnv := { memfd_create := 6, ftruncate := 0, mmap_none_ok := true, mmap_fixed_ok := true }

/-- A slot of the array built by `create`: zero descriptor, zero buffer, link `next`. -/
def free_node (next : Option Nat) : atomic_node := { zero_node with next := next }

/-- The reactor built by `client_pool(1, 1)` for a page size of 4 slots. -/
def pool4 (σ : Type) (derived : σ) : client_pool σ :=
  { base := { selfpipe_ := (3, 4), epfd_ := 5, maxevents_ := 65536 },
    workerCount_ := 1, clientCap_ := 4, clientCount_ := 0,
    freeMem_ := { head_ := some 3, capacity_ := 4,
                  buffer_ := some [free_node none, free_node (some 0), free_node (some 1),
                                   free_node (some 2)] },
    threads_ := 0, threadCount_ := 0, derived := derived,
    trace := [Call.epoll_ctl 5 EPOLL_CTL_ADD 4 (EPOLLIN ||| EPOLLET ||| EPOLLONESHOT)
                (Cookie.ptr none)] }

/-- The state that the loop of `handle_epollin` reaches after the reads `rs` when each of
them delivers data (the `default:` branch of its switch, once per read): the
read is logged, the data is stored in `cl->buff`, and `on_input` of the derived
class gets `(cl->sfd, cl->buff, nbytes)`. -/
def after_reads {σ : Type} (h : Tderiv σ) : List RecvResult → client_pool σ → Nat → client_pool σ
  | [], s, _ => s
  | r :: rs, s, cl =>
    let s1 := s.log (Call.endpoint_read (s.slot cl).sfd MAX_READ_SIZE)
    let s2 := s1.store cl r.data
    after_reads h rs
      { s2 with derived := h.on_input (s2.slot cl).sfd (s2.slot cl).buff r.ret s2.derived } cl

/-- The 23 case labels of the switch of `client_pool::process`, in source order. -/
def case_labels : List Nat :=
  [EPOLLHUP, EPOLLHUP ||| EPOLLOUT, EPOLLRDHUP, EPOLLRDHUP ||| EPOLLOUT,
   EPOLLIN, EPOLLIN ||| EPOLLHUP, EPOLLIN ||| EPOLLHUP ||| EPOLLOUT,
   EPOLLIN ||| EPOLLRDHUP, EPOLLIN ||| EPOLLRDHUP ||| EPOLLOUT,
   EPOLLPRI, EPOLLPRI ||| EPOLLHUP, EPOLLPRI ||| EPOLLHUP ||| EPOLLOUT,
   EPOLLPRI ||| EPOLLRDHUP, EPOLLPRI ||| EPOLLRDHUP ||| EPOLLOUT,
   EPOLLIN ||| EPOLLPRI, EPOLLIN ||| EPOLLPRI ||| EPOLLHUP,
   EPOLLIN ||| EPOLLPRI ||| EPOLLHUP ||| EPOLLOUT,
   EPOLLIN ||| EPOLLPRI ||| EPOLLRDHUP, EPOLLIN ||| EPOLLPRI ||| EPOLLRDHUP ||| EPOLLOUT,
   EPOLLOUT, EPOLLIN ||| EPOLLOUT, EPOLLPRI ||| EPOLLOUT, EPOLLIN ||| EPOLLPRI ||| EPOLLOUT]

/-- An acceptor reactor around the connection reactor `pool4`. -/
def acceptor4 (σ : Type) (derived : σ) : server_pool σ :=
  { base := { selfpipe_ := (10, 11), epfd_ := 12, maxevents_ := 65536 },
    clientPool_ := pool4 σ derived, threadCount_ := 1 }

/-! ## pool.hpp: `run` and `stop` of the connection reactor -/

/-- The method `client_pool::run()`: when `threads_` is empty, `threadCount_` is set to
`workerCount_` and `workerCount_` workers are spawned. -/
def client_pool.run {σ : Type} (s : client_pool σ) : client_pool σ :=
  if s.threads_ = 0 then { s with threadCount_ := s.workerCount_, threads_ := s.workerCount_ }
  else s

/-- The method `client_pool::stop()`: when `threads_` is not empty, `epoll::close()`
writes the byte `'$'` to `selfpipe_[0]`, the workers are joined, `threads_` is
cleared and the slot array is swept. `joined` is the value the workers have left
in `threadCount_` once the last one is joined. -/
def client_pool.stop {σ : Type} (s : client_pool σ) (joined : Nat) : client_pool σ :=
  if s.threads_ ≠ 0 then
    let s1 := s.log (Call.endpoint_write s.base.selfpipe_.1 [36])
    let s2 := { s1 with threadCount_ := joined, threads_ := 0 }
    s2.stop_sweep
  else s

/-- The members that `add_client`, `unuse` and the sweep leave alone: `workerCount_`,
`threads_`, `clientCap_` and the `epoll` base. -/
def same_control {σ : Type} (s t : client_pool σ) : Prop :=
  t.workerCount_ = s.workerCount_ ∧ t.threads_ = s.threads_ ∧ t.clientCap_ = s.clientCap_ ∧
    t.base = s.base

/-- The body of the accept loop of `server_pool::process` for one accepted descriptor
(`a.cfd` is not -1): the `accept` and the `endpoint_unblock` are logged; when
`endpoint_unblock` fails the descriptor is closed without calling `add_client`,
otherwise `add_client` runs and the descriptor is closed when it returns false. -/
def accept_one {σ : Type} (sp : server_pool σ) (sfd : Int) (a : Accepted) : server_pool σ :=
  let sp2 := (sp.log (Call.endpoint_accept sfd)).log (Call.endpoint_unblock a.cfd)
  if a.unblock_ret ≠ 0 then sp2.log (Call.endpoint_close a.cfd)
  else
    let r := sp2.clientPool_.add_client a.cfd a.ctl_ret
    let sp3 := { sp2 with clientPool_ := r.2 }
    if !r.1 then sp3.log (Call.endpoint_close a.cfd) else sp3

/-- The state of the acceptor after the accepted descriptors `accs`, in order. -/
def after_accepts {σ : Type} (sp : server_pool σ) (sfd : Int) (accs : List Accepted) :
    server_pool σ :=
  accs.foldl (fun q a => accept_one q sfd a) sp

/-! ## The five statements of `client_pool::unuse`, one by one -/

/-- First statement of `unuse`: `epoll<client_pool>::remove(cl->sfd);`. -/
def unuse_deregister {σ : Type} (s : client_pool σ) (cl : Nat) : client_pool σ :=
  s.remove (s.slot cl).sfd

/-- Second statement of `unuse`: `endpoint_close(cl->sfd);`. -/
def unuse_close {σ : Type} (s : client_pool σ) (cl : Nat) : client_pool σ :=
  s.log (Call.endpoint_close (s.slot cl).sfd)

/-- Third statement of `unuse`: `cl->sfd = 0;`. -/
def unuse_zero {σ : Type} (s : client_pool σ) (cl : Nat) : client_pool σ :=
  { s with freeMem_ := s.freeMem_.set_node cl { s.slot cl with sfd := 0 } }

/-- Fourth statement of `unuse`: `freeMem_.push(cl);`. -/
def unuse_push {σ : Type} (s : client_pool σ) (cl : Nat) : client_pool σ :=
  { s with freeMem_ := s.freeMem_.push cl }

/-- Fifth statement of `unuse`: `--clientCount_;`. -/
def unuse_decrement {σ : Type} (s : client_pool σ) : client_pool σ :=
  { s with clientCount_ := size_sub s.clientCount_ 1 }

/-! ## The read buffer and its trailing byte -/

/-- A buffer `buff[size + 1]` whose last byte, `buff[size]`, is zero. -/
def buff_ok (b : List Nat) : Prop := b.length = MAX_READ_SIZE + 1 ∧ b[MAX_READ_SIZE]? = some 0

/-- Every slot of the slot array has a buffer of `size + 1` bytes ending in a zero byte. -/
def buffers_ok {σ : Type} (s : client_pool σ) : Prop :=
  ∀ i, i < s.freeMem_.data.length → buff_ok (s.slot i).buff

namespace shutdown

/-- Where a worker is inside `wait`: in the `epoll_wait` loop; holding the control
event; after `endpoint_read(selfpipe_[1], &ch, 1)`; after the `EPOLL_CTL_MOD` that
re-registers `selfpipe_[1]`; after `--runningInstances` (with the value it
produced); returned. -/
inductive Pc where
  | waiting
  | woken
  | read_done
  | rearmed
  | decremented (post : Nat)
  | exited
deriving DecidableEq, Repr

/-- A worker: its position and the number of shutdown tokens it has read. -/
structure Worker where
  pc : Pc
  reads : Nat
deriving DecidableEq, Repr

/-- The workers, the control channel (`pending` bytes readable on `selfpipe_[1]`,
`armed` when the one-shot registration is enabled), the counter `runningInstances`
and the number of token bytes written to `selfpipe_[0]` so far. -/
structure State where
  workers : List Worker
  pending : Nat
  armed : Bool
  running : Nat
  writes : Nat
deriving DecidableEq, Repr

/-- The reactor after `run()`: `W` workers in `wait`, `threadCount_` set to `W`, the
control channel registered and empty. -/
def started (W : Nat) : State :=
  { workers := List.replicate W { pc := Pc.waiting, reads := 0 }, pending := 0, armed := true,
    running := W, writes := 0 }

/-- The method `epoll::close()`: one byte is written to `selfpipe_[0]`. -/
def close (s : State) : State :=
  { s with pending := s.pending + 1, writes := s.writes + 1 }

/-- One step of worker `i`, `none` when the worker cannot move (it is still in
`epoll_wait` with nothing reported to it, it would block in `recv`, or it has
returned). -/
def step (i : Nat) (s : State) : Option State :=
  if h : i < s.workers.length then
    match (s.workers.get ⟨i, h⟩).pc with
    | Pc.waiting =>
      -- `epoll_wait` reports the control event (`events[i].data.ptr == nullptr`)
      if s.armed = true ∧ 0 < s.pending then
        some { s with workers := s.workers.set i { s.workers.get ⟨i, h⟩ with pc := Pc.woken },
                      armed := false }
      else none
    | Pc.woken =>
      -- `endpoint_read(selfpipe_[1], &ch, sizeof(ch));`
      if 0 < s.pending then
        some { s with workers := s.workers.set i
                        { pc := Pc.read_done, reads := (s.workers.get ⟨i, h⟩).reads + 1 },
                      pending := s.pending - 1 }
      else none
    | Pc.read_done =>
      -- `detail::ctl(epfd_, EPOLL_CTL_MOD, selfpipe_[1], ..., nullptr)` succeeds
      some { s with workers := s.workers.set i { s.workers.get ⟨i, h⟩ with pc := Pc.rearmed },
                    armed := true }
    | Pc.rearmed =>
      -- `--runningInstances`
      some { s with workers := s.workers.set i
                      { s.workers.get ⟨i, h⟩ with pc := Pc.decremented (size_sub s.running 1) },
                    running := size_sub s.running 1 }
    | Pc.decremented post =>
      -- `if (post > 0) endpoint_write(selfpipe_[0], &ch, sizeof(ch));` then `return;`
      if 0 < post then
        some { s with workers := s.workers.set i { s.workers.get ⟨i, h⟩ with pc := Pc.exited },
                      pending := s.pending + 1, writes := s.writes + 1 }
      else
        some { s with workers := s.workers.set i { s.workers.get ⟨i, h⟩ with pc := Pc.exited } }
    | Pc.exited => none
  else none

/-- The steps of the workers named by `sched`, in order; `none` when one of them
cannot move. -/
def run : List Nat → State → Option State
  | [], s => some s
  | i :: rest, s => (step i s).bind (run rest)

/-- The end of a shutdown of `W` workers: every worker has returned after reading one
token, `W` tokens were written in all, `runningInstances` is 0, no token is left
on the control channel and its registration is enabled. -/
def finished (W : Nat) (s : State) : Prop :=
  s.workers = List.replicate W { pc := Pc.exited, reads := 1 } ∧ s.writes = W ∧
    s.running = 0 ∧ s.pending = 0 ∧ s.armed = true

/-- The position is `waiting`. -/
def is_waiting : Pc → Bool
  | Pc.waiting => true
  | _ => false

/-- The position is `woken`. -/
def is_woken : Pc → Bool
  | Pc.woken => true
  | _ => false

/-- The position is `read_done`. -/
def is_read_done : Pc → Bool
  | Pc.read_done => true
  | _ => false

/-- The position is `rearmed`. -/
def is_rearmed : Pc → Bool
  | Pc.rearmed => true
  | _ => false

/-- The position is `decremented`. -/
def is_decremented : Pc → Bool
  | Pc.decremented _ => true
  | _ => false

/-- The position is `exited`. -/
def is_exited : Pc → Bool
  | Pc.exited => true
  | _ => false

/-- The number of workers whose position satisfies `p`. -/
def tally (p : Pc → Bool) (s : State) : Nat := s.workers.countP (fun w => p w.pc)

/-- The number of workers that hold the control event and have not returned yet. -/
def handling (s : State) : Nat :=
  tally is_woken s + tally is_read_done s + tally is_rearmed s + tally is_decremented s

/-- The steps left to a worker before it has returned. -/
def rank : Pc → Nat
  | Pc.waiting => 5
  | Pc.woken => 4
  | Pc.read_done => 3
  | Pc.rearmed => 2
  | Pc.decremented _ => 1
  | Pc.exited => 0

/-- The steps left to all workers together. -/
def steps_left (s : State) : Nat := (s.workers.map (fun w => rank w.pc)).sum

/-- The invariant of a shutdown of `W` workers: at most one worker handles the control
event at a time; the registration is disabled exactly while a worker holds the
event and has not re-registered; `runningInstances` counts the workers that have
not decremented it; the tokens written are one per returned worker plus one,
except that the last worker writes none; the tokens written are those read plus
those still on the channel; a worker at `decremented` holds the current value of
the counter; and a worker has read one token once it is past the read. -/
structure Inv (W : Nat) (s : State) : Prop where
  size : s.workers.length = W
  one : handling s ≤ 1
  armed_iff : s.armed = true ↔ tally is_woken s + tally is_read_done s = 0
  running_eq : s.running
    = tally is_waiting s + tally is_woken s + tally is_read_done s + tally is_rearmed s
  writes_eq : s.writes = if tally is_exited s = W then W else tally is_exited s + 1
  pending_eq : s.pending + tally is_read_done s + tally is_rearmed s + tally is_decremented s
    + tally is_exited s = s.writes
  post_eq : ∀ w ∈ s.workers, ∀ v, w.pc = Pc.decremented v → v = s.running
  reads_eq : ∀ w ∈ s.workers, w.reads = if w.pc = Pc.waiting ∨ w.pc = Pc.woken then 0 else 1
  total : tally is_waiting s + handling s + tally is_exited s = W

end shutdown

/-! ## atomic_stack.hpp: successive pops and `destroy` -/

/-- The results of `n` successive calls of `pop()`, in order, and the stack they leave. -/
def atomic_stack.pops : Nat → atomic_stack → List (Option Nat) × atomic_stack
  | 0, st => ([], st)
  | n + 1, st =>
    let r := st.pop
    let q := atomic_stack.pops n r.2
    (r.1 :: q.1, q.2)

/-- The function `map_alloc<T>::destroy(mem, size)`: calls `delmap<T>(mem, size)`; the
value is the byte length that reaches `munmap`. -/
def map_alloc.destroy (unitsize size : Nat) : Nat := delmap unitsize size

/-- The method `atomic_stack::destroy()`: when `buffer_` is not null it calls
`Tmem::destroy(buffer_, capacity_)` and clears `head_` and `buffer_`. Returns the
byte length passed to `munmap` (`none` when nothing is unmapped) and the new stack. -/
def atomic_stack.destroy (st : atomic_stack) (unitsize : Nat) : Option Nat × atomic_stack :=
  if st.buffer_ ≠ none then
    (some (map_alloc.destroy unitsize st.capacity_), { st with head_ := none, buffer_ := none })
  else (none, st)

/-! ## epoll.hpp: `wait`, and the registration of a listener -/

/-- The test `events[i].data.ptr == nullptr` of `wait` on a stored cookie. `epoll_data` is a
union and `detail::ctl` starts from `epollEvent = {}`: a cookie stored through
`data.u32` reads as a null pointer exactly when its 32 bits are zero; the
address of a slot is never null. -/
def Cookie.is_null : Cookie → Bool
  | Cookie.ptr none => true
  | Cookie.ptr (some _) => false
  | Cookie.u32 userdata => decide (userdata % 4294967296 = 0)

/-- One `epoll_event` reported by `epoll_wait`, together with what the kernel gives to
the handler of that event (`rs` to `handle_epollin`, `ps` to `handle_epollpri`,
`accepts` to the accept loop). -/
structure Event where
  data : Cookie
  events : Nat
  rs : List RecvResult
  ps : List PriStep
  accepts : List Accepted
deriving DecidableEq, Repr

/-- What one call of `epoll_wait` gives: -1, or the events it stored. -/
inductive Polled where
  | error
  | ready (evs : List Event)
deriving DecidableEq, Repr

/-- How `wait` is left: by the `return` of the control branch, by the `break` after a
failed `epoll_wait`, or by the exception of the control branch. -/
inductive Outcome where
  | returned
  | broke
  | thrown (e : Exception)
deriving DecidableEq, Repr

/-- The control branch of `wait` (`events[i].data.ptr == nullptr`), with `ctl_ret` the
result of its `EPOLL_CTL_MOD`: the calls it issues, the value it leaves in
`runningInstances` and how `wait` is left. The `perror` before the `throw` is not
recorded. -/
def epoll.control (ep : epoll) (ctl_ret : Int) (runningInstances : Nat) :
    List Call × Nat × Outcome :=
  let rd := Call.endpoint_read ep.selfpipe_.2 1
  let md := Call.epoll_ctl ep.epfd_ EPOLL_CTL_MOD ep.selfpipe_.2
    (EPOLLIN ||| EPOLLET ||| EPOLLONESHOT) (Cookie.ptr none)
  if ctl_ret = -1 then
    ([rd, md], runningInstances, Outcome.thrown (Exception.runtime_error "ctl failed on self pipe"))
  else
    let post := size_sub runningInstances 1
    if 0 < post then ([rd, md, Call.endpoint_write ep.selfpipe_.1 [36]], post, Outcome.returned)
    else ([rd, md], post, Outcome.returned)

/-- The `for` loop of `wait` in a worker of the connection reactor
(`epoll<client_pool>::wait(threadCount_)`) over the events of one `epoll_wait`: the
state, and how `wait` is left when the control branch was taken. `none` when a
handler is still running after its last given result, or when the cookie is
not a slot. -/
def client_pool.dispatch {σ : Type} (h : Tderiv σ) (ctl_ret : Int) :
    List Event → client_pool σ → Option (client_pool σ × Option Outcome)
  | [], s => some (s, none)
  | e :: es, s =>
    if e.data.is_null = true then
      let r := s.base.control ctl_ret s.threadCount_
      some ({ s with threadCount_ := r.2.1, trace := s.trace ++ r.1 }, some r.2.2)
    else
      match e.data with
      | Cookie.ptr (some cl) =>
        (client_pool.process h s cl e.events e.rs e.ps).bind (client_pool.dispatch h ctl_ret es)
      | _ => none

/-- The method `epoll<client_pool>::wait(threadCount_)` of one worker, run against the
results of its successive `epoll_wait` calls; `none` when the loop is still
running after the last given result. -/
def client_pool.wait {σ : Type} (h : Tderiv σ) (ctl_ret : Int) :
    List Polled → client_pool σ → Option (client_pool σ × Outcome)
  | [], _ => none
  | Polled.error :: _, s => some (s, Outcome.broke)
  | Polled.ready evs :: rest, s =>
    match client_pool.dispatch h ctl_ret evs s with
    | none => none
    | some (s1, some x) => some (s1, x)
    | some (s1, none) => client_pool.wait h ctl_ret rest s1

/-- The method `epoll::add(int sfd)` of the acceptor, as called by `server_pool::add(sfd)`;
`ctl_ret` is what `epoll_ctl` returns. The cookie is `data.u32 = sfd`. -/
def server_pool.add {σ : Type} (sp : server_pool σ) (sfd : Int) (ctl_ret : Int) :
    Bool × server_pool σ :=
  (decide (ctl_ret = 0),
   sp.log (Call.epoll_ctl sp.base.epfd_ EPOLL_CTL_ADD sfd
     (EPOLLIN ||| EPOLLET ||| EPOLLEXCLUSIVE) (Cookie.u32 sfd)))

/-- The method `server_pool::bind(port, queuelen)`, with `sfd` the result of
`endpoint_tcp_server(port, queuelen)`, `unblock_ret` the result of
`endpoint_unblock(sfd)` and `ctl_ret` the result of the `epoll_ctl` of `add`. The
calls made inside `endpoint_tcp_server` are not recorded. -/
def server_pool.bind {σ : Type} (sp : server_pool σ) (sfd unblock_ret ctl_ret : Int) :
    Bool × server_pool σ :=
  if sfd = -1 then (false, sp)
  else
    let sp1 := sp.log (Call.endpoint_unblock sfd)
    if unblock_ret = -1 then (false, sp1)
    else
      (decide (ctl_ret = 0),
       sp1.log (Call.epoll_ctl sp1.base.epfd_ EPOLL_CTL_ADD sfd
         (EPOLLIN ||| EPOLLET ||| EPOLLEXCLUSIVE) (Cookie.u32 sfd)))

/-- The `for` loop of `wait` in the acceptor (`epoll<server_pool>::wait(threadCount_)`)
over the events of one `epoll_wait`; `cast(data)` is `data.u32`. -/
def server_pool.dispatch {σ : Type} (ctl_ret : Int) :
    List Event → server_pool σ → Option (server_pool σ × Option Outcome)
  | [], sp => some (sp, none)
  | e :: es, sp =>
    if e.data.is_null = true then
      let r := sp.base.control ctl_ret sp.threadCount_
      some ({ sp with threadCount_ := r.2.1,
                      clientPool_ := { sp.clientPool_ with trace := sp.clientPool_.trace ++ r.1 } },
            some r.2.2)
    else
      match e.data with
      | Cookie.u32 sfd =>
        (server_pool.process sp sfd e.events e.accepts).bind (server_pool.dispatch ctl_ret es)
      | _ => none

/-- The method `epoll<server_pool>::wait(threadCount_)` of the acceptor, run against the
results of its successive `epoll_wait` calls; `none` when the loop is still
running after the last given result. -/
def server_pool.wait {σ : Type} (ctl_ret : Int) :
    List Polled → server_pool σ → Option (server_pool σ × Outcome)
  | [], _ => none
  | Polled.error :: _, sp => some (sp, Outcome.broke)
  | Polled.ready evs :: rest, sp =>
    match server_pool.dispatch ctl_ret evs sp with
    | none => none
    | some (sp1, some x) => some (sp1, x)
    | some (sp1, none) => server_pool.wait ctl_ret rest sp1

/-! ## The log without the mark queries of the OOB-drain loop -/

/-- The call is an `ioctl(SIOCATMARK)`. -/
def Call.is_mark_query : Call → Bool
  | Call.ioctl_SIOCATMARK _ => true
  | _ => false

/-- The state with the `ioctl(SIOCATMARK)` calls left out of its log. -/
def without_mark_queries {σ : Type} (s : client_pool σ) : client_pool σ :=
  { s with trace := s.trace.filter (fun c => !c.is_mark_query) }

/-! ## epoll.hpp: workers that leave `wait` through a failed `epoll_wait` -/

namespace shutdown

/-- The `epoll_wait` of worker `i` returns -1: the worker leaves the loop by `break` and
`wait` returns without touching `runningInstances` or the control channel. `none`
when the worker is not inside `epoll_wait`. -/
def fail (i : Nat) (s : State) : Option State :=
  if h : i < s.workers.length then
    match (s.workers.get ⟨i, h⟩).pc with
    | Pc.waiting =>
      some { s with workers := s.workers.set i { s.workers.get ⟨i, h⟩ with pc := Pc.exited } }
    | _ => none
  else none

/-- One move of one worker: a step of the shutdown, or a failed `epoll_wait`. -/
inductive Action where
  | step (i : Nat)
  | fail (i : Nat)
deriving DecidableEq, Repr

/-- The effect of one move, `none` when the worker cannot make it. -/
def act : Action → State → Option State
  | Action.step i, s => step i s
  | Action.fail i, s => fail i s

/-- The moves of `sched`, in order; `none` when one of them cannot be made. -/
def run_actions : List Action → State → Option State
  | [], s => some s
  | a :: rest, s => (act a s).bind (run_actions rest)

/-- The worker has returned without having read a token: it left through a failed
`epoll_wait`. -/
def is_lost (w : Worker) : Bool := is_exited w.pc && decide (w.reads = 0)

/-- The number of workers that left through a failed `epoll_wait`. -/
def lost (s : State) : Nat := s.workers.countP is_lost

/-- The reactor after `stop()` returned and `run()` was called again: `threads_` was
cleared, so `threadCount_` is set to `W` and `W` new workers enter `wait`; the control
channel is as the previous round left it. -/
def respawn (W : Nat) (s : State) : State :=
  { workers := List.replicate W { pc := Pc.waiting, reads := 0 }, pending := s.pending,
    armed := s.armed, running := W, writes := 0 }

/-- The state of the workers between `run()` and `close()`: nothing is pending, every
worker is in `epoll_wait` or has left through a failed `epoll_wait`. -/
structure Before (W : Nat) (s : State) : Prop where
  size : s.workers.length = W
  pending_eq : s.pending = 0
  armed_eq : s.armed = true
  running_eq : s.running = W
  idle : handling s = 0
  exited_eq : tally is_exited s = lost s
  total : tally is_waiting s + lost s = W
  reads_eq : ∀ w ∈ s.workers, w.pc = Pc.waiting → w.reads = 0

/-- The invariant of the shutdown when workers may leave through a failed `epoll_wait`:
at most one worker holds the control event, the registration is disabled
exactly while a worker holds an unanswered event, `runningInstances` counts the
workers that have not decremented it, and exactly one token is in flight
(pending, or held by the worker that will write it again) until a worker
decrements `runningInstances` to 0. -/
structure InvG (W : Nat) (s : State) : Prop where
  size : s.workers.length = W
  one : handling s ≤ 1
  armed_iff : s.armed = true ↔ tally is_woken s + tally is_read_done s = 0
  running_eq : s.running
    = tally is_waiting s + tally is_woken s + tally is_read_done s + tally is_rearmed s + lost s
  token : s.pending + tally is_read_done s + tally is_rearmed s + tally is_decremented s
    = if s.running = 0 ∧ tally is_decremented s = 0 then 0 else 1
  post_eq : ∀ w ∈ s.workers, ∀ v, w.pc = Pc.decremented v → v = s.running
  reads_eq : ∀ w ∈ s.workers, (w.pc = Pc.waiting ∨ w.pc = Pc.woken → w.reads = 0) ∧
    (w.pc = Pc.read_done ∨ w.pc = Pc.rearmed ∨ (∃ v, w.pc = Pc.decremented v) → w.reads = 1)
  total : tally is_waiting s + handling s + tally is_exited s = W
  lost_le : lost s ≤ tally is_exited s

end shutdown

/-! ## Lemmas on the slot array and the chain -/

theorem getD_set_ne (buf : List atomic_node) (i j : Nat) (nd : atomic_node) (h : i ≠ j) :
    (buf.set i nd).getD j zero_node = buf.getD j zero_node := by
  simp [List.getD_eq_getElem?_getD, List.getElem?_set, h]

theorem getD_set_eq (buf : List atomic_node) (i : Nat) (nd : atomic_node) (h : i < buf.length) :
    (buf.set i nd).getD i zero_node = nd := by
  simp [List.getD_eq_getElem?_getD, List.getElem?_set, h]

theorem chain_set_of_not_mem (buf : List atomic_node) (x : Nat) (nd : atomic_node) :
    ∀ (l : List Nat) (p : Option Nat), chain buf p l → x ∉ l → chain (buf.set x nd) p l := by
  intro l
  induction l with
  | nil => intro p h _; simpa [chain] using h
  | cons y ys ih =>
    intro p h hx
    simp only [chain] at h ⊢
    obtain ⟨hp, hy, hc⟩ := h
    have hxy : x ≠ y := fun e => hx (by simp [e])
    refine ⟨hp, by simpa using hy, ?_⟩
    rw [getD_set_ne buf x y nd hxy]
    exact ih _ hc (fun hm => hx (List.mem_cons_of_mem _ hm))

theorem chain_lt (buf : List atomic_node) :
    ∀ (l : List Nat) (p : Option Nat), chain buf p l → ∀ i ∈ l, i < buf.length := by
  intro l
  induction l with
  | nil => intro p _ i hi; simp at hi
  | cons y ys ih =>
    intro p h i hi
    simp only [chain] at h
    rcases List.mem_cons.mp hi with e | hm
    · subst e; exact h.2.1
    · exact ih _ h.2.2 i hm

theorem nodup_length_le (l : List Nat) (n : Nat) (hn : l.Nodup) (hl : ∀ i ∈ l, i < n) :
    l.length ≤ n := by
  have hsub : l ⊆ List.range n := fun i hi => List.mem_range.mpr (hl i hi)
  have := (List.subperm_of_subset hn hsub).length_le
  simpa using this

theorem walk_eq_of_chain (buf : List atomic_node) :
    ∀ (l : List Nat) (p : Option Nat) (fuel : Nat), chain buf p l → l.length ≤ fuel →
      walk buf fuel p = l := by
  intro l
  induction l with
  | nil =>
    intro p fuel h _
    simp only [chain] at h
    subst h
    cases fuel <;> rfl
  | cons y ys ih =>
    intro p fuel h hf
    simp only [chain] at h
    obtain ⟨hp, _, hc⟩ := h
    subst hp
    cases fuel with
    | zero => simp at hf
    | succ f =>
      simp only [walk]
      rw [ih _ f hc (by simpa using hf)]

theorem link_nodes_length :
    ∀ (n i : Nat) (buf : List atomic_node), (link_nodes n i buf).length = buf.length := by
  intro n
  induction n with
  | zero => intro i buf; rfl
  | succ n ih => intro i buf; simp only [link_nodes]; rw [ih]; simp

theorem link_nodes_getD :
    ∀ (n i : Nat) (buf : List atomic_node) (j : Nat), i + n < buf.length →
      (link_nodes n i buf).getD j zero_node =
        if i < j ∧ j ≤ i + n then (buf.getD j zero_node).construct (some (j - 1))
        else buf.getD j zero_node := by
  intro n
  induction n with
  | zero =>
    intro i buf j _
    have : ¬ (i < j ∧ j ≤ i + 0) := by omega
    simp only [link_nodes, if_neg this]
  | succ n ih =>
    intro i buf j hlt
    simp only [link_nodes]
    rw [ih _ _ _ (by simp only [List.length_set]; omega)]
    by_cases hj : j = i + 1
    · subst hj
      have h1 : ¬ (i + 1 < i + 1 ∧ i + 1 ≤ i + 1 + n) := by omega
      have h2 : i < i + 1 ∧ i + 1 ≤ i + (n + 1) := by omega
      rw [if_neg h1, if_pos h2, getD_set_eq _ _ _ (by omega)]
      rfl
    · rw [getD_set_ne _ _ _ _ (fun e => hj e.symm)]
      by_cases hc : i + 1 < j ∧ j ≤ i + 1 + n
      · have h2 : i < j ∧ j ≤ i + (n + 1) := by omega
        rw [if_pos hc, if_pos h2]
      · have h2 : ¬ (i < j ∧ j ≤ i + (n + 1)) := by omega
        rw [if_neg hc, if_neg h2]

theorem mem_descending (m i : Nat) : i ∈ descending m ↔ i ≤ m := by
  induction m with
  | zero => simp [descending]
  | succ m ih =>
    simp only [descending, List.mem_cons, ih]
    omega

theorem descending_length (m : Nat) : (descending m).length = m + 1 := by
  induction m with
  | zero => rfl
  | succ m ih => simp [descending, ih]

theorem descending_nodup (m : Nat) : (descending m).Nodup := by
  induction m with
  | zero => simp [descending]
  | succ m ih =>
    simp only [descending, List.nodup_cons, mem_descending]
    exact ⟨by omega, ih⟩

theorem chain_descending (buf : List atomic_node)
    (h0 : (buf.getD 0 zero_node).next = none)
    (hs : ∀ j, 0 < j → j < buf.length → (buf.getD j zero_node).next = some (j - 1)) :
    ∀ m, m < buf.length → chain buf (some m) (descending m) := by
  intro m
  induction m with
  | zero =>
    intro hm
    simp only [descending, chain]
    exact ⟨trivial, hm, h0⟩
  | succ m ih =>
    intro hm
    simp only [descending, chain]
    refine ⟨trivial, hm, ?_⟩
    rw [hs (m + 1) (by omega) hm]
    exact ih (by omega)

/-! ## The rounding of the capacity hint -/

theorem round_hint_multiple (pagesize hint : Nat) (h : hint % pagesize = 0) :
    round_hint pagesize hint = hint := by
  simp [round_hint, h]

theorem round_hint_eq (pagesize hint : Nat) (hh : hint < SIZE_MOD)
    (h : hint % pagesize ≠ 0) :
    round_hint pagesize hint = (hint + pagesize - hint % pagesize) % SIZE_MOD := by
  have hle : hint % pagesize ≤ hint := Nat.mod_le _ _
  simp only [round_hint, if_pos h, size_sub, size_add, SIZE_MOD] at *
  omega

theorem round_hint_lt (pagesize hint : Nat) (hh : hint < SIZE_MOD) :
    round_hint pagesize hint < SIZE_MOD := by
  by_cases h : hint % pagesize = 0
  · rw [round_hint_multiple _ _ h]; exact hh
  · rw [round_hint_eq _ _ hh h]
    exact Nat.mod_lt _ (by decide)

theorem round_up_mod (pagesize hint : Nat) :
    (hint + pagesize - hint % pagesize) % pagesize = 0 := by
  have hle : hint % pagesize ≤ hint := Nat.mod_le _ _
  have hd := Nat.div_add_mod hint pagesize
  have e : hint + pagesize - hint % pagesize = pagesize * (hint / pagesize + 1) := by
    rw [Nat.mul_add, Nat.mul_one]
    omega
  rw [e]
  exact Nat.mul_mod_right _ _

theorem detail_genmap_hint (pagesize : Nat) (env : MapEnv) (unitsize hint : Nat) :
    (detail.genmap pagesize env unitsize hint).2 =
      (round_hint pagesize hint, size_mul (round_hint pagesize hint) unitsize) := by
  simp only [detail.genmap]
  split_ifs <;> rfl

theorem detail_genmap_mem (pagesize : Nat) (env : MapEnv) (unitsize hint : Nat)
    (h1 : env.memfd_create ≠ -1) (h2 : env.ftruncate ≠ -1) (h3 : env.mmap_none_ok = true)
    (h4 : env.mmap_fixed_ok = true) :
    detail.genmap pagesize env unitsize hint =
      (MapPtr.mem, round_hint pagesize hint, size_mul (round_hint pagesize hint) unitsize) := by
  simp [detail.genmap, h1, h2, h3, h4]

/-! ## The free-list built by `create` -/

theorem create_true (pagesize unitsize : Nat) (env : MapEnv) (hint cap : Nat)
    (st : atomic_stack)
    (h : atomic_stack.init.create pagesize unitsize env hint = some (true, cap, st)) :
    cap = round_hint pagesize hint ∧ cap ≠ 0 ∧
      st = { head_ := some (size_sub cap 1), capacity_ := cap,
             buffer_ := some (link_nodes (size_sub cap 1) 0
               ((List.replicate cap zero_node).set 0 (zero_node.construct none))) } := by
  simp only [atomic_stack.create, atomic_stack.init] at h
  rw [if_neg (by simp)] at h
  have h2 := detail_genmap_hint pagesize env unitsize hint
  generalize detail.genmap pagesize env unitsize hint = g at h h2
  obtain ⟨ptr, c, sz⟩ := g
  simp only [Prod.mk.injEq] at h2
  cases ptr <;> simp only [] at h
  · simp at h
  · simp at h
  · simp at h
  · split_ifs at h with hc
    simp only [Option.some.injEq, Prod.mk.injEq, true_and] at h
    obtain ⟨e1, e2⟩ := h
    subst e1
    push_neg at hc
    exact ⟨h2.1, hc.1, e2.symm⟩

theorem create_good (cap : Nat) (hpos : cap ≠ 0) (hlt : cap < SIZE_MOD) :
    let buf := link_nodes (size_sub cap 1) 0
      ((List.replicate cap zero_node).set 0 (zero_node.construct none))
    buf.length = cap ∧ chain buf (some (size_sub cap 1)) (descending (cap - 1)) ∧
      (∀ i, (buf.getD i zero_node).sfd = 0) := by
  have hsub : size_sub cap 1 = cap - 1 := by
    simp only [size_sub, SIZE_MOD] at *
    omega
  intro buf
  have hlen : buf.length = cap := by
    simp only [buf, link_nodes_length, List.length_set, List.length_replicate]
  have hget : ∀ j, buf.getD j zero_node =
      if 0 < j ∧ j ≤ 0 + (cap - 1) then
        (((List.replicate cap zero_node).set 0 (zero_node.construct none)).getD j
          zero_node).construct (some (j - 1))
      else ((List.replicate cap zero_node).set 0 (zero_node.construct none)).getD j zero_node := by
    intro j
    simp only [buf, hsub]
    exact link_nodes_getD (cap - 1) 0 _ j
      (by simp only [List.length_set, List.length_replicate]; omega)
  refine ⟨hlen, ?_, ?_⟩
  · rw [hsub]
    apply chain_descending
    · rw [hget 0, if_neg (by omega), getD_set_eq _ _ _ (by simp; omega)]
      rfl
    · intro j hj _
      rw [hlen] at *
      rw [hget j, if_pos (by omega)]
      rfl
    · omega
  · intro i
    rw [hget i]
    split_ifs with hc
    · rfl
    · by_cases hi : i = 0
      · subst hi
        rw [getD_set_eq _ _ _ (by simp; omega)]
        rfl
      · rw [getD_set_ne _ _ _ _ (fun e => hi e.symm)]
        simp only [List.getD_eq_getElem?_getD, List.getElem?_replicate]
        split_ifs <;> rfl

/-! ## The invariant through the operations of the connection reactor -/

section pool_lemmas

variable {σ : Type}

theorem good_free_list (s : client_pool σ) (l : List Nat) (h : good s l) :
    s.freeMem_.free_list = l := by
  obtain ⟨buf, hb, _, _, hc, hn, _, _⟩ := h
  have hlen : l.length ≤ buf.length := nodup_length_le l buf.length hn (chain_lt buf l _ hc)
  simp only [atomic_stack.free_list, atomic_stack.data, hb, Option.getD_some]
  exact walk_eq_of_chain buf l _ _ hc hlen

theorem invariant_of_good (s : client_pool σ) (l : List Nat) (h : good s l) : s.invariant := by
  have hfl := good_free_list s l h
  obtain ⟨buf, hb, hlen, hcap, hc, hn, hz, hcnt⟩ := h
  have hd : s.freeMem_.data = buf := by simp [atomic_stack.data, hb]
  refine ⟨by simp [hb], by rw [hd]; exact hlen, hcap, ?_, ?_, ?_, ?_⟩
  · rw [hd, hfl]; exact hc
  · rw [hfl]; exact hn
  · intro i hi
    rw [hfl] at hi
    simpa [client_pool.slot, atomic_stack.node, hd] using hz i hi
  · rw [hfl]; exact hcnt

theorem good_of_invariant (s : client_pool σ) (h : s.invariant) :
    good s s.freeMem_.free_list := by
  obtain ⟨ha, hsz, hcap, hc, hn, hz, hcnt⟩ := h
  obtain ⟨buf, hb⟩ := Option.isSome_iff_exists.mp ha
  have hd : s.freeMem_.data = buf := by simp [atomic_stack.data, hb]
  refine ⟨buf, hb, by rw [← hd]; exact hsz, hcap, by rw [← hd]; exact hc, hn, ?_, hcnt⟩
  intro i hi
  simpa [client_pool.slot, atomic_stack.node, hd] using hz i hi

theorem good_log (s : client_pool σ) (l : List Nat) (c : Call) (h : good s l) :
    good (s.log c) l := h

theorem good_use_nil (s : client_pool σ) (sfd : Int) (h : good s []) :
    s.use sfd = (none, s) := by
  obtain ⟨buf, _, _, _, hc, _⟩ := h
  simp only [chain] at hc
  simp [client_pool.use, atomic_stack.pop, hc]

theorem good_use_cons (s : client_pool σ) (sfd : Int) (x : Nat) (t : List Nat)
    (h : good s (x :: t)) :
    (s.use sfd).1 = some x ∧ good (s.use sfd).2 t ∧
      (s.use sfd).2.clientCount_ = s.clientCount_ + 1 ∧
      (s.use sfd).2.clientCap_ = s.clientCap_ ∧
      ((s.use sfd).2.slot x).sfd = sfd ∧ (s.use sfd).2.trace = s.trace ∧
      (s.use sfd).2.derived = s.derived ∧ (s.use sfd).2.base = s.base := by
  obtain ⟨buf, hb, hlen, hcap, hc, hn, hz, hcnt⟩ := h
  simp only [chain] at hc
  obtain ⟨hhead, hx, hc⟩ := hc
  have hxt : x ∉ t := (List.nodup_cons.mp hn).1
  have hcount : size_add s.clientCount_ 1 = s.clientCount_ + 1 := by
    simp only [size_add]
    apply Nat.mod_eq_of_lt
    simp only [List.length_cons] at hcnt
    omega
  have huse : s.use sfd = (some x,
      { s with
        freeMem_ := { s.freeMem_ with
          head_ := (buf.getD x zero_node).next,
          buffer_ := some (buf.set x ((buf.getD x zero_node).construct_client sfd)) },
        clientCount_ := s.clientCount_ + 1 }) := by
    simp [client_pool.use, atomic_stack.pop, hhead, hcount, client_pool.slot,
      atomic_stack.set_node, atomic_stack.node, atomic_stack.data, hb]
  rw [huse]
  refine ⟨rfl, ?_, rfl, rfl, ?_, rfl, rfl, rfl⟩
  · refine ⟨_, rfl, by simpa using hlen, hcap, ?_, (List.nodup_cons.mp hn).2, ?_, ?_⟩
    · exact chain_set_of_not_mem buf x _ t _ hc hxt
    · intro i hi
      have hne : x ≠ i := fun e => hxt (e ▸ hi)
      rw [getD_set_ne buf x i _ hne]
      exact hz i (List.mem_cons_of_mem _ hi)
    · simp only [List.length_cons] at hcnt
      show t.length + (s.clientCount_ + 1) = s.clientCap_
      omega
  · show (((buf.set x ((buf.getD x zero_node).construct_client sfd)).getD x zero_node)).sfd = sfd
    rw [getD_set_eq buf x _ hx]
    rfl

theorem unuse_eq (s : client_pool σ) (cl : Nat) (buf : List atomic_node)
    (hb : s.freeMem_.buffer_ = some buf) (hcl : cl < buf.length) :
    s.unuse cl =
      { s with
        freeMem_ := { s.freeMem_ with
          head_ := some cl,
          buffer_ := some (buf.set cl { sfd := 0, buff := (buf.getD cl zero_node).buff,
                                        next := s.freeMem_.head_ }) },
        clientCount_ := size_sub s.clientCount_ 1,
        trace := s.trace ++ [Call.epoll_ctl s.base.epfd_ EPOLL_CTL_DEL (buf.getD cl zero_node).sfd 0
                    (Cookie.ptr none), Call.endpoint_close (buf.getD cl zero_node).sfd] } := by
  simp [client_pool.unuse, client_pool.remove, client_pool.log, client_pool.slot,
    atomic_stack.push, atomic_stack.set_node, atomic_stack.node, atomic_stack.data, hb,
    List.getElem?_set, hcl]

theorem good_unuse (s : client_pool σ) (cl : Nat) (l : List Nat) (h : good s l)
    (hcl : cl < s.clientCap_) (hfree : cl ∉ l) : good (s.unuse cl) (cl :: l) := by
  obtain ⟨buf, hb, hlen, hcap, hc, hn, hz, hcnt⟩ := h
  have hlt : ∀ i ∈ l, i < buf.length := chain_lt buf l _ hc
  have hbound : (cl :: l).length ≤ buf.length :=
    nodup_length_le (cl :: l) buf.length (List.nodup_cons.mpr ⟨hfree, hn⟩)
      (fun i hi => by
        rcases List.mem_cons.mp hi with e | hm
        · subst e; omega
        · exact hlt i hm)
  simp only [List.length_cons] at hbound
  have hpos : 1 ≤ s.clientCount_ := by omega
  have hcount : size_sub s.clientCount_ 1 = s.clientCount_ - 1 := by
    simp only [size_sub, SIZE_MOD] at *
    omega
  have hclb : cl < buf.length := by omega
  rw [unuse_eq s cl buf hb hclb]
  refine ⟨_, rfl, by simpa using hlen, hcap, ?_, List.nodup_cons.mpr ⟨hfree, hn⟩, ?_, ?_⟩
  · simp only [chain]
    refine ⟨trivial, by simpa using hclb, ?_⟩
    rw [getD_set_eq _ cl _ hclb]
    exact chain_set_of_not_mem buf cl _ l _ hc hfree
  · intro i hi
    rcases List.mem_cons.mp hi with e | hm
    · subst e
      rw [getD_set_eq _ i _ hclb]
    · have hne : cl ≠ i := fun e => hfree (e ▸ hm)
      rw [getD_set_ne _ cl i _ hne]
      exact hz i hm
  · show (cl :: l).length + size_sub s.clientCount_ 1 = s.clientCap_
    simp only [hcount, List.length_cons]
    omega

theorem unuse_clientCap (s : client_pool σ) (cl : Nat) :
    (s.unuse cl).clientCap_ = s.clientCap_ := by
  unfold client_pool.unuse
  rfl

theorem add_client_nil (s : client_pool σ) (sfd ctl_ret : Int) (h : good s []) :
    s.add_client sfd ctl_ret = (false, s) := by
  simp [client_pool.add_client, good_use_nil s sfd h]

theorem add_client_cons (s : client_pool σ) (sfd ctl_ret : Int) (x : Nat) (t : List Nat)
    (h : good s (x :: t)) :
    s.add_client sfd ctl_ret = (decide (ctl_ret = 0), (s.use sfd).2.add x) ∧
      good (s.add_client sfd ctl_ret).2 t := by
  obtain ⟨h1, h2, _⟩ := good_use_cons s sfd x t h
  have he : s.add_client sfd ctl_ret = (decide (ctl_ret = 0), (s.use sfd).2.add x) := by
    have : s.use sfd = (some x, (s.use sfd).2) := Prod.ext h1 rfl
    simp only [client_pool.add_client]
    rw [this]
  refine ⟨he, ?_⟩
  rw [he]
  exact good_log _ _ _ h2

theorem good_add_client (s : client_pool σ) (sfd ctl_ret : Int) (l : List Nat) (h : good s l) :
    ∃ l2, good (s.add_client sfd ctl_ret).2 l2 := by
  cases l with
  | nil => exact ⟨[], by rw [add_client_nil s sfd ctl_ret h]; exact h⟩
  | cons x t => exact ⟨t, (add_client_cons s sfd ctl_ret x t h).2⟩

theorem good_sweep_step (acc : client_pool σ) (i : Nat) (hi : i < acc.clientCap_)
    (h : ∃ l, good acc l) :
    ∃ l, good (if (acc.slot i).sfd ≠ 0 then acc.unuse i else acc) l := by
  obtain ⟨l, hg⟩ := h
  by_cases hs : (acc.slot i).sfd ≠ 0
  · rw [if_pos hs]
    refine ⟨i :: l, good_unuse acc i l hg hi ?_⟩
    intro hm
    obtain ⟨buf, hb, _, _, _, _, hz, _⟩ := hg
    apply hs
    simpa [client_pool.slot, atomic_stack.node, atomic_stack.data, hb] using hz i hm
  · rw [if_neg hs]
    exact ⟨l, hg⟩

theorem good_sweep_fold (cap : Nat) :
    ∀ (is : List Nat) (acc : client_pool σ), (∀ i ∈ is, i < cap) → acc.clientCap_ = cap →
      (∃ l, good acc l) →
      ∃ l, good (is.foldl (fun a i => if (a.slot i).sfd ≠ 0 then a.unuse i else a) acc) l := by
  intro is
  induction is with
  | nil => intro acc _ _ h; simpa using h
  | cons i rest ih =>
    intro acc hlt hcap h
    simp only [List.foldl_cons]
    apply ih
    · intro j hj; exact hlt j (List.mem_cons_of_mem _ hj)
    · by_cases hs : (acc.slot i).sfd ≠ 0
      · rw [if_pos hs, unuse_clientCap]; exact hcap
      · rw [if_neg hs]; exact hcap
    · exact good_sweep_step acc i (by rw [hcap]; exact hlt i (List.mem_cons_self _ _)) h

theorem good_stop_sweep (s : client_pool σ) (l : List Nat) (h : good s l) :
    ∃ l2, good s.stop_sweep l2 :=
  good_sweep_fold s.clientCap_ (List.range s.clientCap_) s
    (fun _ hi => List.mem_range.mp hi) rfl ⟨l, h⟩

theorem ctor_good (derived : σ) (workerCount clientCap pagesize unitsize : Nat)
    (eenv : EpollEnv) (menv : MapEnv) (s : client_pool σ)
    (h : client_pool.ctor derived workerCount clientCap pagesize unitsize eenv menv
      = some (Except.ok s)) :
    good s (descending (s.clientCap_ - 1)) ∧ s.clientCount_ = 0 ∧ s.clientCap_ ≠ 0 ∧
      s.clientCap_ = round_hint pagesize (clientCap % SIZE_MOD) ∧ s.derived = derived := by
  simp only [client_pool.ctor] at h
  cases he : epoll.ctor DEFAULT_MAX_EVENTS eenv with
  | error e => rw [he] at h; simp at h
  | ok r =>
    obtain ⟨ep, tr⟩ := r
    rw [he] at h
    simp only [] at h
    cases hc : atomic_stack.init.create pagesize unitsize menv (clientCap % SIZE_MOD) with
    | none => rw [hc] at h; simp at h
    | some r2 =>
      obtain ⟨b, cap, fm⟩ := r2
      rw [hc] at h
      cases b with
      | false => simp at h
      | true =>
        simp only [Option.some.injEq, Except.ok.injEq] at h
        obtain ⟨hcap, hpos, hfm⟩ := create_true _ _ _ _ _ _ hc
        have hlt : cap < SIZE_MOD := by
          rw [hcap]; exact round_hint_lt _ _ (Nat.mod_lt _ (by decide))
        obtain ⟨g1, g2, g3⟩ := create_good cap hpos hlt
        subst h
        refine ⟨⟨_, by rw [hfm], g1, hlt, by rw [hfm]; exact g2, descending_nodup _,
          fun i _ => g3 i, ?_⟩, rfl, hpos, hcap, rfl⟩
        show (descending (cap - 1)).length + 0 = cap
        rw [descending_length]
        omega

theorem ctor_ok (derived : σ) (workerCount clientCap pagesize unitsize : Nat)
    (eenv : EpollEnv) (menv : MapEnv)
    (e1 : eenv.epoll_create1 ≠ -1) (e2 : eenv.socketpair ≠ -1) (e3 : eenv.ctl ≠ -1)
    (m1 : menv.memfd_create ≠ -1) (m2 : menv.ftruncate ≠ -1) (m3 : menv.mmap_none_ok = true)
    (m4 : menv.mmap_fixed_ok = true)
    (hpos : round_hint pagesize (clientCap % SIZE_MOD) ≠ 0)
    (hsize : round_hint pagesize (clientCap % SIZE_MOD) * unitsize < SIZE_MOD) :
    ∃ s, client_pool.ctor derived workerCount clientCap pagesize unitsize eenv menv
      = some (Except.ok s) := by
  have hm : size_mul (round_hint pagesize (clientCap % SIZE_MOD)) unitsize
      = round_hint pagesize (clientCap % SIZE_MOD) * unitsize := Nat.mod_eq_of_lt hsize
  simp [client_pool.ctor, epoll.ctor, e1, e2, e3, atomic_stack.create, atomic_stack.init,
    detail_genmap_mem _ _ _ _ m1 m2 m3 m4, hpos, hm]

/-! ## The read-drain loop -/

theorem store_slot_sfd (s : client_pool σ) (cl : Nat) (d : List Nat) (j : Nat) :
    ((s.store cl d).slot j).sfd = (s.slot j).sfd := by
  simp only [client_pool.store, client_pool.slot, atomic_stack.set_node, atomic_stack.node,
    atomic_stack.data]
  cases hb : s.freeMem_.buffer_ with
  | none => rfl
  | some buf =>
    simp only [Option.map_some', Option.getD_some]
    by_cases hj : cl = j
    · subst hj
      by_cases hv : cl < buf.length
      · rw [getD_set_eq _ _ _ hv]
      · rw [List.set_eq_of_length_le (by omega)]
    · rw [getD_set_ne _ _ _ _ hj]

theorem store_slot_buff (s : client_pool σ) (cl : Nat) (d : List Nat)
    (hv : cl < s.freeMem_.data.length) :
    ((s.store cl d).slot cl).buff = store_buff (s.slot cl).buff d := by
  simp only [client_pool.store, client_pool.slot, atomic_stack.set_node, atomic_stack.node,
    atomic_stack.data] at *
  cases hb : s.freeMem_.buffer_ with
  | none => rw [hb] at hv; simp at hv
  | some buf =>
    rw [hb] at hv
    simp only [Option.map_some', Option.getD_some] at *
    rw [getD_set_eq _ _ _ hv]
    rfl

theorem store_length (s : client_pool σ) (cl : Nat) (d : List Nat) :
    (s.store cl d).freeMem_.data.length = s.freeMem_.data.length := by
  simp only [client_pool.store, atomic_stack.set_node, atomic_stack.data]
  cases s.freeMem_.buffer_ <;> simp

theorem after_reads_sfd (h : Tderiv σ) :
    ∀ (rs : List RecvResult) (s : client_pool σ) (cl j : Nat),
      ((after_reads h rs s cl).slot j).sfd = (s.slot j).sfd := by
  intro rs
  induction rs with
  | nil => intro s cl j; rfl
  | cons r rs ih =>
    intro s cl j
    simp only [after_reads]
    rw [ih]
    exact store_slot_sfd (s.log _) cl r.data j

theorem after_reads_trace (h : Tderiv σ) :
    ∀ (rs : List RecvResult) (s : client_pool σ) (cl : Nat),
      (after_reads h rs s cl).trace
        = s.trace ++ List.replicate rs.length (Call.endpoint_read (s.slot cl).sfd MAX_READ_SIZE) := by
  intro rs
  induction rs with
  | nil => intro s cl; simp [after_reads]
  | cons r rs ih =>
    intro s cl
    simp only [after_reads]
    rw [ih]
    have e : (((s.log (Call.endpoint_read (s.slot cl).sfd MAX_READ_SIZE)).store cl r.data).slot
        cl).sfd = (s.slot cl).sfd := store_slot_sfd _ cl r.data cl
    show ((s.log _).store cl r.data).trace ++ List.replicate rs.length
      (Call.endpoint_read (((s.log _).store cl r.data).slot cl).sfd MAX_READ_SIZE) = _
    rw [e]
    simp [client_pool.store, client_pool.log, List.replicate_succ]

theorem after_reads_derived (h : Tderiv σ) :
    ∀ (rs : List RecvResult) (s : client_pool σ) (cl : Nat), cl < s.freeMem_.data.length →
      (after_reads h rs s cl).derived
        = (on_input_calls (s.slot cl).buff rs).foldl
            (fun u c => h.on_input (s.slot cl).sfd c.1 c.2 u) s.derived := by
  intro rs
  induction rs with
  | nil => intro s cl _; rfl
  | cons r rs ih =>
    intro s cl hv
    have e1 : (((s.log (Call.endpoint_read (s.slot cl).sfd MAX_READ_SIZE)).store cl r.data).slot
        cl).sfd = (s.slot cl).sfd := store_slot_sfd _ cl r.data cl
    have e2 : (((s.log (Call.endpoint_read (s.slot cl).sfd MAX_READ_SIZE)).store cl r.data).slot
        cl).buff = store_buff (s.slot cl).buff r.data := store_slot_buff (s.log _) cl r.data hv
    simp only [after_reads, on_input_calls, List.foldl_cons]
    rw [ih _ _ (by
      show ((s.log _).store cl r.data).freeMem_.data.length > cl
      rw [store_length]; exact hv)]
    show (on_input_calls (((s.log _).store cl r.data).slot cl).buff rs).foldl
      (fun u c => h.on_input (((s.log _).store cl r.data).slot cl).sfd c.1 c.2 u)
      (h.on_input (((s.log _).store cl r.data).slot cl).sfd
        (((s.log _).store cl r.data).slot cl).buff r.ret s.derived) = _
    rw [e1, e2]

theorem handle_epollin_append (h : Tderiv σ) :
    ∀ (pos rest : List RecvResult) (s : client_pool σ) (cl : Nat),
      (∀ r ∈ pos, r.ret ≠ -1 ∧ r.ret ≠ 0) →
      client_pool.handle_epollin h (pos ++ rest) s cl
        = client_pool.handle_epollin h rest (after_reads h pos s cl) cl := by
  intro pos
  induction pos with
  | nil => intro rest s cl _; rfl
  | cons r rs ih =>
    intro rest s cl hpos
    have hr := hpos r (List.mem_cons_self _ _)
    simp only [List.cons_append, client_pool.handle_epollin, after_reads, if_neg hr.1, if_neg hr.2]
    exact ih rest _ cl (fun q hq => hpos q (List.mem_cons_of_mem _ hq))

theorem handle_epollin_last (h : Tderiv σ) (term : RecvResult) (rest : List RecvResult)
    (s : client_pool σ) (cl : Nat) (hterm : term.ret = 0 ∨ term.ret = -1) :
    client_pool.handle_epollin h (term :: rest) s cl
      = some (if term.ret = -1 ∧ term.errno = EAGAIN then
          (s.log (Call.endpoint_read (s.slot cl).sfd MAX_READ_SIZE)).rearm cl
        else (s.log (Call.endpoint_read (s.slot cl).sfd MAX_READ_SIZE)).unuse cl) := by
  simp only [client_pool.handle_epollin]
  rcases hterm with h0 | h1
  · have hn : term.ret ≠ -1 := by omega
    simp [hn, h0]
  · by_cases he : term.errno = EAGAIN
    · simp [h1, he]
    · simp [h1, he]

theorem unuse_trace (s : client_pool σ) (cl : Nat) :
    (s.unuse cl).trace = s.trace ++
      [Call.epoll_ctl s.base.epfd_ EPOLL_CTL_DEL (s.slot cl).sfd 0 (Cookie.ptr none),
       Call.endpoint_close (s.slot cl).sfd] := by
  unfold client_pool.unuse
  simp [client_pool.remove, client_pool.log, client_pool.slot]

theorem unuse_derived (s : client_pool σ) (cl : Nat) : (s.unuse cl).derived = s.derived := by
  unfold client_pool.unuse
  rfl

theorem after_reads_base (h : Tderiv σ) :
    ∀ (rs : List RecvResult) (s : client_pool σ) (cl : Nat),
      (after_reads h rs s cl).base = s.base := by
  intro rs
  induction rs with
  | nil => intro s cl; rfl
  | cons r rs ih =>
    intro s cl
    simp only [after_reads]
    rw [ih]
    rfl

theorem rearm_trace (s : client_pool σ) (cl : Nat) :
    (s.rearm cl).trace = s.trace ++
      [Call.epoll_ctl s.base.epfd_ EPOLL_CTL_MOD (s.slot cl).sfd
        (EPOLLIN ||| EPOLLET ||| EPOLLRDHUP ||| EPOLLPRI ||| EPOLLONESHOT)
        (Cookie.ptr (some cl))] := rfl

theorem handle_epollin_drain (h : Tderiv σ) (s : client_pool σ) (cl : Nat)
    (pos : List RecvResult) (term : RecvResult) (rest : List RecvResult)
    (hpos : ∀ r ∈ pos, 0 < r.ret) (hterm : term.ret = 0 ∨ term.ret = -1)
    (hv : cl < s.freeMem_.data.length) :
    client_pool.handle_epollin h (pos ++ term :: rest) s cl
      = some (if term.ret = -1 ∧ term.errno = EAGAIN then
          ((after_reads h pos s cl).log (Call.endpoint_read (s.slot cl).sfd 4096)).rearm cl
        else ((after_reads h pos s cl).log (Call.endpoint_read (s.slot cl).sfd 4096)).unuse cl) ∧
    (client_pool.handle_epollin h (pos ++ term :: rest) s cl).map (fun fin => fin.trace)
      = some (s.trace
          ++ List.replicate (pos.length + 1) (Call.endpoint_read (s.slot cl).sfd 4096)
          ++ (if term.ret = -1 ∧ term.errno = EAGAIN then
                [Call.epoll_ctl s.base.epfd_ EPOLL_CTL_MOD (s.slot cl).sfd
                  (EPOLLIN ||| EPOLLET ||| EPOLLRDHUP ||| EPOLLPRI ||| EPOLLONESHOT)
                  (Cookie.ptr (some cl))]
              else
                [Call.epoll_ctl s.base.epfd_ EPOLL_CTL_DEL (s.slot cl).sfd 0 (Cookie.ptr none),
                 Call.endpoint_close (s.slot cl).sfd])) ∧
    (client_pool.handle_epollin h (pos ++ term :: rest) s cl).map (fun fin => fin.derived)
      = some ((on_input_calls (s.slot cl).buff pos).foldl
          (fun u c => h.on_input (s.slot cl).sfd c.1 c.2 u) s.derived) := by
  have hpos2 : ∀ r ∈ pos, r.ret ≠ -1 ∧ r.ret ≠ 0 := by
    intro r hr
    have := hpos r hr
    omega
  have hsfd : ((after_reads h pos s cl).slot cl).sfd = (s.slot cl).sfd :=
    after_reads_sfd h pos s cl cl
  have hmain : client_pool.handle_epollin h (pos ++ term :: rest) s cl
      = some (if term.ret = -1 ∧ term.errno = EAGAIN then
          ((after_reads h pos s cl).log (Call.endpoint_read (s.slot cl).sfd 4096)).rearm cl
        else ((after_reads h pos s cl).log (Call.endpoint_read (s.slot cl).sfd 4096)).unuse cl) := by
    rw [handle_epollin_append h pos _ s cl hpos2, handle_epollin_last h term rest _ cl hterm,
      hsfd]
    rfl
  refine ⟨hmain, ?_, ?_⟩
  · rw [hmain]
    simp only [Option.map_some', Option.some.injEq]
    split_ifs
    · rw [rearm_trace]
      show (after_reads h pos s cl).trace ++ [_] ++ [Call.epoll_ctl (after_reads h pos s cl).base.epfd_
        EPOLL_CTL_MOD ((after_reads h pos s cl).slot cl).sfd _ _] = _
      rw [after_reads_trace, after_reads_base, hsfd]
      simp [List.replicate_succ', MAX_READ_SIZE]
    · rw [unuse_trace]
      show (after_reads h pos s cl).trace ++ [_] ++ [Call.epoll_ctl (after_reads h pos s cl).base.epfd_
        EPOLL_CTL_DEL ((after_reads h pos s cl).slot cl).sfd _ _,
        Call.endpoint_close ((after_reads h pos s cl).slot cl).sfd] = _
      rw [after_reads_trace, after_reads_base, hsfd]
      simp [List.replicate_succ', MAX_READ_SIZE]
  · rw [hmain]
    simp only [Option.map_some', Option.some.injEq]
    split_ifs
    · show (after_reads h pos s cl).derived = _
      exact after_reads_derived h pos s cl hv
    · rw [unuse_derived]
      show (after_reads h pos s cl).derived = _
      exact after_reads_derived h pos s cl hv

/-! ## The OOB-drain loop and the decoding of the event flags -/

theorem handle_epollpri_on_oob (h : Tderiv σ) (f : Int → Nat → σ → σ) :
    ∀ (ps : List PriStep) (s : client_pool σ) (cl : Nat),
      client_pool.handle_epollpri { h with on_oob := f } ps s cl
        = client_pool.handle_epollpri h ps s cl := by
  intro ps
  induction ps with
  | nil => intro s cl; rfl
  | cons p ps ih =>
    intro s cl
    simp only [client_pool.handle_epollpri, ih]

theorem process_default (h : Tderiv σ) (s : client_pool σ) (cl flags : Nat)
    (rs : List RecvResult) (ps : List PriStep) (hne : flags ∉ case_labels) :
    client_pool.process h s cl flags rs ps
      = if flags &&& EPOLLERR = EPOLLERR then some (s.unuse cl) else some s := by
  unfold client_pool.process
  rw [if_neg (by rintro (e | e | e | e) <;> exact hne (e ▸ by decide)),
    if_neg (by rintro (e | e | e | e | e) <;> exact hne (e ▸ by decide)),
    if_neg (by rintro (e | e | e | e | e) <;> exact hne (e ▸ by decide)),
    if_neg (by rintro (e | e | e | e | e) <;> exact hne (e ▸ by decide)),
    if_neg (by intro e; exact hne (e ▸ by decide)),
    if_neg (by intro e; exact hne (e ▸ by decide)),
    if_neg (by intro e; exact hne (e ▸ by decide)),
    if_neg (by intro e; exact hne (e ▸ by decide))]

theorem case_labels_no_err (flags : Nat) (herr : flags &&& EPOLLERR = EPOLLERR) :
    flags ∉ case_labels := by
  intro hm
  have hall : ∀ c ∈ case_labels, c &&& EPOLLERR = 0 := by decide
  have h0 := hall flags hm
  rw [h0] at herr
  exact absurd herr (by decide)

theorem handle_epollin_on_write_ready (h : Tderiv σ) (f : Int → σ → σ) :
    ∀ (rs : List RecvResult) (s : client_pool σ) (cl : Nat),
      client_pool.handle_epollin { h with on_write_ready := f } rs s cl
        = client_pool.handle_epollin h rs s cl := by
  intro rs
  induction rs with
  | nil => intro s cl; rfl
  | cons r rs ih =>
    intro s cl
    simp only [client_pool.handle_epollin, ih]

theorem handle_epollpri_on_write_ready (h : Tderiv σ) (f : Int → σ → σ) :
    ∀ (ps : List PriStep) (s : client_pool σ) (cl : Nat),
      client_pool.handle_epollpri { h with on_write_ready := f } ps s cl
        = client_pool.handle_epollpri h ps s cl := by
  intro ps
  induction ps with
  | nil => intro s cl; rfl
  | cons p ps ih =>
    intro s cl
    simp only [client_pool.handle_epollpri, ih]

/-! ## The sweep of `stop` -/

theorem same_control_add_client (s : client_pool σ) (sfd ctl_ret : Int) :
    same_control s (s.add_client sfd ctl_ret).2 := by
  simp only [client_pool.add_client, client_pool.use, atomic_stack.pop]
  cases s.freeMem_.head_ <;> exact ⟨rfl, rfl, rfl, rfl⟩

theorem stop_eq (t : client_pool σ) (joined : Nat) (hthr : t.threads_ ≠ 0) :
    t.stop joined = (List.range t.clientCap_).foldl
      (fun a i => if (a.slot i).sfd ≠ 0 then a.unuse i else a)
      { t with trace := t.trace ++ [Call.endpoint_write t.base.selfpipe_.1 [36]],
               threadCount_ := joined, threads_ := 0 } := by
  simp only [client_pool.stop, if_pos hthr, client_pool.stop_sweep]
  rfl

theorem accept_loop_append :
    ∀ (accs rest : List Accepted) (sp : server_pool σ) (sfd : Int),
      (∀ a ∈ accs, a.cfd ≠ -1) →
      server_pool.accept_loop (accs ++ rest) sp sfd
        = server_pool.accept_loop rest (after_accepts sp sfd accs) sfd := by
  intro accs
  induction accs with
  | nil => intro rest sp sfd _; rfl
  | cons a accs ih =>
    intro rest sp sfd hne
    have ha : a.cfd ≠ -1 := hne a (List.mem_cons_self _ _)
    have hrest : ∀ b ∈ accs, b.cfd ≠ -1 := fun b hb => hne b (List.mem_cons_of_mem _ hb)
    simp only [List.cons_append, server_pool.accept_loop, if_neg ha, after_accepts,
      List.foldl_cons, accept_one]
    by_cases hu : a.unblock_ret ≠ 0
    · simp only [if_pos hu]
      exact ih rest _ sfd hrest
    · simp only [if_neg hu]
      split_ifs
      · exact ih rest _ sfd hrest
      · exact ih rest _ sfd hrest

theorem accept_loop_last (last : Accepted) (rest : List Accepted) (sp : server_pool σ)
    (sfd : Int) (hlast : last.cfd = -1) :
    server_pool.accept_loop (last :: rest) sp sfd = some (sp.log (Call.endpoint_accept sfd)) := by
  simp only [server_pool.accept_loop, if_pos hlast]

/-! ## The order of the effects of `unuse` -/

theorem unuse_steps (s : client_pool σ) (cl : Nat) :
    s.unuse cl
      = unuse_decrement (unuse_push (unuse_zero (unuse_close (unuse_deregister s cl) cl) cl) cl) := by
  unfold client_pool.unuse
  rfl

theorem node_set_node (st : atomic_stack) (i : Nat) (nd : atomic_node) (j : Nat) :
    (st.set_node i nd).node j = if j = i ∧ i < st.data.length then nd else st.node j := by
  simp only [atomic_stack.set_node, atomic_stack.node, atomic_stack.data]
  cases hb : st.buffer_ with
  | none => simp
  | some buf =>
    simp only [Option.map_some', Option.getD_some]
    by_cases hj : j = i
    · subst hj
      by_cases hv : j < buf.length
      · rw [getD_set_eq _ _ _ hv, if_pos ⟨rfl, hv⟩]
      · rw [List.set_eq_of_length_le (by omega), if_neg (fun h => hv h.2)]
    · rw [getD_set_ne _ _ _ _ (fun e => hj e.symm), if_neg (fun h => hj h.1)]

theorem buffers_ok_set_node (s t : client_pool σ) (cl : Nat) (nd : atomic_node)
    (hok : buffers_ok s) (hnd : buff_ok nd.buff)
    (ht : t.freeMem_.data.length = s.freeMem_.data.length)
    (hnode : ∀ j, t.slot j = if j = cl ∧ cl < s.freeMem_.data.length then nd else s.slot j) :
    buffers_ok t := by
  intro i hi
  rw [hnode i]
  split_ifs
  · exact hnd
  · exact hok i (by rw [← ht]; exact hi)

theorem unuse_freeMem (s : client_pool σ) (cl : Nat) :
    (s.unuse cl).freeMem_ = (s.freeMem_.set_node cl { s.slot cl with sfd := 0 }).push cl := by
  unfold client_pool.unuse
  rfl

end pool_lemmas

/-! ## The shutdown of the workers -/

section shutdown_lemmas

open shutdown

theorem countP_set_add (p : Worker → Bool) (l : List Worker) (i : Nat) (a : Worker)
    (h : i < l.length) :
    (l.set i a).countP p + (if p (l.get ⟨i, h⟩) then 1 else 0)
      = l.countP p + (if p a then 1 else 0) := by
  induction l generalizing i with
  | nil => simp at h
  | cons x l ih =>
    cases i with
    | zero => simp [List.countP_cons]; omega
    | succ i =>
      have h2 : i < l.length := by simpa using h
      have := ih i h2
      simp only [List.set_cons_succ, List.countP_cons, List.get_eq_getElem,
        List.getElem_cons_succ] at this ⊢
      omega

theorem rank_sum_set (l : List Worker) (i : Nat) (a : Worker) (h : i < l.length) :
    ((l.set i a).map (fun w => rank w.pc)).sum + rank (l.get ⟨i, h⟩).pc
      = (l.map (fun w => rank w.pc)).sum + rank a.pc := by
  induction l generalizing i with
  | nil => simp at h
  | cons x l ih =>
    cases i with
    | zero => simp; omega
    | succ i =>
      have h2 : i < l.length := by simpa using h
      have := ih i h2
      simp only [List.set_cons_succ, List.map_cons, List.sum_cons, List.get_eq_getElem,
        List.getElem_cons_succ] at this ⊢
      omega

theorem tally_set (p : Pc → Bool) (s t : State) (i : Nat) (a : Worker)
    (h : i < s.workers.length) (ht : t.workers = s.workers.set i a) :
    tally p t + (if p (s.workers.get ⟨i, h⟩).pc then 1 else 0)
      = tally p s + (if p a.pc then 1 else 0) := by
  simp only [tally, ht]
  exact countP_set_add (fun w => p w.pc) s.workers i a h
theorem mem_set_cases (l : List Worker) (i : Nat) (a w : Worker) (h : w ∈ l.set i a) :
    w ∈ l ∨ w = a := List.mem_or_eq_of_mem_set h

theorem get_mem_workers (s : State) (i : Nat) (h : i < s.workers.length) :
    s.workers.get ⟨i, h⟩ ∈ s.workers := List.get_mem _ _ _

theorem tallies_set (s t : State) (i : Nat) (a : Worker) (h : i < s.workers.length)
    (ht : t.workers = s.workers.set i a) :
    (tally is_waiting t + (if is_waiting (s.workers.get ⟨i, h⟩).pc then 1 else 0)
      = tally is_waiting s + (if is_waiting a.pc then 1 else 0)) ∧
    (tally is_woken t + (if is_woken (s.workers.get ⟨i, h⟩).pc then 1 else 0)
      = tally is_woken s + (if is_woken a.pc then 1 else 0)) ∧
    (tally is_read_done t + (if is_read_done (s.workers.get ⟨i, h⟩).pc then 1 else 0)
      = tally is_read_done s + (if is_read_done a.pc then 1 else 0)) ∧
    (tally is_rearmed t + (if is_rearmed (s.workers.get ⟨i, h⟩).pc then 1 else 0)
      = tally is_rearmed s + (if is_rearmed a.pc then 1 else 0)) ∧
    (tally is_decremented t + (if is_decremented (s.workers.get ⟨i, h⟩).pc then 1 else 0)
      = tally is_decremented s + (if is_decremented a.pc then 1 else 0)) ∧
    (tally is_exited t + (if is_exited (s.workers.get ⟨i, h⟩).pc then 1 else 0)
      = tally is_exited s + (if is_exited a.pc then 1 else 0)) ∧
    (steps_left t + rank (s.workers.get ⟨i, h⟩).pc = steps_left s + rank a.pc) ∧
    t.workers.length = s.workers.length := by
  refine ⟨tally_set _ s t i a h ht, tally_set _ s t i a h ht, tally_set _ s t i a h ht,
    tally_set _ s t i a h ht, tally_set _ s t i a h ht, tally_set _ s t i a h ht, ?_, ?_⟩
  · simp only [steps_left, ht]
    exact rank_sum_set s.workers i a h
  · rw [ht, List.length_set]

theorem inv_step (W : Nat) (hW : W < SIZE_MOD) (s t : State) (i : Nat) (hinv : Inv W s)
    (hs : step i s = some t) : Inv W t ∧ steps_left t + 1 = steps_left s := by
  obtain ⟨hsize, hone, harm, hrun, hwr, hpend, hpost, hreads, htot⟩ := hinv
  simp only [handling] at hone htot
  unfold step at hs
  split at hs
  · rename_i h
    have hmem := get_mem_workers s i h
    have hr := hreads _ hmem
    split at hs
    · -- waiting
      rename_i hpc
      split at hs
      · rename_i hc
        simp only [Option.some.injEq] at hs
        obtain ⟨e1, e2, e3, e4, e5, e6, e7, e8⟩ := tallies_set s t i
          { s.workers.get ⟨i, h⟩ with pc := Pc.woken } h (by rw [← hs])
        have f1 : t.pending = s.pending := by rw [← hs]
        have f2 : t.armed = false := by rw [← hs]
        have f3 : t.running = s.running := by rw [← hs]
        have f4 : t.writes = s.writes := by rw [← hs]
        have f5 : t.workers = s.workers.set i { s.workers.get ⟨i, h⟩ with pc := Pc.woken } := by
          rw [← hs]
        simp only [hpc, is_waiting, is_woken, is_read_done, is_rearmed, is_decremented,
          is_exited, if_true, if_false, rank, Bool.false_eq_true] at e1 e2 e3 e4 e5 e6 e7
        have ha := harm.mp hc.1
        refine ⟨⟨by omega, ?_, ?_, ?_, ?_, ?_, ?_, ?_, ?_⟩, ?_⟩
        · simp only [handling]
          split_ifs at hwr <;> omega
        · rw [f2]
          constructor
          · intro hf; simp at hf
          · intro hz; exfalso; omega
        · omega
        · rw [f4]
          split_ifs at hwr ⊢ <;> omega
        · omega
        · intro w hw v hv
          rw [f5] at hw
          rcases mem_set_cases _ _ _ _ hw with hm | he
          · rw [f3]; exact hpost w hm v hv
          · subst he; simp at hv
        · intro w hw
          rw [f5] at hw
          rcases mem_set_cases _ _ _ _ hw with hm | he
          · exact hreads w hm
          · subst he
            simp only [hpc, true_or, if_true] at hr
            simpa using hr
        · simp only [handling]
          omega
        · omega
      · simp at hs
    · -- woken
      rename_i hpc
      split at hs
      · rename_i hc
        simp only [Option.some.injEq] at hs
        obtain ⟨e1, e2, e3, e4, e5, e6, e7, e8⟩ := tallies_set s t i
          { pc := Pc.read_done, reads := (s.workers.get ⟨i, h⟩).reads + 1 } h (by rw [← hs])
        have f1 : t.pending = s.pending - 1 := by rw [← hs]
        have f2 : t.armed = s.armed := by rw [← hs]
        have f3 : t.running = s.running := by rw [← hs]
        have f4 : t.writes = s.writes := by rw [← hs]
        have f5 : t.workers = s.workers.set i
            { pc := Pc.read_done, reads := (s.workers.get ⟨i, h⟩).reads + 1 } := by rw [← hs]
        simp only [hpc, is_waiting, is_woken, is_read_done, is_rearmed, is_decremented,
          is_exited, if_true, if_false, rank, Bool.false_eq_true] at e1 e2 e3 e4 e5 e6 e7
        refine ⟨⟨by omega, ?_, ?_, ?_, ?_, ?_, ?_, ?_, ?_⟩, ?_⟩
        · simp only [handling]
          omega
        · rw [f2]
          constructor
          · intro hf
            have := harm.mp hf
            omega
          · intro hz; exfalso; omega
        · omega
        · rw [f4]
          split_ifs at hwr ⊢ <;> omega
        · omega
        · intro w hw v hv
          rw [f5] at hw
          rcases mem_set_cases _ _ _ _ hw with hm | he
          · rw [f3]; exact hpost w hm v hv
          · subst he; simp at hv
        · intro w hw
          rw [f5] at hw
          rcases mem_set_cases _ _ _ _ hw with hm | he
          · exact hreads w hm
          · subst he
            simp only [hpc, or_true, if_true] at hr
            simp only [List.get_eq_getElem] at hr
            simp [hr]
        · simp only [handling]
          omega
        · omega
      · simp at hs
    · -- read_done
      rename_i hpc
      simp only [Option.some.injEq] at hs
      obtain ⟨e1, e2, e3, e4, e5, e6, e7, e8⟩ := tallies_set s t i
        { s.workers.get ⟨i, h⟩ with pc := Pc.rearmed } h (by rw [← hs])
      have f1 : t.pending = s.pending := by rw [← hs]
      have f2 : t.armed = true := by rw [← hs]
      have f3 : t.running = s.running := by rw [← hs]
      have f4 : t.writes = s.writes := by rw [← hs]
      have f5 : t.workers = s.workers.set i { s.workers.get ⟨i, h⟩ with pc := Pc.rearmed } := by
        rw [← hs]
      simp only [hpc, is_waiting, is_woken, is_read_done, is_rearmed, is_decremented,
        is_exited, if_true, if_false, rank, Bool.false_eq_true] at e1 e2 e3 e4 e5 e6 e7
      refine ⟨⟨by omega, ?_, ?_, ?_, ?_, ?_, ?_, ?_, ?_⟩, ?_⟩
      · simp only [handling]
        omega
      · rw [f2]
        constructor
        · intro _; omega
        · intro _; rfl
      · omega
      · rw [f4]
        split_ifs at hwr ⊢ <;> omega
      · omega
      · intro w hw v hv
        rw [f5] at hw
        rcases mem_set_cases _ _ _ _ hw with hm | he
        · rw [f3]; exact hpost w hm v hv
        · subst he; simp at hv
      · intro w hw
        rw [f5] at hw
        rcases mem_set_cases _ _ _ _ hw with hm | he
        · exact hreads w hm
        · subst he
          simp only [hpc] at hr
          simpa using hr
      · simp only [handling]
        omega
      · omega
    · -- rearmed
      rename_i hpc
      simp only [Option.some.injEq] at hs
      obtain ⟨e1, e2, e3, e4, e5, e6, e7, e8⟩ := tallies_set s t i
        { s.workers.get ⟨i, h⟩ with pc := Pc.decremented (size_sub s.running 1) } h
        (by rw [← hs])
      have f1 : t.pending = s.pending := by rw [← hs]
      have f2 : t.armed = s.armed := by rw [← hs]
      have f3 : t.running = size_sub s.running 1 := by rw [← hs]
      have f4 : t.writes = s.writes := by rw [← hs]
      have f5 : t.workers = s.workers.set i
          { s.workers.get ⟨i, h⟩ with pc := Pc.decremented (size_sub s.running 1) } := by
        rw [← hs]
      simp only [hpc, is_waiting, is_woken, is_read_done, is_rearmed, is_decremented,
        is_exited, if_true, if_false, rank, Bool.false_eq_true] at e1 e2 e3 e4 e5 e6 e7
      have hsub : size_sub s.running 1 = s.running - 1 := by
        simp only [size_sub, SIZE_MOD] at *
        omega
      have hnd : tally is_decremented s = 0 := by omega
      refine ⟨⟨by omega, ?_, ?_, ?_, ?_, ?_, ?_, ?_, ?_⟩, ?_⟩
      · simp only [handling]
        omega
      · rw [f2]
        constructor
        · intro hf
          have := harm.mp hf
          omega
        · intro hz
          exact harm.mpr (by omega)
      · omega
      · rw [f4]
        split_ifs at hwr ⊢ <;> omega
      · omega
      · intro w hw v hv
        rw [f5] at hw
        rcases mem_set_cases _ _ _ _ hw with hm | he
        · exfalso
          have hz := (List.countP_eq_zero.mp hnd) w hm
          simp [hv, is_decremented] at hz
        · subst he
          simp only [Pc.decremented.injEq] at hv
          rw [f3, ← hv]
      · intro w hw
        rw [f5] at hw
        rcases mem_set_cases _ _ _ _ hw with hm | he
        · exact hreads w hm
        · subst he
          simp only [hpc] at hr
          simpa using hr
      · simp only [handling]
        omega
      · omega
    · -- decremented
      rename_i post hpc
      have hp := hpost _ hmem post hpc
      split at hs
      · rename_i hc
        simp only [Option.some.injEq] at hs
        obtain ⟨e1, e2, e3, e4, e5, e6, e7, e8⟩ := tallies_set s t i
          { s.workers.get ⟨i, h⟩ with pc := Pc.exited } h (by rw [← hs])
        have f1 : t.pending = s.pending + 1 := by rw [← hs]
        have f2 : t.armed = s.armed := by rw [← hs]
        have f3 : t.running = s.running := by rw [← hs]
        have f4 : t.writes = s.writes + 1 := by rw [← hs]
        have f5 : t.workers = s.workers.set i { s.workers.get ⟨i, h⟩ with pc := Pc.exited } := by
          rw [← hs]
        simp only [hpc, is_waiting, is_woken, is_read_done, is_rearmed, is_decremented,
          is_exited, if_true, if_false, rank, Bool.false_eq_true] at e1 e2 e3 e4 e5 e6 e7
        refine ⟨⟨by omega, ?_, ?_, ?_, ?_, ?_, ?_, ?_, ?_⟩, ?_⟩
        · simp only [handling]
          omega
        · rw [f2]
          constructor
          · intro hf
            have := harm.mp hf
            omega
          · intro hz
            exact harm.mpr (by omega)
        · omega
        · rw [f4]
          split_ifs at hwr ⊢ <;> omega
        · split_ifs at hwr <;> omega
        · intro w hw v hv
          rw [f5] at hw
          rcases mem_set_cases _ _ _ _ hw with hm | he
          · rw [f3]; exact hpost w hm v hv
          · subst he; simp at hv
        · intro w hw
          rw [f5] at hw
          rcases mem_set_cases _ _ _ _ hw with hm | he
          · exact hreads w hm
          · subst he
            simp only [hpc] at hr
            simpa using hr
        · simp only [handling]
          omega
        · omega
      · rename_i hc
        simp only [Option.some.injEq] at hs
        obtain ⟨e1, e2, e3, e4, e5, e6, e7, e8⟩ := tallies_set s t i
          { s.workers.get ⟨i, h⟩ with pc := Pc.exited } h (by rw [← hs])
        have f1 : t.pending = s.pending := by rw [← hs]
        have f2 : t.armed = s.armed := by rw [← hs]
        have f3 : t.running = s.running := by rw [← hs]
        have f4 : t.writes = s.writes := by rw [← hs]
        have f5 : t.workers = s.workers.set i { s.workers.get ⟨i, h⟩ with pc := Pc.exited } := by
          rw [← hs]
        simp only [hpc, is_waiting, is_woken, is_read_done, is_rearmed, is_decremented,
          is_exited, if_true, if_false, rank, Bool.false_eq_true] at e1 e2 e3 e4 e5 e6 e7
        refine ⟨⟨by omega, ?_, ?_, ?_, ?_, ?_, ?_, ?_, ?_⟩, ?_⟩
        · simp only [handling]
          omega
        · rw [f2]
          constructor
          · intro hf
            have := harm.mp hf
            omega
          · intro hz
            exact harm.mpr (by omega)
        · omega
        · rw [f4]
          split_ifs at hwr ⊢ <;> omega
        · split_ifs at hwr <;> omega
        · intro w hw v hv
          rw [f5] at hw
          rcases mem_set_cases _ _ _ _ hw with hm | he
          · rw [f3]; exact hpost w hm v hv
          · subst he; simp at hv
        · intro w hw
          rw [f5] at hw
          rcases mem_set_cases _ _ _ _ hw with hm | he
          · exact hreads w hm
          · subst he
            simp only [hpc] at hr
            simpa using hr
        · simp only [handling]
          omega
        · omega
    · simp at hs
  · simp at hs
theorem countP_replicate_pc (p : Pc → Bool) (n : Nat) (a : Worker) :
    (List.replicate n a).countP (fun w => p w.pc) = if p a.pc then n else 0 := by
  induction n with
  | zero => simp
  | succ n ih =>
    simp only [List.replicate_succ, List.countP_cons, ih]
    split_ifs <;> omega

theorem is_waiting_iff (p : Pc) : is_waiting p = true ↔ p = Pc.waiting := by
  cases p <;> simp [is_waiting]

theorem is_woken_iff (p : Pc) : is_woken p = true ↔ p = Pc.woken := by
  cases p <;> simp [is_woken]

theorem is_read_done_iff (p : Pc) : is_read_done p = true ↔ p = Pc.read_done := by
  cases p <;> simp [is_read_done]

theorem is_rearmed_iff (p : Pc) : is_rearmed p = true ↔ p = Pc.rearmed := by
  cases p <;> simp [is_rearmed]

theorem is_decremented_iff (p : Pc) : is_decremented p = true ↔ ∃ v, p = Pc.decremented v := by
  cases p <;> simp [is_decremented]

theorem is_exited_iff (p : Pc) : is_exited p = true ↔ p = Pc.exited := by
  cases p <;> simp [is_exited]

theorem inv_close_started (W : Nat) (hpos : 0 < W) :
    Inv W (close (started W)) ∧ steps_left (close (started W)) = 5 * W := by
  have t : ∀ p : Pc → Bool, tally p (close (started W)) = if p Pc.waiting then W else 0 := by
    intro p
    simp only [tally, close, started]
    exact countP_replicate_pc p W _
  have t1 := t is_waiting
  have t2 := t is_woken
  have t3 := t is_read_done
  have t4 := t is_rearmed
  have t5 := t is_decremented
  have t6 := t is_exited
  simp only [is_waiting, is_woken, is_read_done, is_rearmed, is_decremented, is_exited,
    if_true, if_false, Bool.false_eq_true] at t1 t2 t3 t4 t5 t6
  have a1 : (close (started W)).armed = true := rfl
  have a2 : (close (started W)).pending = 1 := rfl
  have a3 : (close (started W)).running = W := rfl
  have a4 : (close (started W)).writes = 1 := rfl
  have a5 : (close (started W)).workers = List.replicate W { pc := Pc.waiting, reads := 0 } := rfl
  refine ⟨⟨by rw [a5, List.length_replicate], ?_, ?_, ?_, ?_, ?_, ?_, ?_, ?_⟩, ?_⟩
  · simp only [handling]; omega
  · rw [a1]
    constructor
    · intro _; omega
    · intro _; rfl
  · omega
  · rw [a4, t6, if_neg (by omega)]
  · omega
  · intro w hw v hv
    rw [a5, List.mem_replicate] at hw
    rw [hw.2] at hv
    simp at hv
  · intro w hw
    rw [a5, List.mem_replicate] at hw
    rw [hw.2]
    simp
  · simp only [handling]; omega
  · simp only [steps_left, a5, List.map_replicate, List.sum_replicate, rank, smul_eq_mul]
    omega

theorem inv_run (W : Nat) (hW : W < SIZE_MOD) :
    ∀ (sched : List Nat) (s t : State), Inv W s → run sched s = some t →
      Inv W t ∧ steps_left t + sched.length = steps_left s := by
  intro sched
  induction sched with
  | nil =>
    intro s t hinv hr
    simp only [run, Option.some.injEq] at hr
    subst hr
    exact ⟨hinv, rfl⟩
  | cons i rest ih =>
    intro s t hinv hr
    simp only [run] at hr
    cases hstep : step i s with
    | none => rw [hstep] at hr; simp at hr
    | some u =>
      rw [hstep] at hr
      simp only [Option.some_bind] at hr
      obtain ⟨hu, hsl⟩ := inv_step W hW s u i hinv hstep
      obtain ⟨ht, hsl2⟩ := ih u t hu hr
      refine ⟨ht, ?_⟩
      simp only [List.length_cons]
      omega

theorem exists_worker (p : Pc → Bool) (s : State) (h : 0 < tally p s) :
    ∃ (i : Nat) (hi : i < s.workers.length), p (s.workers.get ⟨i, hi⟩).pc = true := by
  simp only [tally] at h
  obtain ⟨w, hw, hp⟩ := List.countP_pos_iff.mp h
  obtain ⟨n, hn⟩ := List.get_of_mem hw
  exact ⟨n.1, n.2, by rw [hn]; exact hp⟩

theorem step_waiting (s : State) (i : Nat) (hi : i < s.workers.length)
    (hpc : (s.workers.get ⟨i, hi⟩).pc = Pc.waiting) (ha : s.armed = true) (hp : 0 < s.pending) :
    step i s ≠ none := by
  unfold step
  rw [dif_pos hi, hpc]
  simp [ha, hp]

theorem step_woken (s : State) (i : Nat) (hi : i < s.workers.length)
    (hpc : (s.workers.get ⟨i, hi⟩).pc = Pc.woken) (hp : 0 < s.pending) :
    step i s ≠ none := by
  unfold step
  rw [dif_pos hi, hpc]
  simp [hp]

theorem step_read_done (s : State) (i : Nat) (hi : i < s.workers.length)
    (hpc : (s.workers.get ⟨i, hi⟩).pc = Pc.read_done) : step i s ≠ none := by
  unfold step
  rw [dif_pos hi, hpc]
  simp

theorem step_rearmed (s : State) (i : Nat) (hi : i < s.workers.length)
    (hpc : (s.workers.get ⟨i, hi⟩).pc = Pc.rearmed) : step i s ≠ none := by
  unfold step
  rw [dif_pos hi, hpc]
  simp

theorem step_decremented (s : State) (i : Nat) (hi : i < s.workers.length) (v : Nat)
    (hpc : (s.workers.get ⟨i, hi⟩).pc = Pc.decremented v) : step i s ≠ none := by
  unfold step
  rw [dif_pos hi, hpc]
  by_cases hv : 0 < v
  · simp [hv]
  · simp [hv]

theorem stuck_finished (W : Nat) (s : State) (hinv : Inv W s)
    (hstuck : ∀ i, step i s = none) : finished W s := by
  obtain ⟨hsize, hone, harm, hrun, hwr, hpend, hpost, hreads, htot⟩ := hinv
  simp only [handling] at hone htot
  have hK : tally is_woken s = 0 := by
    by_contra hne
    obtain ⟨i, hi, hp⟩ := exists_worker is_woken s (by omega)
    have hpc : (s.workers.get ⟨i, hi⟩).pc = Pc.woken := (is_woken_iff _).mp hp
    have hpos : 0 < s.pending := by
      split_ifs at hwr <;> omega
    exact step_woken s i hi hpc hpos (hstuck i)
  have hR : tally is_read_done s = 0 := by
    by_contra hne
    obtain ⟨i, hi, hp⟩ := exists_worker is_read_done s (by omega)
    have hpc : (s.workers.get ⟨i, hi⟩).pc = Pc.read_done := (is_read_done_iff _).mp hp
    exact step_read_done s i hi hpc (hstuck i)
  have hA : tally is_rearmed s = 0 := by
    by_contra hne
    obtain ⟨i, hi, hp⟩ := exists_worker is_rearmed s (by omega)
    have hpc : (s.workers.get ⟨i, hi⟩).pc = Pc.rearmed := (is_rearmed_iff _).mp hp
    exact step_rearmed s i hi hpc (hstuck i)
  have hD : tally is_decremented s = 0 := by
    by_contra hne
    obtain ⟨i, hi, hp⟩ := exists_worker is_decremented s (by omega)
    obtain ⟨v, hpc⟩ := (is_decremented_iff _).mp hp
    exact step_decremented s i hi v hpc (hstuck i)
  have hWt : tally is_waiting s = 0 := by
    by_contra hne
    obtain ⟨i, hi, hp⟩ := exists_worker is_waiting s (by omega)
    have hpc : (s.workers.get ⟨i, hi⟩).pc = Pc.waiting := (is_waiting_iff _).mp hp
    have harmed : s.armed = true := harm.mpr (by omega)
    have hpos : 0 < s.pending := by
      split_ifs at hwr <;> omega
    exact step_waiting s i hi hpc harmed hpos (hstuck i)
  have hE : tally is_exited s = s.workers.length := by omega
  have hall := List.countP_eq_length.mp hE
  refine ⟨?_, ?_, ?_, ?_, ?_⟩
  · rw [List.eq_replicate_iff]
    refine ⟨hsize, ?_⟩
    intro w hw
    have hp := hall w hw
    have hpc : w.pc = Pc.exited := (is_exited_iff _).mp hp
    have hr := hreads w hw
    simp only [hpc] at hr
    cases w
    simp_all
  · split_ifs at hwr <;> omega
  · omega
  · split_ifs at hwr <;> omega
  · exact harm.mpr (by omega)

theorem exists_run (W : Nat) (hW : W < SIZE_MOD) :
    ∀ (n : Nat) (s : State), Inv W s → steps_left s = n →
      ∃ sched t, run sched s = some t ∧ finished W t := by
  intro n
  induction n with
  | zero =>
    intro s hinv hn
    by_cases hstuck : ∀ i, step i s = none
    · exact ⟨[], s, rfl, stuck_finished W s hinv hstuck⟩
    · exfalso
      push_neg at hstuck
      obtain ⟨i, hi⟩ := hstuck
      obtain ⟨u, hu⟩ := Option.ne_none_iff_exists'.mp hi
      have := (inv_step W hW s u i hinv hu).2
      omega
  | succ n ih =>
    intro s hinv hn
    by_cases hstuck : ∀ i, step i s = none
    · exact ⟨[], s, rfl, stuck_finished W s hinv hstuck⟩
    · push_neg at hstuck
      obtain ⟨i, hi⟩ := hstuck
      obtain ⟨u, hu⟩ := Option.ne_none_iff_exists'.mp hi
      obtain ⟨hinvu, hsl⟩ := inv_step W hW s u i hinv hu
      obtain ⟨sched, t, hr, hf⟩ := ih u hinvu (by omega)
      exact ⟨i :: sched, t, by simp only [run, hu, Option.some_bind, hr], hf⟩

theorem finished_steps_left (W : Nat) (s : State) (h : finished W s) : steps_left s = 0 := by
  simp only [steps_left, h.1, List.map_replicate, List.sum_replicate, rank, smul_eq_mul]
  omega

end shutdown_lemmas

/-! ## Pops and pushes on the free-list -/

theorem pops_chain (buf : List atomic_node) :
    ∀ (l : List Nat) (st : atomic_stack), st.buffer_ = some buf → chain buf st.head_ l →
      (st.pops l.length).1 = l.map some ∧ (st.pops l.length).2 = { st with head_ := none } := by
  intro l
  induction l with
  | nil =>
    intro st _ hc
    simp only [chain] at hc
    refine ⟨rfl, ?_⟩
    simp only [List.length_nil, atomic_stack.pops]
    cases st
    simp_all
  | cons x xs ih =>
    intro st hb hc
    obtain ⟨hp, _, hrest⟩ := hc
    have hpop : st.pop = (some x, { st with head_ := (buf.getD x zero_node).next }) := by
      simp only [atomic_stack.pop, hp, atomic_stack.node, atomic_stack.data, hb, Option.getD_some]
    have h2 := ih { st with head_ := (buf.getD x zero_node).next } hb hrest
    simp only [List.length_cons, atomic_stack.pops, hpop, List.map_cons]
    exact ⟨by rw [h2.1], by rw [h2.2]⟩

theorem pops_empty (st : atomic_stack) (h : st.head_ = none) :
    ∀ k, (st.pops k).1 = List.replicate k none ∧ (st.pops k).2 = st := by
  intro k
  induction k with
  | zero => exact ⟨rfl, rfl⟩
  | succ k ih =>
    have hpop : st.pop = (none, st) := by simp only [atomic_stack.pop, h]
    simp only [atomic_stack.pops, hpop, List.replicate_succ]
    exact ⟨by rw [ih.1], ih.2⟩

theorem pops_add (n k : Nat) :
    ∀ (st : atomic_stack), (st.pops (n + k)).1 = (st.pops n).1 ++ ((st.pops n).2.pops k).1 ∧
      (st.pops (n + k)).2 = ((st.pops n).2.pops k).2 := by
  induction n with
  | zero =>
    intro st
    simp [atomic_stack.pops]
  | succ n ih =>
    intro st
    have h := ih st.pop.2
    have e : n + 1 + k = (n + k) + 1 := by omega
    rw [e]
    simp only [atomic_stack.pops, List.cons_append]
    exact ⟨by rw [h.1], h.2⟩

theorem walk_set_of_not_mem (buf : List atomic_node) (x : Nat) (nd : atomic_node) :
    ∀ (fuel : Nat) (p : Option Nat), x ∉ walk buf fuel p →
      walk (buf.set x nd) fuel p = walk buf fuel p := by
  intro fuel
  induction fuel with
  | zero => intro p _; rfl
  | succ fuel ih =>
    intro p hx
    cases p with
    | none => rfl
    | some i =>
      simp only [walk, List.mem_cons, not_or] at hx
      simp only [walk]
      rw [getD_set_ne buf x i nd hx.1, ih _ hx.2]

/-! ## The byte lengths of `genmap` and `delmap` -/

theorem create_size (pagesize unitsize : Nat) (env : MapEnv) (hint cap : Nat)
    (st : atomic_stack)
    (h : atomic_stack.init.create pagesize unitsize env hint = some (true, cap, st)) :
    (detail.genmap pagesize env unitsize hint).2.2 = cap * unitsize ∧
      cap * unitsize < SIZE_MOD := by
  simp only [atomic_stack.create, atomic_stack.init] at h
  rw [if_neg (by simp)] at h
  have h2 := detail_genmap_hint pagesize env unitsize hint
  generalize detail.genmap pagesize env unitsize hint = g at h h2 ⊢
  obtain ⟨ptr, c, sz⟩ := g
  simp only [Prod.mk.injEq] at h2
  cases ptr <;> simp only [] at h
  · simp at h
  · simp at h
  · simp at h
  · split_ifs at h with hc
    simp only [Option.some.injEq, Prod.mk.injEq, true_and] at h
    obtain ⟨e1, _⟩ := h
    subst e1
    push_neg at hc
    refine ⟨hc.2, ?_⟩
    rw [← hc.2, h2.2, ← h2.1]
    exact Nat.mod_lt _ (by decide)

/-! ## The slots after an eviction -/

theorem push_node (st : atomic_stack) (v j : Nat) :
    (st.push v).node j
      = if j = v ∧ v < st.data.length then { st.node v with next := st.head_ } else st.node j := by
  have h := node_set_node st v { st.node v with next := st.head_ } j
  simpa [atomic_stack.push, atomic_stack.node, atomic_stack.data, atomic_stack.set_node] using h

theorem unuse_slot_ne {σ : Type} (s : client_pool σ) (cl i : Nat) (hne : i ≠ cl) :
    (s.unuse cl).slot i = s.slot i := by
  simp only [client_pool.slot, unuse_freeMem, push_node, node_set_node]
  rw [if_neg (fun h => hne h.1), if_neg (fun h => hne h.1)]

theorem unuse_count {σ : Type} (s : client_pool σ) (cl : Nat) (c : Call) :
    s.trace.count c ≤ (s.unuse cl).trace.count c ∧
      (c = Call.endpoint_close (s.slot cl).sfd →
        (s.unuse cl).trace.count c = s.trace.count c + 1) := by
  rw [unuse_trace]
  refine ⟨by simp [List.count_append], ?_⟩
  intro hc
  subst hc
  simp [List.count_append, List.count_cons]

theorem sweep_count_mono {σ : Type} (c : Call) :
    ∀ (is : List Nat) (acc : client_pool σ),
      acc.trace.count c
        ≤ (is.foldl (fun a i => if (a.slot i).sfd ≠ 0 then a.unuse i else a) acc).trace.count c := by
  intro is
  induction is with
  | nil => intro acc; exact Nat.le_refl _
  | cons j rest ih =>
    intro acc
    simp only [List.foldl_cons]
    refine Nat.le_trans ?_ (ih _)
    split_ifs
    · exact (unuse_count acc j c).1
    · exact Nat.le_refl _

theorem sweep_count {σ : Type} (x : Nat) (fd : Int) (hnz : fd ≠ 0) :
    ∀ (is : List Nat) (acc : client_pool σ), x ∈ is → (acc.slot x).sfd = fd →
      acc.trace.count (Call.endpoint_close fd) + 1
        ≤ (is.foldl (fun a i => if (a.slot i).sfd ≠ 0 then a.unuse i else a) acc).trace.count
            (Call.endpoint_close fd) := by
  intro is
  induction is with
  | nil => intro acc hx; simp at hx
  | cons j rest ih =>
    intro acc hx hfd
    simp only [List.foldl_cons]
    by_cases hj : j = x
    · subst hj
      rw [if_pos (by rw [hfd]; exact hnz)]
      have h1 := (unuse_count acc j (Call.endpoint_close fd)).2 (by rw [hfd])
      have h2 := sweep_count_mono (Call.endpoint_close fd) rest (acc.unuse j)
      omega
    · have hx2 : x ∈ rest := by
        rcases List.mem_cons.mp hx with h | h
        · exact absurd h.symm hj
        · exact h
      by_cases hs : (acc.slot j).sfd ≠ 0
      · rw [if_pos hs]
        have h1 := (unuse_count acc j (Call.endpoint_close fd)).1
        have h2 := ih (acc.unuse j) hx2 (by rw [unuse_slot_ne acc j x (fun h => hj h.symm)]; exact hfd)
        omega
      · rw [if_neg hs]
        exact ih acc hx2 hfd

/-! ## The branches of `process` that end with `handle_epollout` -/

theorem process_out {σ : Type} (h : Tderiv σ) (s : client_pool σ) (cl : Nat)
    (rs : List RecvResult) (ps : List PriStep) :
    client_pool.process h s cl EPOLLOUT rs ps = some (client_pool.handle_epollout h s cl) := by
  unfold client_pool.process
  rw [if_neg (by decide), if_neg (by decide), if_neg (by decide), if_neg (by decide),
    if_pos (by decide)]

theorem accept_one_refused {σ : Type} (q : server_pool σ) (sfd : Int) (a : Accepted)
    (hu : a.unblock_ret = 0)
    (hr : (((q.clientPool_.log (Call.endpoint_accept sfd)).log
            (Call.endpoint_unblock a.cfd)).add_client a.cfd a.ctl_ret).1 = false) :
    (accept_one q sfd a).clientPool_
      = ((((q.clientPool_.log (Call.endpoint_accept sfd)).log
            (Call.endpoint_unblock a.cfd)).add_client a.cfd a.ctl_ret).2).log
              (Call.endpoint_close a.cfd) := by
  have hu2 : ¬ a.unblock_ret ≠ 0 := by simp [hu]
  simp only [accept_one, if_neg hu2, server_pool.log]
  rw [hr]
  rfl

theorem failed_registration_state {σ : Type} (cp : client_pool σ) (cfd ctl_ret : Int) (x : Nat)
    (l : List Nat) (hgood : good cp (x :: l)) (hctl : ctl_ret ≠ 0) :
    (cp.add_client cfd ctl_ret).1 = false ∧
    ((cp.add_client cfd ctl_ret).2.slot x).sfd = cfd ∧
    (cp.add_client cfd ctl_ret).2.trace
      = cp.trace ++ [Call.epoll_ctl cp.base.epfd_ EPOLL_CTL_ADD cfd
          (EPOLLIN ||| EPOLLET ||| EPOLLRDHUP ||| EPOLLPRI ||| EPOLLONESHOT)
          (Cookie.ptr (some x))] ∧
    x < cp.clientCap_ := by
  obtain ⟨he, _⟩ := add_client_cons cp cfd ctl_ret x l hgood
  obtain ⟨_, _, _, _, hs, ht, _, hbase⟩ := good_use_cons cp cfd x l hgood
  have hx : x < cp.clientCap_ := by
    obtain ⟨buf, _, hlen, _, hc, _⟩ := hgood
    simp only [chain] at hc
    exact hlen ▸ hc.2.1
  rw [he]
  refine ⟨by simp [hctl], ?_, ?_, hx⟩
  · simpa [client_pool.add, client_pool.log, client_pool.slot] using hs
  · simp only [client_pool.add, client_pool.log, ht, hbase]
    simp only [client_pool.slot] at hs
    simp only [client_pool.slot, hs]

/-! ## The loop of `wait` -/

theorem server_wait_control {σ : Type} (ctl_ret : Int) (e : Event)
    (es : List Event) (rest : List Polled) (sp : server_pool σ) (hnull : e.data.is_null = true) :
    server_pool.wait ctl_ret (Polled.ready (e :: es) :: rest) sp
      = some ({ sp with threadCount_ := (sp.base.control ctl_ret sp.threadCount_).2.1,
                        clientPool_ := { sp.clientPool_ with
                          trace := sp.clientPool_.trace
                            ++ (sp.base.control ctl_ret sp.threadCount_).1 } },
              (sp.base.control ctl_ret sp.threadCount_).2.2) := by
  simp only [server_pool.wait, server_pool.dispatch, hnull, if_true]

theorem server_wait_listener {σ : Type} (ctl_ret : Int) (sfd : Int) (flags : Nat)
    (rs : List RecvResult) (ps : List PriStep) (accepts : List Accepted)
    (es : List Event) (rest : List Polled) (sp : server_pool σ)
    (hnn : (Cookie.u32 sfd).is_null = false) :
    server_pool.wait ctl_ret (Polled.ready (⟨Cookie.u32 sfd, flags, rs, ps, accepts⟩ :: es) :: rest) sp
      = (server_pool.process sp sfd flags accepts).bind
          (fun sp1 => server_pool.wait ctl_ret (Polled.ready es :: rest) sp1) := by
  simp only [server_pool.wait, server_pool.dispatch, hnn, Bool.false_eq_true, if_false]
  cases server_pool.process sp sfd flags accepts with
  | none => rfl
  | some sp1 => rfl

/-! ## The in-band part of the OOB-drain loop -/

theorem wmq_slot {σ : Type} (s : client_pool σ) (cl : Nat) :
    (without_mark_queries s).slot cl = s.slot cl := rfl

theorem wmq_log_query {σ : Type} (s : client_pool σ) (sfd : Int) :
    without_mark_queries (s.log (Call.ioctl_SIOCATMARK sfd)) = without_mark_queries s := by
  simp [without_mark_queries, client_pool.log, List.filter_append, Call.is_mark_query]

theorem wmq_log_read {σ : Type} (s : client_pool σ) (cl : Nat) :
    without_mark_queries (s.log (Call.endpoint_read (s.slot cl).sfd MAX_READ_SIZE))
      = (without_mark_queries s).log
          (Call.endpoint_read ((without_mark_queries s).slot cl).sfd MAX_READ_SIZE) := by
  simp [without_mark_queries, client_pool.log, client_pool.slot, List.filter_append,
    Call.is_mark_query]

theorem wmq_rearm {σ : Type} (s : client_pool σ) (cl : Nat) :
    without_mark_queries (s.rearm cl) = (without_mark_queries s).rearm cl := by
  simp [without_mark_queries, client_pool.rearm, client_pool.log, client_pool.slot,
    List.filter_append, Call.is_mark_query]

theorem wmq_unuse {σ : Type} (s : client_pool σ) (cl : Nat) :
    without_mark_queries (s.unuse cl) = (without_mark_queries s).unuse cl := by
  rw [unuse_steps, unuse_steps]
  simp [without_mark_queries, unuse_decrement, unuse_push, unuse_zero, unuse_close,
    unuse_deregister, client_pool.remove, client_pool.log, client_pool.slot,
    List.filter_append, Call.is_mark_query]

theorem wmq_input {σ : Type} (h : Tderiv σ) (s : client_pool σ) (cl : Nat) (r : RecvResult) :
    without_mark_queries
      { (s.log (Call.endpoint_read (s.slot cl).sfd MAX_READ_SIZE)).store cl r.data with
        derived := h.on_input
          (((s.log (Call.endpoint_read (s.slot cl).sfd MAX_READ_SIZE)).store cl r.data).slot cl).sfd
          (((s.log (Call.endpoint_read (s.slot cl).sfd MAX_READ_SIZE)).store cl r.data).slot cl).buff
          r.ret
          ((s.log (Call.endpoint_read (s.slot cl).sfd MAX_READ_SIZE)).store cl r.data).derived }
    = { ((without_mark_queries s).log
          (Call.endpoint_read ((without_mark_queries s).slot cl).sfd MAX_READ_SIZE)).store cl
            r.data with
        derived := h.on_input
          ((((without_mark_queries s).log
            (Call.endpoint_read ((without_mark_queries s).slot cl).sfd MAX_READ_SIZE)).store cl
              r.data).slot cl).sfd
          ((((without_mark_queries s).log
            (Call.endpoint_read ((without_mark_queries s).slot cl).sfd MAX_READ_SIZE)).store cl
              r.data).slot cl).buff
          r.ret
          (((without_mark_queries s).log
            (Call.endpoint_read ((without_mark_queries s).slot cl).sfd MAX_READ_SIZE)).store cl
              r.data).derived } := by
  simp [without_mark_queries, client_pool.log, client_pool.store, client_pool.slot,
    List.filter_append, Call.is_mark_query]

theorem wmq_handle_epollin {σ : Type} (h : Tderiv σ) :
    ∀ (rs : List RecvResult) (s : client_pool σ) (cl : Nat),
      (client_pool.handle_epollin h rs s cl).map without_mark_queries
        = client_pool.handle_epollin h rs (without_mark_queries s) cl := by
  intro rs
  induction rs with
  | nil => intro s cl; rfl
  | cons r rs ih =>
    intro s cl
    simp only [client_pool.handle_epollin]
    by_cases h1 : r.ret = -1
    · simp only [h1, if_true]
      by_cases h2 : r.errno ≠ EAGAIN
      · simp only [if_pos h2, Option.map_some', wmq_unuse, wmq_log_read]
      · simp only [if_neg h2, Option.map_some', wmq_rearm, wmq_log_read]
    · simp only [if_neg h1]
      by_cases h3 : r.ret = 0
      · simp only [h3, if_true, Option.map_some', wmq_unuse, wmq_log_read]
      · simp only [if_neg h3]
        rw [ih, wmq_input]

theorem wmq_handle_epollpri {σ : Type} (h : Tderiv σ) :
    ∀ (ps : List PriStep) (s : client_pool σ) (cl : Nat),
      (∀ p ∈ ps, p.ioctl_ret ≠ -1 ∧ p.mark = 0) →
      (client_pool.handle_epollpri h ps s cl).map without_mark_queries
        = client_pool.handle_epollin h (ps.map (fun p => p.rd)) (without_mark_queries s) cl := by
  intro ps
  induction ps with
  | nil => intro s cl _; rfl
  | cons p ps ih =>
    intro s cl hps
    obtain ⟨hi, hm⟩ := hps p (List.mem_cons_self _ _)
    have hrest : ∀ q ∈ ps, q.ioctl_ret ≠ -1 ∧ q.mark = 0 :=
      fun q hq => hps q (List.mem_cons_of_mem _ hq)
    have hm2 : ¬ p.mark ≠ 0 := by simp [hm]
    have hq : without_mark_queries (s.log (Call.ioctl_SIOCATMARK (s.slot cl).sfd))
        = without_mark_queries s := wmq_log_query s _
    have hin := wmq_handle_epollin h (p.rd :: ps.map (fun p => p.rd))
      (s.log (Call.ioctl_SIOCATMARK (s.slot cl).sfd)) cl
    rw [hq] at hin
    rw [List.map_cons, ← hin]
    simp only [client_pool.handle_epollpri, client_pool.handle_epollin, if_neg hi, if_neg hm2]
    by_cases h1 : p.rd.ret = -1
    · simp only [h1, if_true]
    · simp only [if_neg h1]
      by_cases h3 : p.rd.ret = 0
      · simp only [h3, if_true]
      · simp only [if_neg h3]
        rw [ih _ _ hrest, wmq_handle_epollin]

/-! ## The shutdown with workers that left through a failed `epoll_wait` -/

section lost_worker_lemmas

open shutdown

theorem lost_set (s t : State) (i : Nat) (a : Worker) (h : i < s.workers.length)
    (ht : t.workers = s.workers.set i a) :
    lost t + (if is_lost (s.workers.get ⟨i, h⟩) = true then 1 else 0)
      = lost s + (if is_lost a = true then 1 else 0) := by
  simp only [lost, ht]
  exact countP_set_add is_lost s.workers i a h

theorem lost_le_exited (s : State) : lost s ≤ tally is_exited s := by
  simp only [lost, tally]
  apply List.countP_mono_left
  intro w _ hw
  simp only [is_lost, Bool.and_eq_true] at hw
  exact hw.1

theorem tally_zero_pc (p : Pc → Bool) (s : State) (h : tally p s = 0) :
    ∀ w ∈ s.workers, p w.pc = false := by
  intro w hw
  have := (List.countP_eq_zero.mp h) w hw
  simpa using this

theorem invg_step (W : Nat) (hW : W < SIZE_MOD) (s t : State) (i : Nat) (hinv : InvG W s)
    (hs : step i s = some t) : InvG W t ∧ lost t = lost s := by
  obtain ⟨hsize, hone, harm, hrun, htok, hpost, hreads, htot, hlost⟩ := hinv
  simp only [handling] at hone htot
  unfold step at hs
  split at hs
  · rename_i h
    have hmem := get_mem_workers s i h
    have hr := hreads _ hmem
    split at hs
    · -- waiting
      rename_i hpc
      split at hs
      · rename_i hc
        simp only [Option.some.injEq] at hs
        obtain ⟨e1, e2, e3, e4, e5, e6, e7, e8⟩ := tallies_set s t i
          { s.workers.get ⟨i, h⟩ with pc := Pc.woken } h (by rw [← hs])
        have eL := lost_set s t i { s.workers.get ⟨i, h⟩ with pc := Pc.woken } h (by rw [← hs])
        have f1 : t.pending = s.pending := by rw [← hs]
        have f2 : t.armed = false := by rw [← hs]
        have f3 : t.running = s.running := by rw [← hs]
        have f5 : t.workers = s.workers.set i { s.workers.get ⟨i, h⟩ with pc := Pc.woken } := by
          rw [← hs]
        simp only [hpc, is_waiting, is_woken, is_read_done, is_rearmed, is_decremented,
          is_exited, if_true, if_false, rank, Bool.false_eq_true] at e1 e2 e3 e4 e5 e6 e7
        simp only [is_lost, hpc, is_exited, Bool.false_and, Bool.false_eq_true, if_false] at eL
        have ha := harm.mp hc.1
        have hl2 := lost_le_exited t
        refine ⟨⟨by omega, ?_, ?_, ?_, ?_, ?_, ?_, ?_, hl2⟩, by omega⟩
        · simp only [handling]
          split_ifs at htok <;> omega
        · rw [f2]
          constructor
          · intro hf; simp at hf
          · intro hz; exfalso; omega
        · omega
        · rw [f1, f3]
          split_ifs at htok ⊢ <;> omega
        · intro w hw v hv
          rw [f5] at hw
          rcases mem_set_cases _ _ _ _ hw with hm | he
          · rw [f3]; exact hpost w hm v hv
          · subst he; simp at hv
        · intro w hw
          rw [f5] at hw
          rcases mem_set_cases _ _ _ _ hw with hm | he
          · exact hreads w hm
          · subst he
            refine ⟨fun _ => hr.1 (Or.inl hpc), ?_⟩
            intro hx
            simp at hx
        · simp only [handling]
          omega
      · simp at hs
    · -- woken
      rename_i hpc
      split at hs
      · rename_i hc
        simp only [Option.some.injEq] at hs
        obtain ⟨e1, e2, e3, e4, e5, e6, e7, e8⟩ := tallies_set s t i
          { pc := Pc.read_done, reads := (s.workers.get ⟨i, h⟩).reads + 1 } h (by rw [← hs])
        have eL := lost_set s t i
          { pc := Pc.read_done, reads := (s.workers.get ⟨i, h⟩).reads + 1 } h (by rw [← hs])
        have f1 : t.pending = s.pending - 1 := by rw [← hs]
        have f2 : t.armed = s.armed := by rw [← hs]
        have f3 : t.running = s.running := by rw [← hs]
        have f5 : t.workers = s.workers.set i
            { pc := Pc.read_done, reads := (s.workers.get ⟨i, h⟩).reads + 1 } := by rw [← hs]
        simp only [hpc, is_waiting, is_woken, is_read_done, is_rearmed, is_decremented,
          is_exited, if_true, if_false, rank, Bool.false_eq_true] at e1 e2 e3 e4 e5 e6 e7
        simp only [is_lost, hpc, is_exited, Bool.false_and, Bool.false_eq_true, if_false] at eL
        have hl2 := lost_le_exited t
        refine ⟨⟨by omega, ?_, ?_, ?_, ?_, ?_, ?_, ?_, hl2⟩, by omega⟩
        · simp only [handling]
          omega
        · rw [f2]
          constructor
          · intro hf
            have := harm.mp hf
            omega
          · intro hz; exfalso; omega
        · omega
        · rw [f1, f3]
          split_ifs at htok ⊢ <;> omega
        · intro w hw v hv
          rw [f5] at hw
          rcases mem_set_cases _ _ _ _ hw with hm | he
          · rw [f3]; exact hpost w hm v hv
          · subst he; simp at hv
        · intro w hw
          rw [f5] at hw
          rcases mem_set_cases _ _ _ _ hw with hm | he
          · exact hreads w hm
          · subst he
            have h0 := hr.1 (Or.inr hpc)
            refine ⟨?_, ?_⟩
            · intro hx; simp at hx
            · intro _
              simp only [List.get_eq_getElem] at h0
              simp [h0]
        · simp only [handling]
          omega
      · simp at hs
    · -- read_done
      rename_i hpc
      simp only [Option.some.injEq] at hs
      obtain ⟨e1, e2, e3, e4, e5, e6, e7, e8⟩ := tallies_set s t i
        { s.workers.get ⟨i, h⟩ with pc := Pc.rearmed } h (by rw [← hs])
      have eL := lost_set s t i { s.workers.get ⟨i, h⟩ with pc := Pc.rearmed } h (by rw [← hs])
      have f1 : t.pending = s.pending := by rw [← hs]
      have f2 : t.armed = true := by rw [← hs]
      have f3 : t.running = s.running := by rw [← hs]
      have f5 : t.workers = s.workers.set i { s.workers.get ⟨i, h⟩ with pc := Pc.rearmed } := by
        rw [← hs]
      simp only [hpc, is_waiting, is_woken, is_read_done, is_rearmed, is_decremented,
        is_exited, if_true, if_false, rank, Bool.false_eq_true] at e1 e2 e3 e4 e5 e6 e7
      simp only [is_lost, hpc, is_exited, Bool.false_and, Bool.false_eq_true, if_false] at eL
      have hl2 := lost_le_exited t
      refine ⟨⟨by omega, ?_, ?_, ?_, ?_, ?_, ?_, ?_, hl2⟩, by omega⟩
      · simp only [handling]
        omega
      · rw [f2]
        constructor
        · intro _; omega
        · intro _; rfl
      · omega
      · rw [f1, f3]
        split_ifs at htok ⊢ <;> omega
      · intro w hw v hv
        rw [f5] at hw
        rcases mem_set_cases _ _ _ _ hw with hm | he
        · rw [f3]; exact hpost w hm v hv
        · subst he; simp at hv
      · intro w hw
        rw [f5] at hw
        rcases mem_set_cases _ _ _ _ hw with hm | he
        · exact hreads w hm
        · subst he
          have h1 := hr.2 (Or.inl hpc)
          refine ⟨?_, fun _ => h1⟩
          intro hx; simp at hx
      · simp only [handling]
        omega
    · -- rearmed
      rename_i hpc
      simp only [Option.some.injEq] at hs
      obtain ⟨e1, e2, e3, e4, e5, e6, e7, e8⟩ := tallies_set s t i
        { s.workers.get ⟨i, h⟩ with pc := Pc.decremented (size_sub s.running 1) } h
        (by rw [← hs])
      have eL := lost_set s t i
        { s.workers.get ⟨i, h⟩ with pc := Pc.decremented (size_sub s.running 1) } h
        (by rw [← hs])
      have f1 : t.pending = s.pending := by rw [← hs]
      have f2 : t.armed = s.armed := by rw [← hs]
      have f3 : t.running = size_sub s.running 1 := by rw [← hs]
      have f5 : t.workers = s.workers.set i
          { s.workers.get ⟨i, h⟩ with pc := Pc.decremented (size_sub s.running 1) } := by
        rw [← hs]
      simp only [hpc, is_waiting, is_woken, is_read_done, is_rearmed, is_decremented,
        is_exited, if_true, if_false, rank, Bool.false_eq_true] at e1 e2 e3 e4 e5 e6 e7
      simp only [is_lost, hpc, is_exited, Bool.false_and, Bool.false_eq_true, if_false] at eL
      have hsub : size_sub s.running 1 = s.running - 1 := by
        simp only [size_sub, SIZE_MOD] at *
        omega
      have hnd : tally is_decremented s = 0 := by omega
      have hl2 := lost_le_exited t
      refine ⟨⟨by omega, ?_, ?_, ?_, ?_, ?_, ?_, ?_, hl2⟩, by omega⟩
      · simp only [handling]
        omega
      · rw [f2]
        constructor
        · intro hf
          have := harm.mp hf
          omega
        · intro hz
          exact harm.mpr (by omega)
      · omega
      · rw [f1, f3]
        split_ifs at htok ⊢ <;> omega
      · intro w hw v hv
        rw [f5] at hw
        rcases mem_set_cases _ _ _ _ hw with hm | he
        · exfalso
          have hz := tally_zero_pc _ s hnd w hm
          simp [hv, is_decremented] at hz
        · subst he
          simp only [Pc.decremented.injEq] at hv
          rw [f3, ← hv]
      · intro w hw
        rw [f5] at hw
        rcases mem_set_cases _ _ _ _ hw with hm | he
        · exact hreads w hm
        · subst he
          have h1 := hr.2 (Or.inr (Or.inl hpc))
          refine ⟨?_, fun _ => h1⟩
          intro hx; simp at hx
      · simp only [handling]
        omega
    · -- decremented
      rename_i post hpc
      have hp := hpost _ hmem post hpc
      have h1 := hr.2 (Or.inr (Or.inr ⟨post, hpc⟩))
      split at hs
      · rename_i hc
        simp only [Option.some.injEq] at hs
        obtain ⟨e1, e2, e3, e4, e5, e6, e7, e8⟩ := tallies_set s t i
          { s.workers.get ⟨i, h⟩ with pc := Pc.exited } h (by rw [← hs])
        have eL := lost_set s t i { s.workers.get ⟨i, h⟩ with pc := Pc.exited } h (by rw [← hs])
        have f1 : t.pending = s.pending + 1 := by rw [← hs]
        have f2 : t.armed = s.armed := by rw [← hs]
        have f3 : t.running = s.running := by rw [← hs]
        have f5 : t.workers = s.workers.set i { s.workers.get ⟨i, h⟩ with pc := Pc.exited } := by
          rw [← hs]
        simp only [hpc, is_waiting, is_woken, is_read_done, is_rearmed, is_decremented,
          is_exited, if_true, if_false, rank, Bool.false_eq_true] at e1 e2 e3 e4 e5 e6 e7
        simp only [is_lost, hpc, is_exited, h1, Bool.false_and, Bool.true_and,
          Bool.false_eq_true, if_false, decide_eq_true_eq, one_ne_zero] at eL
        have hl2 := lost_le_exited t
        refine ⟨⟨by omega, ?_, ?_, ?_, ?_, ?_, ?_, ?_, hl2⟩, by omega⟩
        · simp only [handling]
          omega
        · rw [f2]
          constructor
          · intro hf
            have := harm.mp hf
            omega
          · intro hz
            exact harm.mpr (by omega)
        · omega
        · rw [f1, f3]
          split_ifs at htok ⊢ <;> omega
        · intro w hw v hv
          rw [f5] at hw
          rcases mem_set_cases _ _ _ _ hw with hm | he
          · rw [f3]; exact hpost w hm v hv
          · subst he; simp at hv
        · intro w hw
          rw [f5] at hw
          rcases mem_set_cases _ _ _ _ hw with hm | he
          · exact hreads w hm
          · subst he
            refine ⟨?_, ?_⟩
            · intro hx; simp at hx
            · intro hx; simp at hx
        · simp only [handling]
          omega
      · rename_i hc
        simp only [Option.some.injEq] at hs
        obtain ⟨e1, e2, e3, e4, e5, e6, e7, e8⟩ := tallies_set s t i
          { s.workers.get ⟨i, h⟩ with pc := Pc.exited } h (by rw [← hs])
        have eL := lost_set s t i { s.workers.get ⟨i, h⟩ with pc := Pc.exited } h (by rw [← hs])
        have f1 : t.pending = s.pending := by rw [← hs]
        have f2 : t.armed = s.armed := by rw [← hs]
        have f3 : t.running = s.running := by rw [← hs]
        have f5 : t.workers = s.workers.set i { s.workers.get ⟨i, h⟩ with pc := Pc.exited } := by
          rw [← hs]
        simp only [hpc, is_waiting, is_woken, is_read_done, is_rearmed, is_decremented,
          is_exited, if_true, if_false, rank, Bool.false_eq_true] at e1 e2 e3 e4 e5 e6 e7
        simp only [is_lost, hpc, is_exited, h1, Bool.false_and, Bool.true_and,
          Bool.false_eq_true, if_false, decide_eq_true_eq, one_ne_zero] at eL
        have hl2 := lost_le_exited t
        refine ⟨⟨by omega, ?_, ?_, ?_, ?_, ?_, ?_, ?_, hl2⟩, by omega⟩
        · simp only [handling]
          omega
        · rw [f2]
          constructor
          · intro hf
            have := harm.mp hf
            omega
          · intro hz
            exact harm.mpr (by omega)
        · omega
        · rw [f1, f3]
          split_ifs at htok ⊢ <;> omega
        · intro w hw v hv
          rw [f5] at hw
          rcases mem_set_cases _ _ _ _ hw with hm | he
          · rw [f3]; exact hpost w hm v hv
          · subst he; simp at hv
        · intro w hw
          rw [f5] at hw
          rcases mem_set_cases _ _ _ _ hw with hm | he
          · exact hreads w hm
          · subst he
            refine ⟨?_, ?_⟩
            · intro hx; simp at hx
            · intro hx; simp at hx
        · simp only [handling]
          omega
    · simp at hs
  · simp at hs

theorem fail_eq (s t : State) (i : Nat) (hs : fail i s = some t) :
    ∃ h : i < s.workers.length, (s.workers.get ⟨i, h⟩).pc = Pc.waiting ∧
      t = { s with workers := s.workers.set i { s.workers.get ⟨i, h⟩ with pc := Pc.exited } } := by
  unfold fail at hs
  split at hs
  · rename_i h
    split at hs
    · rename_i hpc
      simp only [Option.some.injEq] at hs
      exact ⟨h, hpc, hs.symm⟩
    · simp at hs
  · simp at hs

theorem invg_fail (W : Nat) (s t : State) (i : Nat) (hinv : InvG W s)
    (hs : fail i s = some t) : InvG W t ∧ lost t = lost s + 1 := by
  obtain ⟨hsize, hone, harm, hrun, htok, hpost, hreads, htot, hlost⟩ := hinv
  simp only [handling] at hone htot
  obtain ⟨h, hpc, ht⟩ := fail_eq s t i hs
  have hmem := get_mem_workers s i h
  have hr := hreads _ hmem
  have h0 := hr.1 (Or.inl hpc)
  obtain ⟨e1, e2, e3, e4, e5, e6, e7, e8⟩ := tallies_set s t i
    { s.workers.get ⟨i, h⟩ with pc := Pc.exited } h (by rw [ht])
  have eL := lost_set s t i { s.workers.get ⟨i, h⟩ with pc := Pc.exited } h (by rw [ht])
  have f1 : t.pending = s.pending := by rw [ht]
  have f2 : t.armed = s.armed := by rw [ht]
  have f3 : t.running = s.running := by rw [ht]
  have f5 : t.workers = s.workers.set i { s.workers.get ⟨i, h⟩ with pc := Pc.exited } := by
    rw [ht]
  simp only [hpc, is_waiting, is_woken, is_read_done, is_rearmed, is_decremented,
    is_exited, if_true, if_false, rank, Bool.false_eq_true] at e1 e2 e3 e4 e5 e6 e7
  simp only [is_lost, hpc, is_exited, h0, Bool.false_and, Bool.true_and,
    Bool.false_eq_true, if_false, if_true, decide_True] at eL
  have hl2 := lost_le_exited t
  refine ⟨⟨by omega, ?_, ?_, ?_, ?_, ?_, ?_, ?_, hl2⟩, by omega⟩
  · simp only [handling]
    omega
  · rw [f2]
    constructor
    · intro hf
      have := harm.mp hf
      omega
    · intro hz
      exact harm.mpr (by omega)
  · omega
  · rw [f1, f3]
    split_ifs at htok ⊢ <;> omega
  · intro w hw v hv
    rw [f5] at hw
    rcases mem_set_cases _ _ _ _ hw with hm | he
    · rw [f3]; exact hpost w hm v hv
    · subst he; simp at hv
  · intro w hw
    rw [f5] at hw
    rcases mem_set_cases _ _ _ _ hw with hm | he
    · exact hreads w hm
    · subst he
      refine ⟨?_, ?_⟩
      · intro hx; simp at hx
      · intro hx; simp at hx
  · simp only [handling]
    omega

theorem before_fail (W : Nat) (s t : State) (i : Nat) (hb : Before W s)
    (hs : fail i s = some t) : Before W t ∧ lost t = lost s + 1 := by
  obtain ⟨hsize, hpend, harm, hrun, hidle, hex, htot, hreads⟩ := hb
  simp only [handling] at hidle
  obtain ⟨h, hpc, ht⟩ := fail_eq s t i hs
  have hmem := get_mem_workers s i h
  have h0 := hreads _ hmem hpc
  obtain ⟨e1, e2, e3, e4, e5, e6, e7, e8⟩ := tallies_set s t i
    { s.workers.get ⟨i, h⟩ with pc := Pc.exited } h (by rw [ht])
  have eL := lost_set s t i { s.workers.get ⟨i, h⟩ with pc := Pc.exited } h (by rw [ht])
  have f1 : t.pending = s.pending := by rw [ht]
  have f2 : t.armed = s.armed := by rw [ht]
  have f3 : t.running = s.running := by rw [ht]
  have f5 : t.workers = s.workers.set i { s.workers.get ⟨i, h⟩ with pc := Pc.exited } := by
    rw [ht]
  simp only [hpc, is_waiting, is_woken, is_read_done, is_rearmed, is_decremented,
    is_exited, if_true, if_false, rank, Bool.false_eq_true] at e1 e2 e3 e4 e5 e6 e7
  simp only [is_lost, hpc, is_exited, h0, Bool.false_and, Bool.true_and,
    Bool.false_eq_true, if_false, if_true, decide_True] at eL
  refine ⟨⟨by omega, by omega, by rw [f2, harm], by omega, ?_, by omega, by omega, ?_⟩, by omega⟩
  · simp only [handling]
    omega
  · intro w hw hwp
    rw [f5] at hw
    rcases mem_set_cases _ _ _ _ hw with hm | he
    · exact hreads w hm hwp
    · subst he; simp at hwp

theorem before_step_none (W : Nat) (s : State) (i : Nat) (hb : Before W s) :
    step i s = none := by
  obtain ⟨hsize, hpend, harm, hrun, hidle, hex, htot, hreads⟩ := hb
  simp only [handling] at hidle
  unfold step
  split
  · rename_i h
    have hmem := get_mem_workers s i h
    split
    · rw [if_neg (by omega)]
    · rw [if_neg (by omega)]
    · rename_i hpc
      exfalso
      have := tally_zero_pc is_read_done s (by omega) _ hmem
      rw [hpc] at this
      exact absurd this (by decide)
    · rename_i hpc
      exfalso
      have := tally_zero_pc is_rearmed s (by omega) _ hmem
      rw [hpc] at this
      exact absurd this (by decide)
    · rename_i post hpc
      exfalso
      have := tally_zero_pc is_decremented s (by omega) _ hmem
      rw [hpc] at this
      simp [is_decremented] at this
    · rfl
  · rfl

theorem before_started (W : Nat) : Before W (started W) ∧ lost (started W) = 0 := by
  have t : ∀ p : Pc → Bool, tally p (started W) = if p Pc.waiting then W else 0 := by
    intro p
    simp only [tally, started]
    exact countP_replicate_pc p W _
  have t1 := t is_waiting
  have t2 := t is_woken
  have t3 := t is_read_done
  have t4 := t is_rearmed
  have t5 := t is_decremented
  have t6 := t is_exited
  simp only [is_waiting, is_woken, is_read_done, is_rearmed, is_decremented, is_exited,
    if_true, if_false, Bool.false_eq_true] at t1 t2 t3 t4 t5 t6
  have hl : lost (started W) = 0 := by
    have := lost_le_exited (started W)
    omega
  refine ⟨⟨by simp [started], rfl, rfl, rfl, ?_, by omega, by omega, ?_⟩, hl⟩
  · simp only [handling]
    omega
  · intro w hw _
    simp only [started, List.mem_replicate] at hw
    rw [hw.2]

theorem before_run (W : Nat) :
    ∀ (pre : List Action) (s s0 : State), Before W s → run_actions pre s = some s0 →
      Before W s0 ∧ lost s0 = lost s + pre.length := by
  intro pre
  induction pre with
  | nil =>
    intro s s0 hb hr
    simp only [run_actions, Option.some.injEq] at hr
    subst hr
    exact ⟨hb, rfl⟩
  | cons a rest ih =>
    intro s s0 hb hr
    simp only [run_actions] at hr
    cases a with
    | step i =>
      simp only [act, before_step_none W s i hb, Option.none_bind] at hr
      exact absurd hr (by simp)
    | fail i =>
      simp only [act] at hr
      cases hf : fail i s with
      | none => simp [hf] at hr
      | some u =>
        rw [hf, Option.some_bind] at hr
        obtain ⟨hbu, hlu⟩ := before_fail W s u i hb hf
        obtain ⟨hb0, hl0⟩ := ih u s0 hbu hr
        refine ⟨hb0, ?_⟩
        simp only [List.length_cons]
        omega

theorem invg_close (W : Nat) (hpos : 0 < W) (s : State) (hb : Before W s) :
    InvG W (close s) ∧ lost (close s) = lost s := by
  obtain ⟨hsize, hpend, harm, hrun, hidle, hex, htot, hreads⟩ := hb
  simp only [handling] at hidle
  have tl : ∀ p : Pc → Bool, tally p (close s) = tally p s := fun _ => rfl
  have ll : lost (close s) = lost s := rfl
  have fp : (close s).pending = s.pending + 1 := rfl
  have fr : (close s).running = s.running := rfl
  have fa : (close s).armed = s.armed := rfl
  have fw : (close s).workers = s.workers := rfl
  refine ⟨⟨by rw [fw]; exact hsize, ?_, ?_, ?_, ?_, ?_, ?_, ?_, lost_le_exited _⟩, ll⟩
  · simp only [handling, tl]
    omega
  · rw [fa, harm, tl, tl]
    constructor
    · intro _; omega
    · intro _; rfl
  · rw [fr, tl, tl, tl, tl, ll]
    omega
  · rw [fp, fr, tl, tl, tl]
    split_ifs <;> omega
  · intro w hw v hv
    exfalso
    rw [fw] at hw
    have := tally_zero_pc is_decremented s (by omega) w hw
    simp [hv, is_decremented] at this
  · intro w hw
    rw [fw] at hw
    refine ⟨?_, ?_⟩
    · rintro (hx | hx)
      · exact hreads w hw hx
      · exfalso
        have := tally_zero_pc is_woken s (by omega) w hw
        simp [hx, is_woken] at this
    · rintro (hx | hx | ⟨v, hx⟩)
      · exfalso
        have := tally_zero_pc is_read_done s (by omega) w hw
        simp [hx, is_read_done] at this
      · exfalso
        have := tally_zero_pc is_rearmed s (by omega) w hw
        simp [hx, is_rearmed] at this
      · exfalso
        have := tally_zero_pc is_decremented s (by omega) w hw
        simp [hx, is_decremented] at this
  · simp only [handling, tl]
    omega

theorem invg_run (W : Nat) (hW : W < SIZE_MOD) :
    ∀ (post : List Action) (s t : State), InvG W s → run_actions post s = some t →
      InvG W t ∧ lost s ≤ lost t := by
  intro post
  induction post with
  | nil =>
    intro s t hinv hr
    simp only [run_actions, Option.some.injEq] at hr
    subst hr
    exact ⟨hinv, Nat.le_refl _⟩
  | cons a rest ih =>
    intro s t hinv hr
    simp only [run_actions] at hr
    cases ha : act a s with
    | none => simp [ha] at hr
    | some u =>
      rw [ha, Option.some_bind] at hr
      have hu : InvG W u ∧ lost s ≤ lost u := by
        cases a with
        | step i =>
          obtain ⟨h1, h2⟩ := invg_step W hW s u i hinv ha
          exact ⟨h1, by omega⟩
        | fail i =>
          obtain ⟨h1, h2⟩ := invg_fail W s u i hinv ha
          exact ⟨h1, by omega⟩
      obtain ⟨h3, h4⟩ := ih u t hu.1 hr
      exact ⟨h3, by omega⟩

theorem invg_joined (W : Nat) (t : State) (hinv : InvG W t)
    (hjoin : ∀ w ∈ t.workers, w.pc = Pc.exited) :
    t.running = lost t ∧ t.pending = (if lost t = 0 then 0 else 1) ∧ t.armed = true := by
  obtain ⟨hsize, hone, harm, hrun, htok, hpost, hreads, htot, hlost⟩ := hinv
  have z : ∀ p : Pc → Bool, p Pc.exited = false → tally p t = 0 := by
    intro p hp
    simp only [tally]
    apply List.countP_eq_zero.mpr
    intro w hw
    rw [hjoin w hw, hp]
    simp
  have z1 := z is_waiting rfl
  have z2 := z is_woken rfl
  have z3 := z is_read_done rfl
  have z4 := z is_rearmed rfl
  have z5 := z is_decremented rfl
  refine ⟨by omega, ?_, harm.mpr (by omega)⟩
  split_ifs at htok ⊢ <;> omega

end lost_worker_lemmas

theorem pool4_ctor (σ : Type) (derived : σ) :
    client_pool.ctor derived 1 1 4 4112 epoll_ok map_ok = some (Except.ok (pool4 σ derived)) := by
  rfl

theorem pool4_good (σ : Type) (derived : σ) : good (pool4 σ derived) [3, 2, 1, 0] :=
  (ctor_good derived 1 1 4 4112 epoll_ok map_ok _ (pool4_ctor σ derived)).1

theorem add_clients_good {σ : Type} :
    ∀ (calls : List (Int × Int)) (s : client_pool σ) (l : List Nat), good s l →
      calls.length ≤ l.length →
      (add_clients s calls).1 = calls.map (fun c => decide (c.2 = 0)) ∧
        good (add_clients s calls).2 (l.drop calls.length) := by
  intro calls
  induction calls with
  | nil => intro s l h _; exact ⟨rfl, h⟩
  | cons c rest ih =>
    intro s l h hlen
    cases l with
    | nil => simp at hlen
    | cons x t =>
      obtain ⟨he, hg⟩ := add_client_cons s c.1 c.2 x t h
      obtain ⟨r1, r2⟩ := ih (s.add_client c.1 c.2).2 t hg (by simpa using hlen)
      simp only [add_clients, List.map_cons, List.length_cons, List.drop_succ_cons]
      refine ⟨?_, r2⟩
      rw [r1, he]

/-! ## The claims -/

/-- C1: in the sequential model the reactor built by the constructor satisfies the
invariant, whose last field is `|free-list| + active_count = C` with `C` the
capacity written back by `create`; and from every state that satisfies it,
`add_client` (whatever `epoll_ctl` returns, and also on an empty free-list), the
eviction `unuse` of a slot in use, and the sweep of `stop` lead to a state that
satisfies it again, with the same `C`. -/
theorem C1_free_list_plus_active_count {σ : Type} :
    (∀ (derived : σ) (workerCount clientCap pagesize unitsize : Nat) (eenv : EpollEnv)
        (menv : MapEnv) (s : client_pool σ),
        client_pool.ctor derived workerCount clientCap pagesize unitsize eenv menv
          = some (Except.ok s) →
        s.invariant ∧ s.clientCap_ = round_hint pagesize (clientCap % SIZE_MOD) ∧
          s.freeMem_.free_list.length + s.clientCount_ = s.clientCap_) ∧
    (∀ s : client_pool σ, s.invariant →
      (∀ sfd ctl_ret : Int,
        (s.add_client sfd ctl_ret).2.invariant ∧
        (s.add_client sfd ctl_ret).2.clientCap_ = s.clientCap_ ∧
        (s.add_client sfd ctl_ret).2.freeMem_.free_list.length
          + (s.add_client sfd ctl_ret).2.clientCount_ = s.clientCap_) ∧
      (∀ cl : Nat, cl < s.clientCap_ → cl ∉ s.freeMem_.free_list →
        (s.unuse cl).invariant ∧ (s.unuse cl).clientCap_ = s.clientCap_ ∧
        (s.unuse cl).freeMem_.free_list.length + (s.unuse cl).clientCount_ = s.clientCap_) ∧
      (s.stop_sweep.invariant ∧ s.stop_sweep.clientCap_ = s.clientCap_ ∧
        s.stop_sweep.freeMem_.free_list.length + s.stop_sweep.clientCount_ = s.clientCap_)) := by
  have key : ∀ (a b : client_pool σ) (l : List Nat), good b l → b.clientCap_ = a.clientCap_ →
      b.invariant ∧ b.clientCap_ = a.clientCap_ ∧
        b.freeMem_.free_list.length + b.clientCount_ = a.clientCap_ := by
    intro a b l hg hc
    have hi := invariant_of_good b l hg
    exact ⟨hi, hc, hc ▸ hi.count⟩
  refine ⟨?_, ?_⟩
  · intro derived workerCount clientCap pagesize unitsize eenv menv s hs
    obtain ⟨hg, _, _, hcap, _⟩ := ctor_good _ _ _ _ _ _ _ _ hs
    have hi := invariant_of_good s _ hg
    exact ⟨hi, hcap, hi.count⟩
  · intro s hinv
    have hg := good_of_invariant s hinv
    refine ⟨?_, ?_, ?_⟩
    · intro sfd ctl_ret
      obtain ⟨l2, h2⟩ := good_add_client s sfd ctl_ret _ hg
      refine key s _ l2 h2 ?_
      cases hl : s.freeMem_.free_list with
      | nil =>
        rw [hl] at hg
        rw [add_client_nil s sfd ctl_ret hg]
      | cons x t =>
        rw [hl] at hg
        rw [(add_client_cons s sfd ctl_ret x t hg).1]
        exact (good_use_cons s sfd x t hg).2.2.2.1
    · intro cl hcl hfree
      exact key s _ _ (good_unuse s cl _ hg hcl hfree) (unuse_clientCap s cl)
    · obtain ⟨l2, h2⟩ := good_stop_sweep s _ hg
      refine key s _ l2 h2 ?_
      have hcap : ∀ (is : List Nat) (acc : client_pool σ),
          (is.foldl (fun a i => if (a.slot i).sfd ≠ 0 then a.unuse i else a) acc).clientCap_
            = acc.clientCap_ := by
        intro is
        induction is with
        | nil => intro acc; rfl
        | cons i rest ih =>
          intro acc
          simp only [List.foldl_cons]
          rw [ih]
          split_ifs
          · exact unuse_clientCap acc i
          · rfl
      exact hcap _ s

/-- Witness of C1 on the reactor built for a page size of 4 slots: the invariant holds
after construction, after a registered `add_client(7)`, after evicting its slot 3,
and after the sweep of `stop`. -/
theorem C1_free_list_plus_active_count_witness :
    (pool4 Unit ()).invariant ∧
    ((pool4 Unit ()).add_client 7 0).2.freeMem_.free_list.length
      + ((pool4 Unit ()).add_client 7 0).2.clientCount_ = 4 ∧
    ((((pool4 Unit ()).add_client 7 0).2).unuse 3).freeMem_.free_list.length
      + ((((pool4 Unit ()).add_client 7 0).2).unuse 3).clientCount_ = 4 ∧
    (((pool4 Unit ()).add_client 7 0).2).stop_sweep.freeMem_.free_list.length
      + (((pool4 Unit ()).add_client 7 0).2).stop_sweep.clientCount_ = 4 := by
  have c := (@C1_free_list_plus_active_count Unit).1 () 1 1 4 4112 epoll_ok map_ok _
    (pool4_ctor Unit ())
  have a := ((@C1_free_list_plus_active_count Unit).2 (pool4 Unit ()) c.1).1 7 0
  have o := (@C1_free_list_plus_active_count Unit).2 _ a.1
  exact ⟨c.1, a.2.2, (o.2.1 3 (by decide) (by decide)).2.2, o.2.2.2.2⟩

/-- C2: when the free-list is empty (`head_` is `nullptr`, so that the walk from it
finds no slot), `add_client(fd)` returns false whatever `fd` is, adds no call to
the log (nothing is registered with the multiplexor) and leaves `clientCount_`,
the slot array and the whole state as they were. -/
theorem C2_add_client_on_empty_free_list {σ : Type} (s : client_pool σ) (sfd ctl_ret : Int)
    (hempty : s.freeMem_.head_ = none) :
    s.freeMem_.free_list = [] ∧
    (s.add_client sfd ctl_ret).1 = false ∧
    (s.add_client sfd ctl_ret).2.trace = s.trace ∧
    (s.add_client sfd ctl_ret).2.get_active_count = s.get_active_count ∧
    (s.add_client sfd ctl_ret).2.freeMem_ = s.freeMem_ ∧
    (s.add_client sfd ctl_ret).2 = s := by
  have h : s.add_client sfd ctl_ret = (false, s) := by
    simp [client_pool.add_client, client_pool.use, atomic_stack.pop, hempty]
  have hw : s.freeMem_.free_list = [] := by
    simp only [atomic_stack.free_list, hempty]
    cases s.freeMem_.data.length <;> rfl
  rw [h]
  exact ⟨hw, rfl, rfl, rfl, rfl, rfl⟩

/-- Witness of C2: the reactor with 4 slots after four registered clients has an empty
free-list, and a fifth `add_client` is refused. -/
theorem C2_add_client_on_empty_free_list_witness :
    (add_clients (pool4 Unit ()) [(7, 0), (8, 0), (9, 0), (10, 0)]).2.freeMem_.head_ = none ∧
    ((add_clients (pool4 Unit ()) [(7, 0), (8, 0), (9, 0), (10, 0)]).2.add_client 11 0).1
      = false ∧
    ((add_clients (pool4 Unit ()) [(7, 0), (8, 0), (9, 0), (10, 0)]).2.add_client 11 0).2.get_active_count
      = 4 :=
  ⟨by decide,
   (C2_add_client_on_empty_free_list
      (add_clients (pool4 Unit ()) [(7, 0), (8, 0), (9, 0), (10, 0)]).2 11 0 (by decide)).2.1,
   by
     rw [(C2_add_client_on_empty_free_list
      (add_clients (pool4 Unit ()) [(7, 0), (8, 0), (9, 0), (10, 0)]).2 11 0 (by decide)).2.2.2.1]
     decide⟩

/-- C3 (what the code does): on the fresh reactor with free-list `[3, 2, 1, 0]`, the
acceptor accepts descriptor 7 on listener 9 and `epoll_ctl` fails (-1) when
`add_client` registers it. `add_client` returns false and the acceptor closes 7,
but slot 3 is not pushed back: the free-list stays `[2, 1, 0]`, `clientCount_`
stays 1 and slot 3 keeps descriptor 7. -/
theorem C3_failed_registration_keeps_slot :
    ((pool4 Unit ()).add_client 7 (-1)).1 = false ∧
    ((acceptor4 Unit ()).process 9 EPOLLIN [⟨7, 0, -1⟩, ⟨-1, 0, 0⟩]).map
        (fun sp => (sp.clientPool_.trace.drop 1, sp.clientPool_.freeMem_.free_list,
          sp.clientPool_.get_active_count, (sp.clientPool_.slot 3).sfd))
      = some ([Call.endpoint_accept 9, Call.endpoint_unblock 7,
               Call.epoll_ctl 5 EPOLL_CTL_ADD 7
                 (EPOLLIN ||| EPOLLET ||| EPOLLRDHUP ||| EPOLLPRI ||| EPOLLONESHOT)
                 (Cookie.ptr (some 3)),
               Call.endpoint_close 7, Call.endpoint_accept 9],
              [2, 1, 0], 1, 7) ∧
    (pool4 Unit ()).freeMem_.free_list = [3, 2, 1, 0] ∧
    (pool4 Unit ()).get_active_count = 0 := by
  refine ⟨by decide, by decide, by decide, by decide⟩

/-- C4 (counterexample): built with capacity hint 1 on a page size of 4096, the
reactor has 4096 slots, and after one registered client and no eviction the next
`add_client` returns true. -/
theorem C4_counterexample :
    ∃ s : client_pool Unit,
      client_pool.ctor () 1 1 4096 4112 epoll_ok map_ok = some (Except.ok s) ∧
      s.clientCap_ = 4096 ∧ (s.add_client 7 0).1 = true ∧
      ((s.add_client 7 0).2.add_client 8 0).1 = true := by
  obtain ⟨s, hs⟩ := ctor_ok () 1 1 4096 4112 epoll_ok map_ok (by decide) (by decide) (by decide)
    (by decide) (by decide) rfl rfl (by decide) (by decide)
  obtain ⟨hg, _, _, hcap, _⟩ := ctor_good _ _ _ _ _ _ _ _ hs
  have hc : s.clientCap_ = 4096 := by rw [hcap]; decide
  rw [hc] at hg
  have hd : descending (4096 - 1) = 4095 :: 4094 :: descending 4093 := rfl
  rw [hd] at hg
  obtain ⟨e1, g1⟩ := add_client_cons s 7 0 _ _ hg
  obtain ⟨e2, _⟩ := add_client_cons _ 8 0 _ _ g1
  refine ⟨s, hs, hc, ?_, ?_⟩
  · rw [e1]; rfl
  · rw [e2]; rfl

/-- C4 (amended): a reactor built with capacity hint 1 has as many slots as the page
size `P`; after `k ≤ P` registered clients and no eviction every one of the `k`
calls returned true, and the next `add_client` returns true exactly when `k < P`
and its registration succeeds. So `P` clients are accepted at a time, and exactly
one only when `P = 1`. -/
theorem C4_capacity_hint_one {σ : Type} (derived : σ) (workerCount pagesize unitsize : Nat)
    (eenv : EpollEnv) (menv : MapEnv) (s : client_pool σ)
    (hctor : client_pool.ctor derived workerCount 1 pagesize unitsize eenv menv
      = some (Except.ok s))
    (hlt : pagesize < SIZE_MOD) :
    s.clientCap_ = pagesize ∧
    ∀ fds : List Int, fds.length ≤ pagesize →
      (add_clients s (fds.map (fun fd => (fd, 0)))).1 = List.replicate fds.length true ∧
      ∀ fd ctl_ret : Int,
        ((add_clients s (fds.map (fun fd => (fd, 0)))).2.add_client fd ctl_ret).1
          = (decide (fds.length < pagesize) && decide (ctl_ret = 0)) := by
  obtain ⟨hg, _, hpos, hcap, _⟩ := ctor_good _ _ _ _ _ _ _ _ hctor
  have hc : s.clientCap_ = pagesize := by
    rw [hcap]
    rw [hcap] at hpos
    simp only [round_hint, size_sub, size_add, SIZE_MOD] at *
    by_cases h1 : 1 % pagesize = 0
    · have : pagesize = 1 := by
        rcases Nat.lt_or_ge 1 pagesize with h | h
        · rw [Nat.mod_eq_of_lt h] at h1; omega
        · rcases Nat.eq_zero_or_pos pagesize with h0 | h0
          · subst h0; simp at h1
          · omega
      subst this
      simp
    · have h2 : 1 < pagesize := by
        rcases Nat.lt_or_ge 1 pagesize with h | h
        · exact h
        · exfalso
          rcases Nat.eq_zero_or_pos pagesize with h0 | h0
          · subst h0; simp at hpos
          · have : pagesize = 1 := by omega
            subst this; simp at h1
      have h3 : 1 % pagesize = 1 := Nat.mod_eq_of_lt h2
      simp only [h3]
      simp
      omega
  refine ⟨hc, ?_⟩
  intro fds hlen
  have hdl : (descending (s.clientCap_ - 1)).length = pagesize := by
    rw [descending_length, hc]
    have : s.clientCap_ ≠ 0 := hpos
    omega
  obtain ⟨r1, r2⟩ := add_clients_good (fds.map (fun fd => (fd, (0 : Int)))) s _ hg
    (by rw [hdl]; simpa using hlen)
  refine ⟨?_, ?_⟩
  · rw [r1]
    simp [List.map_map, List.eq_replicate_iff]
  · intro fd ctl_ret
    simp only [List.length_map] at r2
    by_cases hk : fds.length < pagesize
    · have hne : (descending (s.clientCap_ - 1)).drop fds.length ≠ [] := by
        intro e
        have := congrArg List.length e
        simp only [List.length_drop, hdl, List.length_nil] at this
        omega
      obtain ⟨x, t, hxt⟩ := List.exists_cons_of_ne_nil hne
      rw [hxt] at r2
      rw [(add_client_cons _ fd ctl_ret x t r2).1]
      simp [hk]
    · have he : (descending (s.clientCap_ - 1)).drop fds.length = [] := by
        apply List.drop_eq_nil_of_le
        rw [hdl]; omega
      rw [he] at r2
      rw [add_client_nil _ fd ctl_ret r2]
      simp [hk]

/-- Witness of C4 (amended) on a page size of 4 slots: four clients are accepted and the
fifth is refused. -/
theorem C4_capacity_hint_one_witness :
    (pool4 Unit ()).clientCap_ = 4 ∧
    (add_clients (pool4 Unit ()) ([7, 8, 9, 10].map (fun fd => (fd, 0)))).1
      = List.replicate 4 true ∧
    ((add_clients (pool4 Unit ()) ([7, 8, 9, 10].map (fun fd => (fd, 0)))).2.add_client 11 0).1
      = false := by
  have h := C4_capacity_hint_one () 1 4 4112 epoll_ok map_ok (pool4 Unit ()) (pool4_ctor Unit ())
    (by decide)
  have h2 := h.2 [7, 8, 9, 10] (by decide)
  exact ⟨h.1, h2.1, (h2.2 11 0).trans (by decide)⟩

/-- C5 (counterexample): for the hint `2^64 - 1` and a page size of 4096 the rounding
wraps around: both allocators write back the capacity 0, which is below the hint. -/
theorem C5_counterexample :
    (detail.genmap 4096 map_ok 4112 18446744073709551615).2.1 = 0 ∧
    std_alloc.create_hint 4096 18446744073709551615 = 0 ∧
    ¬ (18446744073709551615 ≤ (detail.genmap 4096 map_ok 4112 18446744073709551615).2.1) := by
  refine ⟨by decide, by decide, by decide⟩

/-- C5 (amended): for a page size `P > 0` and a hint whose next multiple of `P` is
below `2^64`, `detail::genmap` and `std_alloc::create` write back the same capacity
`cap`, with `hint ≤ cap < hint + P` and `cap` a multiple of `P`, hence
`cap * sizeof(slot)` a multiple of `P`; a hint that is a multiple of `P` is left
unchanged and any other hint is rounded up; the byte size mapped is
`cap * sizeof(slot)` whenever that product is below `2^64`. -/
theorem C5_round_to_page_multiple (pagesize unitsize hint : Nat) (env : MapEnv)
    (hp : 0 < pagesize) (hh : hint < SIZE_MOD)
    (hfit : hint % pagesize ≠ 0 → hint + pagesize - hint % pagesize < SIZE_MOD) :
    std_alloc.create_hint pagesize hint = (detail.genmap pagesize env unitsize hint).2.1 ∧
    hint ≤ (detail.genmap pagesize env unitsize hint).2.1 ∧
    (detail.genmap pagesize env unitsize hint).2.1 < hint + pagesize ∧
    (detail.genmap pagesize env unitsize hint).2.1 % pagesize = 0 ∧
    ((detail.genmap pagesize env unitsize hint).2.1 * unitsize) % pagesize = 0 ∧
    (hint % pagesize = 0 → (detail.genmap pagesize env unitsize hint).2.1 = hint) ∧
    (hint % pagesize ≠ 0 → hint < (detail.genmap pagesize env unitsize hint).2.1) ∧
    ((detail.genmap pagesize env unitsize hint).2.1 * unitsize < SIZE_MOD →
      (detail.genmap pagesize env unitsize hint).2.2
        = (detail.genmap pagesize env unitsize hint).2.1 * unitsize) := by
  rw [detail_genmap_hint]
  simp only [std_alloc.create_hint]
  have hr : hint % pagesize < pagesize := Nat.mod_lt _ hp
  have hle : hint % pagesize ≤ hint := Nat.mod_le _ _
  have hmod : round_hint pagesize hint % pagesize = 0 := by
    by_cases h : hint % pagesize = 0
    · rw [round_hint_multiple _ _ h]; exact h
    · rw [round_hint_eq _ _ hh h, Nat.mod_eq_of_lt (hfit h)]
      exact round_up_mod pagesize hint
  have hval : round_hint pagesize hint
      = if hint % pagesize = 0 then hint else hint + pagesize - hint % pagesize := by
    by_cases h : hint % pagesize = 0
    · rw [round_hint_multiple _ _ h, if_pos h]
    · rw [round_hint_eq _ _ hh h, Nat.mod_eq_of_lt (hfit h), if_neg h]
  refine ⟨trivial, ?_, ?_, hmod, ?_, ?_, ?_, ?_⟩
  · rw [hval]; split_ifs <;> omega
  · rw [hval]; split_ifs <;> omega
  · rw [Nat.mul_mod, hmod]; simp
  · intro h; rw [hval, if_pos h]
  · intro h; rw [hval, if_neg h]; omega
  · intro h; exact Nat.mod_eq_of_lt h

/-- Witness of C5 (amended): hint 1 on a page size of 4096 with slots of 4112 bytes gives
4096 slots. -/
theorem C5_round_to_page_multiple_witness :
    (detail.genmap 4096 map_ok 4112 1).2.1 % 4096 = 0 ∧
    1 < (detail.genmap 4096 map_ok 4112 1).2.1 ∧
    (detail.genmap 4096 map_ok 4112 1).2.1 < 1 + 4096 :=
  have h := C5_round_to_page_multiple 4096 4112 1 map_ok (by decide) (by decide) (by decide)
  ⟨h.2.2.2.1, h.2.2.2.2.2.2.1 (by decide), h.2.2.1⟩

/-- C6: for a slot `cl` of the slot array and recv results made of the positive reads
`pos` followed by a terminating result `term` (0 or -1), `handle_epollin` returns;
the calls it adds to the log are `pos.length + 1` reads of at most 4096 bytes on
the slot's descriptor followed by exactly one terminal action (the `epoll_ctl`
of `rearm` when `term` is -1 with `EAGAIN`, otherwise the `epoll_ctl` delete and
the `close` of the eviction `unuse`); and the derived object has received
exactly the `pos.length` calls `on_input(fd, buff, n_i)`, in order, and no other
callback. -/
theorem C6_read_drain_loop {σ : Type} (h : Tderiv σ) (s : client_pool σ) (cl : Nat)
    (pos : List RecvResult) (term : RecvResult) (rest : List RecvResult)
    (hpos : ∀ r ∈ pos, 0 < r.ret) (hterm : term.ret = 0 ∨ term.ret = -1)
    (hv : cl < s.freeMem_.data.length) :
    client_pool.handle_epollin h (pos ++ term :: rest) s cl
      = some (if term.ret = -1 ∧ term.errno = EAGAIN then
          ((after_reads h pos s cl).log (Call.endpoint_read (s.slot cl).sfd 4096)).rearm cl
        else ((after_reads h pos s cl).log (Call.endpoint_read (s.slot cl).sfd 4096)).unuse cl) ∧
    (client_pool.handle_epollin h (pos ++ term :: rest) s cl).map (fun fin => fin.trace)
      = some (s.trace
          ++ List.replicate (pos.length + 1) (Call.endpoint_read (s.slot cl).sfd 4096)
          ++ (if term.ret = -1 ∧ term.errno = EAGAIN then
                [Call.epoll_ctl s.base.epfd_ EPOLL_CTL_MOD (s.slot cl).sfd
                  (EPOLLIN ||| EPOLLET ||| EPOLLRDHUP ||| EPOLLPRI ||| EPOLLONESHOT)
                  (Cookie.ptr (some cl))]
              else
                [Call.epoll_ctl s.base.epfd_ EPOLL_CTL_DEL (s.slot cl).sfd 0 (Cookie.ptr none),
                 Call.endpoint_close (s.slot cl).sfd])) ∧
    (client_pool.handle_epollin h (pos ++ term :: rest) s cl).map (fun fin => fin.derived)
      = some ((on_input_calls (s.slot cl).buff pos).foldl
          (fun u c => h.on_input (s.slot cl).sfd c.1 c.2 u) s.derived) :=
  handle_epollin_drain h s cl pos term rest hpos hterm hv

/-- Witness of C6: slot 3 holds descriptor 7; one read of the 3 bytes `abc` followed by
`EAGAIN` gives one `on_input(7, "abc", 3)`, two reads of 4096 bytes and one rearm. -/
theorem C6_read_drain_loop_witness :
    (client_pool.handle_epollin recorder ([⟨3, 0, [97, 98, 99]⟩] ++ ⟨-1, 11, []⟩ :: [])
        ((pool4 (List Callback) []).add_client 7 0).2 3).map (fun fin => fin.derived)
      = some [Callback.input 7 [97, 98, 99] 3] ∧
    (client_pool.handle_epollin recorder ([⟨3, 0, [97, 98, 99]⟩] ++ ⟨-1, 11, []⟩ :: [])
        ((pool4 (List Callback) []).add_client 7 0).2 3).map (fun fin => fin.trace.drop 2)
      = some [Call.endpoint_read 7 4096, Call.endpoint_read 7 4096,
              Call.epoll_ctl 5 EPOLL_CTL_MOD 7
                (EPOLLIN ||| EPOLLET ||| EPOLLRDHUP ||| EPOLLPRI ||| EPOLLONESHOT)
                (Cookie.ptr (some 3))] := by
  have h := C6_read_drain_loop recorder ((pool4 (List Callback) []).add_client 7 0).2 3
    [⟨3, 0, [97, 98, 99]⟩] ⟨-1, 11, []⟩ [] (by decide) (by decide) (by decide)
  refine ⟨h.2.2.trans (by decide), ?_⟩
  rw [h.1]
  decide

/-- C7 (what the code does): `handle_epollpri` calls `on_oob` without
`static_cast<Tderiv*>(this)`, so the `on_oob` of the derived class is never run:
replacing it by any other function changes no outcome of the loop. On slot 3 with
descriptor 7, an OOB byte `0x05` at the mark followed by in-band `"x"` and then
`EAGAIN` performs the OOB read, yet the recording handler gets only
`on_input(7, "x", 1)` and no `on_oob(7, 5)`. -/
theorem C7_on_oob_never_reaches_handler :
    (∀ (σ : Type) (h : Tderiv σ) (f : Int → Nat → σ → σ) (ps : List PriStep)
        (s : client_pool σ) (cl : Nat),
        client_pool.handle_epollpri { h with on_oob := f } ps s cl
          = client_pool.handle_epollpri h ps s cl) ∧
    (client_pool.handle_epollpri recorder
        [⟨0, 1, 1, 5, ⟨1, 0, [120]⟩⟩, ⟨0, 0, 0, 0, ⟨-1, 11, []⟩⟩]
        ((pool4 (List Callback) []).add_client 7 0).2 3).map
          (fun fin => (fin.derived, fin.trace.drop 2))
      = some ([Callback.input 7 [120] 1],
              [Call.ioctl_SIOCATMARK 7, Call.endpoint_read_oob 7, Call.endpoint_read 7 4096,
               Call.ioctl_SIOCATMARK 7, Call.endpoint_read 7 4096,
               Call.epoll_ctl 5 EPOLL_CTL_MOD 7
                 (EPOLLIN ||| EPOLLET ||| EPOLLRDHUP ||| EPOLLPRI ||| EPOLLONESHOT)
                 (Cookie.ptr (some 3))]) := by
  refine ⟨fun σ h f ps s cl => handle_epollpri_on_oob h f ps s cl, by decide⟩

/-- C8: when the flag word is exactly `EPOLLHUP`, exactly `EPOLLRDHUP`, or has the
`EPOLLERR` bit set together with any other bits, `process` is the eviction
`unuse(client)`: it adds the `epoll_ctl` delete and the `close` to the log and
leaves the state of the derived object untouched, whatever the handler is (no
`on_input`, `on_oob` or `on_write_ready`). -/
theorem C8_eviction_signals {σ : Type} (h : Tderiv σ) (s : client_pool σ) (cl flags : Nat)
    (rs : List RecvResult) (ps : List PriStep)
    (hf : flags = EPOLLHUP ∨ flags = EPOLLRDHUP ∨ flags &&& EPOLLERR = EPOLLERR) :
    client_pool.process h s cl flags rs ps = some (s.unuse cl) ∧
    (s.unuse cl).derived = s.derived ∧
    (s.unuse cl).trace = s.trace ++
      [Call.epoll_ctl s.base.epfd_ EPOLL_CTL_DEL (s.slot cl).sfd 0 (Cookie.ptr none),
       Call.endpoint_close (s.slot cl).sfd] := by
  refine ⟨?_, unuse_derived s cl, unuse_trace s cl⟩
  rcases hf with e | e | herr
  · subst e
    unfold client_pool.process
    rw [if_pos (by decide)]
  · subst e
    unfold client_pool.process
    rw [if_pos (by decide)]
  · rw [process_default h s cl flags rs ps (case_labels_no_err flags herr), if_pos herr]

/-- Witness of C8: `EPOLLIN | EPOLLOUT | EPOLLERR` on slot 3 with descriptor 7 and data
pending evicts the slot and calls nothing. -/
theorem C8_eviction_signals_witness :
    (client_pool.process recorder ((pool4 (List Callback) []).add_client 7 0).2 3
        (EPOLLIN ||| EPOLLOUT ||| EPOLLERR) [⟨3, 0, [97, 98, 99]⟩, ⟨-1, 11, []⟩] []).map
          (fun fin => (fin.derived, fin.get_active_count, (fin.slot 3).sfd))
      = some ([], 0, 0) := by
  rw [(C8_eviction_signals recorder ((pool4 (List Callback) []).add_client 7 0).2 3
    (EPOLLIN ||| EPOLLOUT ||| EPOLLERR) [⟨3, 0, [97, 98, 99]⟩, ⟨-1, 11, []⟩] []
    (Or.inr (Or.inr (by decide)))).1]
  decide

/-- C9 (what the code does): a flag word that holds `EPOLLHUP` and `EPOLLRDHUP` at once
next to `EPOLLIN` or `EPOLLPRI` is none of the case labels and has no `EPOLLERR`
bit, so `process` falls to `default:` and does nothing: no read, no callback, no
rearm and no eviction; the state is returned as it was. -/
theorem C9_hup_and_rdhup_together_not_drained :
    ∀ (σ : Type) (h : Tderiv σ) (s : client_pool σ) (cl : Nat) (rs : List RecvResult)
      (ps : List PriStep),
      client_pool.process h s cl (EPOLLIN ||| EPOLLHUP ||| EPOLLRDHUP) rs ps = some s ∧
      client_pool.process h s cl (EPOLLPRI ||| EPOLLHUP ||| EPOLLRDHUP) rs ps = some s ∧
      client_pool.process h s cl (EPOLLIN ||| EPOLLPRI ||| EPOLLHUP ||| EPOLLRDHUP) rs ps
        = some s := by
  intro σ h s cl rs ps
  refine ⟨?_, ?_, ?_⟩
  · rw [process_default h s cl _ rs ps (by decide), if_neg (by decide)]
  · rw [process_default h s cl _ rs ps (by decide), if_neg (by decide)]
  · rw [process_default h s cl _ rs ps (by decide), if_neg (by decide)]

/-- C10: for the flag word exactly `EPOLLOUT`, `process` is one call
`on_write_ready(cl->sfd)` and nothing else; for `EPOLLIN | EPOLLOUT` it is
`handle_epollin` followed by one `on_write_ready`; for `EPOLLPRI | EPOLLOUT` and
`EPOLLIN | EPOLLPRI | EPOLLOUT` it is `handle_epollpri` followed by one
`on_write_ready`. The write-ready call acts on the state the drain loop left. On
slot 3 with descriptor 7, `EPOLLIN | EPOLLOUT` with `"abc"` then `EAGAIN` yields
`on_input(7, "abc", 3)` and then `on_write_ready(7)`. -/
theorem C10_write_ready_after_drain :
    (∀ (σ : Type) (h : Tderiv σ) (s : client_pool σ) (cl : Nat) (rs : List RecvResult)
      (ps : List PriStep),
      client_pool.process h s cl EPOLLOUT rs ps
        = some { s with derived := h.on_write_ready (s.slot cl).sfd s.derived } ∧
      client_pool.process h s cl (EPOLLIN ||| EPOLLOUT) rs ps
        = (client_pool.handle_epollin h rs s cl).map
            (fun s1 => { s1 with derived := h.on_write_ready (s1.slot cl).sfd s1.derived }) ∧
      client_pool.process h s cl (EPOLLPRI ||| EPOLLOUT) rs ps
        = (client_pool.handle_epollpri h ps s cl).map
            (fun s1 => { s1 with derived := h.on_write_ready (s1.slot cl).sfd s1.derived }) ∧
      client_pool.process h s cl (EPOLLIN ||| EPOLLPRI ||| EPOLLOUT) rs ps
        = (client_pool.handle_epollpri h ps s cl).map
            (fun s1 => { s1 with derived := h.on_write_ready (s1.slot cl).sfd s1.derived })) ∧
    (client_pool.process recorder ((pool4 (List Callback) []).add_client 7 0).2 3 EPOLLOUT
        [] []).map (fun fin => (fin.derived, fin.trace.drop 2))
      = some ([Callback.write_ready 7], []) ∧
    (client_pool.process recorder ((pool4 (List Callback) []).add_client 7 0).2 3
        (EPOLLIN ||| EPOLLOUT) [⟨3, 0, [97, 98, 99]⟩, ⟨-1, 11, []⟩] []).map
          (fun fin => fin.derived)
      = some [Callback.input 7 [97, 98, 99] 3, Callback.write_ready 7] ∧
    (client_pool.process recorder ((pool4 (List Callback) []).add_client 7 0).2 3
        (EPOLLIN ||| EPOLLPRI ||| EPOLLOUT) []
        [⟨0, 0, 0, 0, ⟨3, 0, [97, 98, 99]⟩⟩, ⟨0, 0, 0, 0, ⟨-1, 11, []⟩⟩]).map
          (fun fin => fin.derived)
      = some [Callback.input 7 [97, 98, 99] 3, Callback.write_ready 7] := by
  refine ⟨?_, by decide, by decide, by decide⟩
  intro σ h s cl rs ps
  refine ⟨?_, ?_, ?_, ?_⟩
  · unfold client_pool.process
    rw [if_neg (by decide), if_neg (by decide), if_neg (by decide), if_neg (by decide),
      if_pos (by decide)]
    rfl
  · unfold client_pool.process
    rw [if_neg (by decide), if_neg (by decide), if_neg (by decide), if_neg (by decide),
      if_neg (by decide), if_pos (by decide)]
    rfl
  · unfold client_pool.process
    rw [if_neg (by decide), if_neg (by decide), if_neg (by decide), if_neg (by decide),
      if_neg (by decide), if_neg (by decide), if_pos (by decide)]
    rfl
  · unfold client_pool.process
    rw [if_neg (by decide), if_neg (by decide), if_neg (by decide), if_neg (by decide),
      if_neg (by decide), if_neg (by decide), if_neg (by decide), if_pos (by decide)]
    rfl

/-- C11 (counterexample): on slot 3 with descriptor 7, the flag word
`EPOLLIN | EPOLLHUP | EPOLLOUT` with `"abc"` then `EAGAIN` runs the read-drain loop
and never calls `on_write_ready`; the same holds for `EPOLLPRI | EPOLLRDHUP | EPOLLOUT`
and the OOB-drain loop. -/
theorem C11_counterexample :
    (client_pool.process recorder ((pool4 (List Callback) []).add_client 7 0).2 3
        (EPOLLIN ||| EPOLLHUP ||| EPOLLOUT) [⟨3, 0, [97, 98, 99]⟩, ⟨-1, 11, []⟩] []).map
          (fun fin => fin.derived)
      = some [Callback.input 7 [97, 98, 99] 3] ∧
    (client_pool.process recorder ((pool4 (List Callback) []).add_client 7 0).2 3
        (EPOLLPRI ||| EPOLLRDHUP ||| EPOLLOUT) []
        [⟨0, 0, 0, 0, ⟨3, 0, [97, 98, 99]⟩⟩, ⟨0, 0, 0, 0, ⟨-1, 11, []⟩⟩]).map
          (fun fin => fin.derived)
      = some [Callback.input 7 [97, 98, 99] 3] := by
  refine ⟨by decide, by decide⟩

/-- C11 (amended): `EPOLLOUT` is handled in addition to the drain loop only when
neither hang-up flag is present: for `EPOLLIN | EPOLLOUT`, `EPOLLPRI | EPOLLOUT` and
`EPOLLIN | EPOLLPRI | EPOLLOUT`, `process` is the drain loop followed by one
`on_write_ready`. When `EPOLLOUT` comes with `EPOLLIN` or `EPOLLPRI` and exactly one
of `EPOLLHUP`, `EPOLLRDHUP`, `process` is the drain loop alone (the source marks
these labels "ignore EPOLLOUT"), and the drain loops never run `on_write_ready`. -/
theorem C11_out_with_hangup_is_ignored :
    ∀ (σ : Type) (h : Tderiv σ) (s : client_pool σ) (cl : Nat) (rs : List RecvResult)
      (ps : List PriStep),
      (client_pool.process h s cl (EPOLLIN ||| EPOLLOUT) rs ps
        = (client_pool.handle_epollin h rs s cl).map
            (fun s1 => { s1 with derived := h.on_write_ready (s1.slot cl).sfd s1.derived }) ∧
       client_pool.process h s cl (EPOLLPRI ||| EPOLLOUT) rs ps
        = (client_pool.handle_epollpri h ps s cl).map
            (fun s1 => { s1 with derived := h.on_write_ready (s1.slot cl).sfd s1.derived }) ∧
       client_pool.process h s cl (EPOLLIN ||| EPOLLPRI ||| EPOLLOUT) rs ps
        = (client_pool.handle_epollpri h ps s cl).map
            (fun s1 => { s1 with derived := h.on_write_ready (s1.slot cl).sfd s1.derived })) ∧
      (client_pool.process h s cl (EPOLLIN ||| EPOLLHUP ||| EPOLLOUT) rs ps
        = client_pool.handle_epollin h rs s cl ∧
       client_pool.process h s cl (EPOLLIN ||| EPOLLRDHUP ||| EPOLLOUT) rs ps
        = client_pool.handle_epollin h rs s cl ∧
       client_pool.process h s cl (EPOLLPRI ||| EPOLLHUP ||| EPOLLOUT) rs ps
        = client_pool.handle_epollpri h ps s cl ∧
       client_pool.process h s cl (EPOLLPRI ||| EPOLLRDHUP ||| EPOLLOUT) rs ps
        = client_pool.handle_epollpri h ps s cl ∧
       client_pool.process h s cl (EPOLLIN ||| EPOLLPRI ||| EPOLLHUP ||| EPOLLOUT) rs ps
        = client_pool.handle_epollpri h ps s cl ∧
       client_pool.process h s cl (EPOLLIN ||| EPOLLPRI ||| EPOLLRDHUP ||| EPOLLOUT) rs ps
        = client_pool.handle_epollpri h ps s cl) ∧
      (∀ f : Int → σ → σ,
        client_pool.handle_epollin { h with on_write_ready := f } rs s cl
          = client_pool.handle_epollin h rs s cl ∧
        client_pool.handle_epollpri { h with on_write_ready := f } ps s cl
          = client_pool.handle_epollpri h ps s cl) := by
  intro σ h s cl rs ps
  refine ⟨⟨?_, ?_, ?_⟩, ⟨?_, ?_, ?_, ?_, ?_, ?_⟩, fun f =>
    ⟨handle_epollin_on_write_ready h f rs s cl, handle_epollpri_on_write_ready h f ps s cl⟩⟩
  · unfold client_pool.process
    rw [if_neg (by decide), if_neg (by decide), if_neg (by decide), if_neg (by decide),
      if_neg (by decide), if_pos (by decide)]
    rfl
  · unfold client_pool.process
    rw [if_neg (by decide), if_neg (by decide), if_neg (by decide), if_neg (by decide),
      if_neg (by decide), if_neg (by decide), if_pos (by decide)]
    rfl
  · unfold client_pool.process
    rw [if_neg (by decide), if_neg (by decide), if_neg (by decide), if_neg (by decide),
      if_neg (by decide), if_neg (by decide), if_neg (by decide), if_pos (by decide)]
    rfl
  · unfold client_pool.process
    rw [if_neg (by decide), if_pos (by decide)]
  · unfold client_pool.process
    rw [if_neg (by decide), if_pos (by decide)]
  · unfold client_pool.process
    rw [if_neg (by decide), if_neg (by decide), if_pos (by decide)]
  · unfold client_pool.process
    rw [if_neg (by decide), if_neg (by decide), if_pos (by decide)]
  · unfold client_pool.process
    rw [if_neg (by decide), if_neg (by decide), if_neg (by decide), if_pos (by decide)]
  · unfold client_pool.process
    rw [if_neg (by decide), if_neg (by decide), if_neg (by decide), if_pos (by decide)]

/-- C14: `run` on a reactor that is already running (`threads_` not empty) changes
nothing: no worker is spawned and `threadCount_` keeps its value; `stop` on a
reactor without workers changes nothing: no shutdown token is written and
every slot, the free-list and the counters keep their values. Hence `run; run`
is `run` and `stop; stop` is `stop`. -/
theorem C14_run_stop_idempotent {σ : Type} (s : client_pool σ) :
    (s.threads_ ≠ 0 → s.run = s) ∧
    (∀ joined, s.threads_ = 0 → s.stop joined = s) ∧
    s.run.run = s.run ∧
    (∀ joined joined2, (s.stop joined).stop joined2 = s.stop joined) := by
  have hsweep : ∀ (is : List Nat) (acc : client_pool σ),
      (is.foldl (fun a i => if (a.slot i).sfd ≠ 0 then a.unuse i else a) acc).threads_
        = acc.threads_ := by
    intro is
    induction is with
    | nil => intro acc; rfl
    | cons i rest ih =>
      intro acc
      simp only [List.foldl_cons]
      rw [ih]
      split_ifs
      · unfold client_pool.unuse
        rfl
      · rfl
  refine ⟨?_, ?_, ?_, ?_⟩
  · intro h
    simp only [client_pool.run, if_neg h]
  · intro joined h
    simp only [client_pool.stop, h, ne_eq, not_true_eq_false, if_false]
  · by_cases h : s.threads_ = 0
    · by_cases hw : s.workerCount_ = 0
      · simp only [client_pool.run, h, if_true, hw]
      · simp only [client_pool.run, h, if_true, hw, if_false]
    · simp only [client_pool.run, if_neg h]
  · intro joined joined2
    by_cases h : s.threads_ = 0
    · simp only [client_pool.stop, h, ne_eq, not_true_eq_false, if_false]
    · have h0 : (s.stop joined).threads_ = 0 := by
        simp only [client_pool.stop, ne_eq, h, not_false_eq_true, if_true,
          client_pool.stop_sweep]
        rw [hsweep]
      generalize s.stop joined = t at h0
      simp only [client_pool.stop, h0, ne_eq, not_true_eq_false, if_false]

/-- Witness of C14: the running 4-slot reactor is left as it is by `run`, and the
reactor that was never started is left as it is by `stop`. -/
theorem C14_run_stop_idempotent_witness :
    (pool4 Unit ()).run.run = (pool4 Unit ()).run ∧
    (pool4 Unit ()).run.threads_ = 1 ∧
    (pool4 Unit ()).stop 0 = pool4 Unit () :=
  ⟨(C14_run_stop_idempotent (pool4 Unit ()).run).1 (by decide), by decide,
   (C14_run_stop_idempotent (pool4 Unit ())).2.1 0 (by decide)⟩

/-- C15 (counterexample): with a page size of 4096, the constructor fails with the very
same `runtime_error` (same type, same message) when `epoll_create1` fails, when
`socketpair` fails and when the registration of the control channel fails. -/
theorem C15_counterexample :
    client_pool.ctor () 1 1 4096 4112 { epoll_ok with epoll_create1 := -1 } map_ok
      = client_pool.ctor () 1 1 4096 4112 { epoll_ok with socketpair := -1 } map_ok ∧
    client_pool.ctor () 1 1 4096 4112 { epoll_ok with socketpair := -1 } map_ok
      = client_pool.ctor () 1 1 4096 4112 { epoll_ok with ctl := -1 } map_ok ∧
    client_pool.ctor () 1 1 4096 4112 { epoll_ok with epoll_create1 := -1 } map_ok
      = some (Except.error (Exception.runtime_error "failed to create epoll descriptor")) := by
  refine ⟨rfl, rfl, rfl⟩

/-- C15 (amended): the constructor reports two kinds of error. A failure of
`epoll_create1`, of `socketpair` or of the registration of the control channel
raises `runtime_error("failed to create epoll descriptor")`, the same for the
three; when the `epoll` base is built and `detail::genmap` returns `nullptr`
(`memfd_create` or `ftruncate` failed), the constructor raises `bad_alloc`, which
differs from that `runtime_error`. -/
theorem C15_constructor_errors {σ : Type} (derived : σ)
    (workerCount clientCap pagesize unitsize : Nat) (eenv : EpollEnv) (menv : MapEnv) :
    (eenv.epoll_create1 = -1 ∨ eenv.socketpair = -1 ∨ eenv.ctl = -1 →
      client_pool.ctor derived workerCount clientCap pagesize unitsize eenv menv
        = some (Except.error (Exception.runtime_error "failed to create epoll descriptor"))) ∧
    (eenv.epoll_create1 ≠ -1 → eenv.socketpair ≠ -1 → eenv.ctl ≠ -1 →
      menv.memfd_create = -1 ∨ menv.ftruncate = -1 →
      client_pool.ctor derived workerCount clientCap pagesize unitsize eenv menv
        = some (Except.error Exception.bad_alloc)) ∧
    Exception.bad_alloc ≠ Exception.runtime_error "failed to create epoll descriptor" := by
  refine ⟨?_, ?_, by decide⟩
  · intro h
    have he : epoll.ctor DEFAULT_MAX_EVENTS eenv
        = Except.error (Exception.runtime_error "failed to create epoll descriptor") := by
      simp only [epoll.ctor]
      split_ifs with h1 h2 h3
      · rfl
      · rfl
      · rfl
      · exfalso
        rcases h with h | h | h
        · exact h1 h
        · exact h2 h
        · exact h3 h
    simp only [client_pool.ctor, he]
  · intro e1 e2 e3 hm
    have hg : (detail.genmap pagesize menv unitsize (clientCap % SIZE_MOD)).1 = MapPtr.nullptr := by
      simp only [detail.genmap]
      rcases hm with h | h
      · rw [if_pos h]
      · split_ifs <;> rfl
    have hc : ∃ hint, atomic_stack.init.create pagesize unitsize menv (clientCap % SIZE_MOD)
        = some (false, hint, atomic_stack.init) := by
      simp only [atomic_stack.create, atomic_stack.init]
      rw [if_neg (by simp)]
      generalize detail.genmap pagesize menv unitsize (clientCap % SIZE_MOD) = g at hg
      obtain ⟨ptr, c, sz⟩ := g
      simp only at hg
      subst hg
      exact ⟨c, rfl⟩
    obtain ⟨hint, hc⟩ := hc
    simp [client_pool.ctor, epoll.ctor, e1, e2, e3, hc]

/-- Witness of C15 (amended): a failing `socketpair` gives the `runtime_error`, a failing
`ftruncate` gives `bad_alloc`. -/
theorem C15_constructor_errors_witness :
    client_pool.ctor () 1 1 4096 4112 { epoll_ok with socketpair := -1 } map_ok
      = some (Except.error (Exception.runtime_error "failed to create epoll descriptor")) ∧
    client_pool.ctor () 1 1 4096 4112 epoll_ok { map_ok with ftruncate := -1 }
      = some (Except.error Exception.bad_alloc) :=
  ⟨(C15_constructor_errors () 1 1 4096 4112 { epoll_ok with socketpair := -1 } map_ok).1
      (Or.inr (Or.inl rfl)),
   (C15_constructor_errors () 1 1 4096 4112 epoll_ok { map_ok with ftruncate := -1 }).2.1
      (by decide) (by decide) (by decide) (Or.inr rfl)⟩

/-- C16 (what the code does): when `memfd_create` or `ftruncate` fails, `detail::genmap`
returns `nullptr` and the constructor fails with `bad_alloc`. When the first
`mmap` fails, `detail::genmap` returns `MAP_FAILED`, which is not `nullptr`; when
the second `mmap` fails it returns the `PROT_NONE` region. In both cases `create`
does not return false: it goes on to write the free-list through that pointer
(undefined behaviour, `none`), and the constructor raises no `bad_alloc`. -/
theorem C16_mmap_failure_not_reported :
    (detail.genmap 4096 { map_ok with mmap_none_ok := false } 4112 1).1 = MapPtr.map_failed ∧
    (detail.genmap 4096 { map_ok with mmap_fixed_ok := false } 4112 1).1 = MapPtr.prot_none ∧
    atomic_stack.init.create 4096 4112 { map_ok with mmap_none_ok := false } 1 = none ∧
    atomic_stack.init.create 4096 4112 { map_ok with mmap_fixed_ok := false } 1 = none ∧
    client_pool.ctor () 1 1 4096 4112 epoll_ok { map_ok with mmap_none_ok := false } = none ∧
    client_pool.ctor () 1 1 4096 4112 epoll_ok { map_ok with mmap_fixed_ok := false } = none ∧
    (detail.genmap 4096 { map_ok with memfd_create := -1 } 4112 1).1 = MapPtr.nullptr ∧
    atomic_stack.init.create 4096 4112 { map_ok with memfd_create := -1 } 1
      = some (false, 4096, atomic_stack.init) ∧
    client_pool.ctor () 1 1 4096 4112 epoll_ok { map_ok with memfd_create := -1 }
      = some (Except.error Exception.bad_alloc) ∧
    client_pool.ctor () 1 1 4096 4112 epoll_ok { map_ok with ftruncate := -1 }
      = some (Except.error Exception.bad_alloc) := by
  refine ⟨rfl, rfl, rfl, rfl, rfl, rfl, rfl, rfl, rfl, rfl⟩

/-- C19 (what the code does): the switch of `server_pool::process` has the label
`case EPOLLERR:` only, so the listener is closed when the flag word is exactly
`EPOLLERR`; a word that holds `EPOLLERR` together with other flags goes to
`default:` and runs the accept loop. On listener 9 with `EPOLLERR | EPOLLIN` and
no connection pending, `process` calls `accept` once and closes nothing. -/
theorem C19_error_flag_with_other_flags :
    (∀ (σ : Type) (sp : server_pool σ) (sfd : Int) (accepts : List Accepted),
      server_pool.process sp sfd EPOLLERR accepts
        = some (sp.log (Call.endpoint_close sfd)) ∧
      server_pool.process sp sfd (EPOLLERR ||| EPOLLIN) accepts
        = server_pool.accept_loop accepts sp sfd ∧
      server_pool.process sp sfd (EPOLLERR ||| EPOLLHUP) accepts
        = server_pool.accept_loop accepts sp sfd) ∧
    ((acceptor4 Unit ()).process 9 (EPOLLERR ||| EPOLLIN) [⟨-1, 0, 0⟩]).map
        (fun sp => sp.clientPool_.trace.drop 1)
      = some [Call.endpoint_accept 9] := by
  refine ⟨fun σ sp sfd accepts => ⟨?_, ?_, ?_⟩, by decide⟩
  · simp only [server_pool.process, if_true]
  · simp only [server_pool.process]
    rw [if_neg (by decide)]
  · simp only [server_pool.process]
    rw [if_neg (by decide)]

/-- C17: on an event whose flag word is not exactly `EPOLLERR`, and for accept results
`accs` (none of them -1) followed by a -1, `server_pool::process` returns after
one more `accept`: it has handled each accepted descriptor in order. For one
accepted descriptor: when `endpoint_unblock` fails, the only calls are `accept`,
`endpoint_unblock` and the `close` of the descriptor, and the connection reactor is
otherwise untouched (`add_client` is not called); when it succeeds, `add_client`
is called, and the descriptor is closed exactly when `add_client` returns false. -/
theorem C17_acceptor_loop {σ : Type} (sp : server_pool σ) (sfd : Int) (flags : Nat)
    (accs : List Accepted) (last : Accepted) (rest : List Accepted)
    (hflags : flags ≠ EPOLLERR) (haccs : ∀ a ∈ accs, a.cfd ≠ -1) (hlast : last.cfd = -1) :
    server_pool.process sp sfd flags (accs ++ last :: rest)
      = some ((after_accepts sp sfd accs).log (Call.endpoint_accept sfd)) ∧
    (∀ (q : server_pool σ) (a : Accepted),
      (a.unblock_ret ≠ 0 →
        (accept_one q sfd a).clientPool_
          = { q.clientPool_ with
              trace := q.clientPool_.trace ++ [Call.endpoint_accept sfd,
                Call.endpoint_unblock a.cfd, Call.endpoint_close a.cfd] }) ∧
      (a.unblock_ret = 0 →
        ((((q.clientPool_.log (Call.endpoint_accept sfd)).log
            (Call.endpoint_unblock a.cfd)).add_client a.cfd a.ctl_ret).1 = true →
          (accept_one q sfd a).clientPool_
            = (((q.clientPool_.log (Call.endpoint_accept sfd)).log
                (Call.endpoint_unblock a.cfd)).add_client a.cfd a.ctl_ret).2) ∧
        ((((q.clientPool_.log (Call.endpoint_accept sfd)).log
            (Call.endpoint_unblock a.cfd)).add_client a.cfd a.ctl_ret).1 = false →
          (accept_one q sfd a).clientPool_
            = ((((q.clientPool_.log (Call.endpoint_accept sfd)).log
                (Call.endpoint_unblock a.cfd)).add_client a.cfd a.ctl_ret).2).log
                  (Call.endpoint_close a.cfd)))) := by
  refine ⟨?_, ?_⟩
  · simp only [server_pool.process, if_neg hflags]
    rw [accept_loop_append accs _ sp sfd haccs, accept_loop_last last rest _ sfd hlast]
  · intro q a
    refine ⟨?_, ?_⟩
    · intro hu
      simp only [accept_one, if_pos hu, server_pool.log, client_pool.log, List.append_assoc,
        List.cons_append, List.nil_append]
    · intro hu
      have hu2 : ¬ a.unblock_ret ≠ 0 := by simp [hu]
      refine ⟨?_, ?_⟩
      · intro hr
        simp only [accept_one, if_neg hu2, server_pool.log]
        rw [hr]
        rfl
      · intro hr
        simp only [accept_one, if_neg hu2, server_pool.log]
        rw [hr]
        rfl

/-- Witness of C17 on listener 9 with the 4-slot reactor: descriptor 7 is registered,
descriptor 8 fails to become nonblocking and is closed without `add_client`,
descriptor 10 fails to register and is closed, then `accept` returns -1. -/
theorem C17_acceptor_loop_witness :
    ((acceptor4 Unit ()).process 9 EPOLLIN
        ([⟨7, 0, 0⟩, ⟨8, -1, 0⟩, ⟨10, 0, -1⟩] ++ ⟨-1, 0, 0⟩ :: [])).map
        (fun sp => sp.clientPool_.trace.drop 1)
      = some [Call.endpoint_accept 9, Call.endpoint_unblock 7,
              Call.epoll_ctl 5 EPOLL_CTL_ADD 7
                (EPOLLIN ||| EPOLLET ||| EPOLLRDHUP ||| EPOLLPRI ||| EPOLLONESHOT)
                (Cookie.ptr (some 3)),
              Call.endpoint_accept 9, Call.endpoint_unblock 8, Call.endpoint_close 8,
              Call.endpoint_accept 9, Call.endpoint_unblock 10,
              Call.epoll_ctl 5 EPOLL_CTL_ADD 10
                (EPOLLIN ||| EPOLLET ||| EPOLLRDHUP ||| EPOLLPRI ||| EPOLLONESHOT)
                (Cookie.ptr (some 2)),
              Call.endpoint_close 10, Call.endpoint_accept 9] := by
  rw [(C17_acceptor_loop (acceptor4 Unit ()) 9 EPOLLIN [⟨7, 0, 0⟩, ⟨8, -1, 0⟩, ⟨10, 0, -1⟩]
    ⟨-1, 0, 0⟩ [] (by decide) (by decide) rfl).1]
  decide

/-- C12: the shutdown of `W ≥ 1` workers that `stop` starts with one `close()` while
`runningInstances = W` (steps of `wait`: the control event is reported to one
worker, it reads the token, re-registers the control channel, decrements the
counter, writes a token when the counter is still positive, and returns).
Some schedule ends the shutdown, and along every schedule: at most `5 * W` steps
were taken, at most one worker holds the control event, no worker has read more
than one token, at most `W` tokens were written; when no worker can move the
shutdown has ended, and it has ended only after exactly `5 * W` steps. At the
end every worker has returned after reading exactly one token, `W` tokens were
written in all (the one of `close()` and `W - 1` by workers, none by a worker when
`W = 1`), `runningInstances` is 0 and no token is pending. -/
theorem C12_daisy_chain_shutdown (W : Nat) (hpos : 0 < W) (hW : W < SIZE_MOD) :
    (∃ sched t, shutdown.run sched (shutdown.close (shutdown.started W)) = some t ∧
        shutdown.finished W t) ∧
    (∀ sched t, shutdown.run sched (shutdown.close (shutdown.started W)) = some t →
        sched.length ≤ 5 * W ∧ shutdown.handling t ≤ 1 ∧
        (∀ w ∈ t.workers, w.reads ≤ 1) ∧ t.writes ≤ W ∧
        ((∀ i, shutdown.step i t = none) → shutdown.finished W t) ∧
        (shutdown.finished W t → sched.length = 5 * W)) := by
  obtain ⟨hinv0, hsl0⟩ := inv_close_started W hpos
  refine ⟨exists_run W hW (5 * W) _ hinv0 hsl0, ?_⟩
  intro sched t hr
  obtain ⟨hinv, hsl⟩ := inv_run W hW sched _ t hinv0 hr
  refine ⟨by omega, hinv.one, ?_, ?_, fun hstuck => stuck_finished W t hinv hstuck, ?_⟩
  · intro w hw
    rw [hinv.reads_eq w hw]
    split_ifs <;> omega
  · have h1 := hinv.writes_eq
    have h2 := hinv.total
    split_ifs at h1 <;> omega
  · intro hf
    have := finished_steps_left W t hf
    omega

/-- Witness of C12: three workers; the schedule in which worker 0, then worker 2,
then worker 1 goes through its five steps ends the shutdown with three tokens
written, and the single worker of `W = 1` ends it with the token of `close()`
alone. -/
theorem C12_daisy_chain_shutdown_witness :
    0 < 3 ∧ 3 < SIZE_MOD ∧
    shutdown.run [0, 0, 0, 0, 0, 2, 2, 2, 2, 2, 1, 1, 1, 1, 1]
        (shutdown.close (shutdown.started 3))
      = some { workers := List.replicate 3 { pc := shutdown.Pc.exited, reads := 1 },
               pending := 0, armed := true, running := 0, writes := 3 } ∧
    shutdown.run [0, 0, 0, 0, 0] (shutdown.close (shutdown.started 1))
      = some { workers := [{ pc := shutdown.Pc.exited, reads := 1 }],
               pending := 0, armed := true, running := 0, writes := 1 } ∧
    (∀ sched t, shutdown.run sched (shutdown.close (shutdown.started 3)) = some t →
        sched.length ≤ 5 * 3 ∧ shutdown.handling t ≤ 1 ∧
        (∀ w ∈ t.workers, w.reads ≤ 1) ∧ t.writes ≤ 3 ∧
        ((∀ i, shutdown.step i t = none) → shutdown.finished 3 t) ∧
        (shutdown.finished 3 t → sched.length = 5 * 3)) :=
  ⟨by decide, by decide, by decide, by decide,
   (C12_daisy_chain_shutdown 3 (by decide) (by decide)).2⟩

/-- C22: when `create` on a fresh stack returns true and writes back the capacity `n`
(for a hint that is a `size_t` value), `n ≥ 1`, the `n` successive pops return the
slots `n - 1, n - 2, ..., 0` in that order, each once, and every further
pop returns `nullptr` and leaves the stack as it is. -/
theorem C22_pops_after_create (pagesize unitsize : Nat) (env : MapEnv) (hint n : Nat)
    (st : atomic_stack) (hh : hint < SIZE_MOD)
    (h : atomic_stack.init.create pagesize unitsize env hint = some (true, n, st)) :
    1 ≤ n ∧
    (st.pops n).1 = (descending (n - 1)).map some ∧
    (descending (n - 1)).Nodup ∧ (descending (n - 1)).length = n ∧
    (∀ i, i ∈ descending (n - 1) ↔ i < n) ∧
    (st.pops n).2.pop = (none, (st.pops n).2) ∧
    (∀ k, (st.pops (n + k)).1 = (descending (n - 1)).map some ++ List.replicate k none) := by
  obtain ⟨hcap, hpos, hst⟩ := create_true pagesize unitsize env hint n st h
  have hlt : n < SIZE_MOD := hcap ▸ round_hint_lt pagesize hint hh
  obtain ⟨hlen, hchain, _⟩ := create_good n hpos hlt
  have hb : st.buffer_ = some (link_nodes (size_sub n 1) 0
      ((List.replicate n zero_node).set 0 (zero_node.construct none))) := by rw [hst]
  have hhead : st.head_ = some (size_sub n 1) := by rw [hst]
  have hp := pops_chain _ (descending (n - 1)) st hb (hhead ▸ hchain)
  have hdl : (descending (n - 1)).length = n := by rw [descending_length]; omega
  rw [hdl] at hp
  have hnone : (st.pops n).2.head_ = none := by rw [hp.2]
  refine ⟨by omega, hp.1, descending_nodup _, hdl, ?_, ?_, ?_⟩
  · intro i
    rw [mem_descending]
    omega
  · simp only [atomic_stack.pop, hnone]
  · intro k
    rw [(pops_add n k st).1, hp.1, (pops_empty _ hnone k).1]

/-- Witness of C22: the stack created for a hint of 3 with a page size of 4 has
capacity 4; its four pops return slots 3, 2, 1, 0 and the next two return
`nullptr`. -/
theorem C22_pops_after_create_witness :
    atomic_stack.init.create 4 4112 map_ok 3 = some (true, 4, (pool4 Unit ()).freeMem_) ∧
    ((pool4 Unit ()).freeMem_.pops (4 + 2)).1
      = (descending (4 - 1)).map some ++ List.replicate 2 none ∧
    (descending (4 - 1)).map some ++ List.replicate 2 none
      = [some 3, some 2, some 1, some 0, none, none] :=
  ⟨rfl,
   (C22_pops_after_create 4 4112 map_ok 3 4 (pool4 Unit ()).freeMem_ (by decide)
      rfl).2.2.2.2.2.2 2,
   by decide⟩

/-- C23: in the sequential model, for a stack `s` and a slot `x` of its slot array that
is not on the free-list, `pop` after `push(x)` returns `x` and leaves `head_`, the
capacity and the free-list of `s`; every other slot is untouched and of slot `x`
only the link `next` was written (with the old `head_`), so when that link held
the old `head_` already the stack is `s` itself. A `pop` on the empty stack
returns `nullptr` and leaves the stack as it is. -/
theorem C23_push_then_pop (s : atomic_stack) (x : Nat) :
    (x < s.data.length → x ∉ s.free_list →
      (s.push x).pop.1 = some x ∧
      (s.push x).pop.2.head_ = s.head_ ∧
      (s.push x).pop.2.capacity_ = s.capacity_ ∧
      (s.push x).pop.2.free_list = s.free_list ∧
      (∀ j, j ≠ x → (s.push x).pop.2.node j = s.node j) ∧
      (s.push x).pop.2.node x = { s.node x with next := s.head_ } ∧
      ((s.node x).next = s.head_ → (s.push x).pop.2 = s)) ∧
    (s.head_ = none → s.pop = (none, s)) := by
  refine ⟨?_, ?_⟩
  · intro hx hfree
    obtain ⟨hd, cap, b⟩ := s
    cases b with
    | none => simp [atomic_stack.data] at hx
    | some buf =>
      simp only [atomic_stack.data, Option.getD_some] at hx
      have hnode : ∀ j, (atomic_stack.push ⟨hd, cap, some buf⟩ x).pop.2.node j
          = (buf.set x { buf.getD x zero_node with next := hd }).getD j zero_node := by
        intro j
        simp [atomic_stack.push, atomic_stack.pop, atomic_stack.set_node, atomic_stack.node,
          atomic_stack.data]
      have hxx : (buf.set x { buf.getD x zero_node with next := hd }).getD x zero_node
          = { buf.getD x zero_node with next := hd } := getD_set_eq buf x _ hx
      have hhead : (atomic_stack.push ⟨hd, cap, some buf⟩ x).pop.2.head_ = hd := by
        simp only [atomic_stack.push, atomic_stack.pop, atomic_stack.set_node, atomic_stack.node,
          atomic_stack.data, Option.map_some', Option.getD_some]
        rw [hxx]
      have hbuf : (atomic_stack.push ⟨hd, cap, some buf⟩ x).pop.2.buffer_
          = some (buf.set x { buf.getD x zero_node with next := hd }) := by
        simp [atomic_stack.push, atomic_stack.pop, atomic_stack.set_node, atomic_stack.node,
          atomic_stack.data]
      refine ⟨rfl, hhead, rfl, ?_, ?_, ?_, ?_⟩
      · simp only [atomic_stack.free_list, atomic_stack.data, hbuf, hhead, Option.getD_some,
          List.length_set]
        exact walk_set_of_not_mem buf x _ _ _ hfree
      · intro j hj
        rw [hnode j]
        simp only [atomic_stack.node, atomic_stack.data, Option.getD_some]
        exact getD_set_ne buf x j _ (Ne.symm hj)
      · rw [hnode x, hxx]
        rfl
      · intro hnext
        simp only [atomic_stack.node, atomic_stack.data, Option.getD_some] at hnext
        have hsame : buf.set x { buf.getD x zero_node with next := hd } = buf := by
          have e : ({ buf.getD x zero_node with next := hd } : atomic_node) = buf.getD x zero_node := by
            rw [← hnext]
          rw [e]
          apply List.ext_getElem
          · simp
          · intro i h1 h2
            by_cases hix : x = i
            · subst hix
              simp [List.getD_eq_getElem?_getD, h2]
            · simp [List.getElem_set, hix]
        have : (atomic_stack.push ⟨hd, cap, some buf⟩ x).pop.2
            = ⟨(atomic_stack.push ⟨hd, cap, some buf⟩ x).pop.2.head_,
               (atomic_stack.push ⟨hd, cap, some buf⟩ x).pop.2.capacity_,
               (atomic_stack.push ⟨hd, cap, some buf⟩ x).pop.2.buffer_⟩ := rfl
        rw [this, hhead, hbuf, hsame]
        rfl
  · intro h
    simp only [atomic_stack.pop, h]

/-- Witness of C23 on the stack of the 4-slot reactor after one pop: slot 3 is not on the
free-list `[2, 1, 0]`; pushing it and popping returns slot 3 and the stack is as
before. After four pops the stack is empty and a pop returns `nullptr`. -/
theorem C23_push_then_pop_witness :
    (((pool4 Unit ()).freeMem_.pop.2.push 3).pop.1 = some 3 ∧
      ((pool4 Unit ()).freeMem_.pop.2.push 3).pop.2 = (pool4 Unit ()).freeMem_.pop.2) ∧
    ((pool4 Unit ()).freeMem_.pops 4).2.pop = (none, ((pool4 Unit ()).freeMem_.pops 4).2) :=
  ⟨⟨((C23_push_then_pop (pool4 Unit ()).freeMem_.pop.2 3).1 (by decide) (by decide)).1,
    ((C23_push_then_pop (pool4 Unit ()).freeMem_.pop.2 3).1 (by decide) (by decide)).2.2.2.2.2.2
      (by decide)⟩,
   (C23_push_then_pop ((pool4 Unit ()).freeMem_.pops 4).2 0).2 (by decide)⟩

/-- C25 (what the code does): `delmap<T>(src, size)` passes `size * 2` to `detail::delmap`,
while `detail::genmap` maps `*sizeHint * unitsize` bytes once. For a stack built by
`create` with capacity `n` and slot size `unitsize`, `genmap` mapped
`n * unitsize` bytes and `destroy` passes `(n * 2) * unitsize` (modulo `2^64`) to
`munmap`: twice the mapped length whenever the double fits a `size_t`, and so
different from it for every non-zero slot size. -/
theorem C25_destroy_unmaps_double (pagesize unitsize : Nat) (env : MapEnv) (hint n : Nat)
    (st : atomic_stack)
    (h : atomic_stack.init.create pagesize unitsize env hint = some (true, n, st)) :
    (detail.genmap pagesize env unitsize hint).2.2 = n * unitsize ∧
    (st.destroy unitsize).1 = some (size_mul (size_mul n 2) unitsize) ∧
    (2 * (n * unitsize) < SIZE_MOD →
      (st.destroy unitsize).1 = some (2 * (n * unitsize)) ∧
      (0 < unitsize →
        (st.destroy unitsize).1 ≠ some (detail.genmap pagesize env unitsize hint).2.2)) := by
  obtain ⟨hsz, _⟩ := create_size pagesize unitsize env hint n st h
  obtain ⟨_, hpos, hst⟩ := create_true pagesize unitsize env hint n st h
  have hd : (st.destroy unitsize).1 = some (size_mul (size_mul n 2) unitsize) := by
    rw [hst]
    simp [atomic_stack.destroy, map_alloc.destroy, delmap, detail.delmap]
  refine ⟨hsz, hd, ?_⟩
  intro hfit
  have hval : size_mul (size_mul n 2) unitsize = 2 * (n * unitsize) := by
    simp only [size_mul]
    by_cases hu : unitsize = 0
    · subst hu; simp
    · have h1 : n * 2 < SIZE_MOD := by
        have : n * 2 ≤ 2 * (n * unitsize) := by
          have : n ≤ n * unitsize := Nat.le_mul_of_pos_right n (Nat.pos_of_ne_zero hu)
          omega
        omega
      rw [Nat.mod_eq_of_lt h1]
      have e : n * 2 * unitsize = 2 * (n * unitsize) := by ring
      rw [e, Nat.mod_eq_of_lt hfit]
  refine ⟨by rw [hd, hval], ?_⟩
  intro hu
  rw [hd, hval, hsz]
  intro e
  simp only [Option.some.injEq] at e
  have : 0 < n * unitsize := Nat.mul_pos (Nat.pos_of_ne_zero hpos) hu
  omega

/-- Witness of C25: for a hint of 3 slots of 4112 bytes and a page size of 4, `genmap`
maps 16448 bytes and `destroy` passes 32896 to `munmap`. -/
theorem C25_destroy_unmaps_double_witness :
    (detail.genmap 4 map_ok 4112 3).2.2 = 16448 ∧
    ((pool4 Unit ()).freeMem_.destroy 4112).1 = some 32896 ∧
    ((pool4 Unit ()).freeMem_.destroy 4112).1 ≠ some (detail.genmap 4 map_ok 4112 3).2.2 :=
  ⟨(C25_destroy_unmaps_double 4 4112 map_ok 3 4 (pool4 Unit ()).freeMem_ rfl).1,
   ((C25_destroy_unmaps_double 4 4112 map_ok 3 4 (pool4 Unit ()).freeMem_ rfl).2.2
      (by decide)).1,
   ((C25_destroy_unmaps_double 4 4112 map_ok 3 4 (pool4 Unit ()).freeMem_ rfl).2.2
      (by decide)).2 (by decide)⟩

/-- C26 (what the code does): a flag word that is none of the 23 case labels of
`process` and has no `EPOLLERR` bit reaches `default:`, where nothing is done:
`process` returns with the state as it was, so the slot is neither rearmed nor
evicted. The words `EPOLLHUP | EPOLLRDHUP`, `EPOLLIN | EPOLLHUP | EPOLLRDHUP`,
`EPOLLPRI | EPOLLHUP | EPOLLRDHUP` and `EPOLLIN | EPOLLPRI | EPOLLHUP | EPOLLRDHUP` are
such words. For the word `EPOLLOUT` alone, `process` calls `on_write_ready` and
issues no call: no rearm and no eviction either. -/
theorem C26_slot_left_disabled {σ : Type} (h : Tderiv σ) (s : client_pool σ) (cl : Nat)
    (rs : List RecvResult) (ps : List PriStep) :
    (∀ flags, flags ∉ case_labels → flags &&& EPOLLERR ≠ EPOLLERR →
      client_pool.process h s cl flags rs ps = some s) ∧
    client_pool.process h s cl (EPOLLHUP ||| EPOLLRDHUP) rs ps = some s ∧
    client_pool.process h s cl (EPOLLIN ||| EPOLLHUP ||| EPOLLRDHUP) rs ps = some s ∧
    client_pool.process h s cl (EPOLLPRI ||| EPOLLHUP ||| EPOLLRDHUP) rs ps = some s ∧
    client_pool.process h s cl (EPOLLIN ||| EPOLLPRI ||| EPOLLHUP ||| EPOLLRDHUP) rs ps = some s ∧
    client_pool.process h s cl EPOLLOUT rs ps
      = some { s with derived := h.on_write_ready (s.slot cl).sfd s.derived } := by
  have key : ∀ flags, flags ∉ case_labels → flags &&& EPOLLERR ≠ EPOLLERR →
      client_pool.process h s cl flags rs ps = some s := by
    intro flags hne herr
    rw [process_default h s cl flags rs ps hne, if_neg herr]
  exact ⟨key, key _ (by decide) (by decide), key _ (by decide) (by decide),
    key _ (by decide) (by decide), key _ (by decide) (by decide), process_out h s cl rs ps⟩

/-- Witness of C26: slot 3 of the 4-slot reactor holds descriptor 7 and was dispatched
with `EPOLLIN | EPOLLHUP | EPOLLRDHUP` (0x2011); `process` returns with the state
unchanged: slot 3 still holds 7, it is not on the free-list `[2, 1, 0]`, and only
the two calls of the constructor and of `add_client` were ever issued. -/
theorem C26_slot_left_disabled_witness :
    client_pool.process recorder ((pool4 (List Callback) []).add_client 7 0).2 3 0x2011
        [⟨0, 0, []⟩] []
      = some ((pool4 (List Callback) []).add_client 7 0).2 ∧
    ((((pool4 (List Callback) []).add_client 7 0).2.slot 3).sfd,
      ((pool4 (List Callback) []).add_client 7 0).2.freeMem_.free_list,
      ((pool4 (List Callback) []).add_client 7 0).2.trace.length) = (7, [2, 1, 0], 2) :=
  ⟨(C26_slot_left_disabled recorder ((pool4 (List Callback) []).add_client 7 0).2 3
      [⟨0, 0, []⟩] []).1 0x2011 (by decide) (by decide),
   by decide⟩

/-- C28 (what the code does): let the acceptor of a running reactor with a free slot
accept a descriptor `cfd` (not 0) whose registration fails, and then get -1 from
`accept`. `add_client` returns false and the acceptor closes `cfd`, but the slot `x`
rented by `use` keeps holding `cfd`. The sweep of the following `stop` finds a
non-zero descriptor in slot `x` and evicts it, which closes `cfd` once more: the
log of `stop` holds at least two more `close(cfd)` than the log before the
accept. -/
theorem C28_descriptor_closed_twice {σ : Type} (sp : server_pool σ) (sfd : Int) (flags : Nat)
    (a last : Accepted) (rest : List Accepted) (joined : Nat)
    (hflags : flags ≠ EPOLLERR) (hlast : last.cfd = -1)
    (hinv : sp.clientPool_.invariant) (hfree : sp.clientPool_.freeMem_.free_list ≠ [])
    (hthr : sp.clientPool_.threads_ ≠ 0)
    (hcfd : a.cfd ≠ -1) (hnz : a.cfd ≠ 0) (hub : a.unblock_ret = 0) (hctl : a.ctl_ret ≠ 0) :
    ∃ sp1 x, server_pool.process sp sfd flags (a :: last :: rest) = some sp1 ∧
      sp.clientPool_.freeMem_.free_list.head? = some x ∧
      (sp1.clientPool_.slot x).sfd = a.cfd ∧
      sp1.clientPool_.trace = sp.clientPool_.trace ++
        [Call.endpoint_accept sfd, Call.endpoint_unblock a.cfd,
         Call.epoll_ctl sp.clientPool_.base.epfd_ EPOLL_CTL_ADD a.cfd
           (EPOLLIN ||| EPOLLET ||| EPOLLRDHUP ||| EPOLLPRI ||| EPOLLONESHOT)
           (Cookie.ptr (some x)),
         Call.endpoint_close a.cfd, Call.endpoint_accept sfd] ∧
      sp.clientPool_.trace.count (Call.endpoint_close a.cfd) + 2
        ≤ (sp1.clientPool_.stop joined).trace.count (Call.endpoint_close a.cfd) := by
  have hg := good_of_invariant sp.clientPool_ hinv
  cases hl : sp.clientPool_.freeMem_.free_list with
  | nil => exact absurd hl hfree
  | cons x l =>
    rw [hl] at hg
    have hg2 : good ((sp.clientPool_.log (Call.endpoint_accept sfd)).log
        (Call.endpoint_unblock a.cfd)) (x :: l) := good_log _ _ _ (good_log _ _ _ hg)
    obtain ⟨f1, f2, f3, f4⟩ := failed_registration_state _ a.cfd a.ctl_ret x l hg2 hctl
    have hone := accept_one_refused sp sfd a hub f1
    have hproc : server_pool.process sp sfd flags (a :: last :: rest)
        = some ((accept_one sp sfd a).log (Call.endpoint_accept sfd)) := by
      simp only [server_pool.process, if_neg hflags]
      have e := accept_loop_append [a] (last :: rest) sp sfd (by
        intro b hb
        rw [List.mem_singleton.mp hb]
        exact hcfd)
      simp only [List.singleton_append] at e
      rw [e, accept_loop_last last rest _ sfd hlast]
      rfl
    have hsc := same_control_add_client ((sp.clientPool_.log (Call.endpoint_accept sfd)).log
        (Call.endpoint_unblock a.cfd)) a.cfd a.ctl_ret
    obtain ⟨_, sc2, sc3, sc4⟩ := hsc
    have hfin : ((accept_one sp sfd a).log (Call.endpoint_accept sfd)).clientPool_
        = ((accept_one sp sfd a).clientPool_).log (Call.endpoint_accept sfd) := rfl
    have hslot : ((((accept_one sp sfd a).log (Call.endpoint_accept sfd)).clientPool_).slot x).sfd
        = a.cfd := by
      rw [hfin, hone]
      exact f2
    have htrace : (((accept_one sp sfd a).log (Call.endpoint_accept sfd)).clientPool_).trace
        = sp.clientPool_.trace ++
          [Call.endpoint_accept sfd, Call.endpoint_unblock a.cfd,
           Call.epoll_ctl sp.clientPool_.base.epfd_ EPOLL_CTL_ADD a.cfd
             (EPOLLIN ||| EPOLLET ||| EPOLLRDHUP ||| EPOLLPRI ||| EPOLLONESHOT)
             (Cookie.ptr (some x)),
           Call.endpoint_close a.cfd, Call.endpoint_accept sfd] := by
      rw [hfin, hone]
      show (_ ++ [_]) ++ [_] = _
      rw [f3]
      simp [client_pool.log]
    have hthr2 : (((accept_one sp sfd a).log (Call.endpoint_accept sfd)).clientPool_).threads_ ≠ 0 := by
      rw [hfin, hone]
      exact (show _ = _ from sc2) ▸ hthr
    have hcap : (((accept_one sp sfd a).log (Call.endpoint_accept sfd)).clientPool_).clientCap_
        = sp.clientPool_.clientCap_ := by
      rw [hfin, hone]
      exact sc3
    refine ⟨_, x, hproc, rfl, hslot, htrace, ?_⟩
    rw [stop_eq _ joined hthr2]
    have hx : x ∈ List.range
        (((accept_one sp sfd a).log (Call.endpoint_accept sfd)).clientPool_).clientCap_ := by
      rw [hcap, List.mem_range]
      exact f4
    have hsw := sweep_count x a.cfd hnz _
      { ((accept_one sp sfd a).log (Call.endpoint_accept sfd)).clientPool_ with
        trace := (((accept_one sp sfd a).log (Call.endpoint_accept sfd)).clientPool_).trace
          ++ [Call.endpoint_write
            (((accept_one sp sfd a).log (Call.endpoint_accept sfd)).clientPool_).base.selfpipe_.1 [36]],
        threadCount_ := joined, threads_ := 0 } hx hslot
    refine Nat.le_trans ?_ hsw
    simp only []
    rw [htrace]
    simp [List.count_append, List.count_cons]

/-- Witness of C28 on the running 4-slot reactor behind listener 9: descriptor 7 is
accepted and its registration fails; after `stop` the log holds `close(7)` twice,
once from the acceptor and once from the sweep. -/
theorem C28_descriptor_closed_twice_witness :
    (({ acceptor4 Unit () with clientPool_ := (pool4 Unit ()).run }).process 9 EPOLLIN
        [⟨7, 0, -1⟩, ⟨-1, 0, 0⟩]).map
          (fun (sp1 : server_pool Unit) => (sp1.clientPool_.stop 0).trace.drop 1)
      = some [Call.endpoint_accept 9, Call.endpoint_unblock 7,
              Call.epoll_ctl 5 EPOLL_CTL_ADD 7
                (EPOLLIN ||| EPOLLET ||| EPOLLRDHUP ||| EPOLLPRI ||| EPOLLONESHOT)
                (Cookie.ptr (some 3)),
              Call.endpoint_close 7, Call.endpoint_accept 9,
              Call.endpoint_write 3 [36],
              Call.epoll_ctl 5 EPOLL_CTL_DEL 7 0 (Cookie.ptr none), Call.endpoint_close 7] ∧
    (∃ (sp1 : server_pool Unit) (x : Nat),
      ({ acceptor4 Unit () with clientPool_ := (pool4 Unit ()).run }).process 9 EPOLLIN
        [⟨7, 0, -1⟩, ⟨-1, 0, 0⟩] = some sp1 ∧ (sp1.clientPool_.slot x).sfd = 7 ∧
      0 + 2 ≤ (sp1.clientPool_.stop 0).trace.count (Call.endpoint_close 7)) :=
  ⟨by decide,
   (C28_descriptor_closed_twice ({ acceptor4 Unit () with clientPool_ := (pool4 Unit ()).run })
       9 EPOLLIN ⟨7, 0, -1⟩ ⟨-1, 0, 0⟩ [] 0 (by decide) (by decide)
       (invariant_of_good _ _
         (show good (pool4 Unit ()).run [3, 2, 1, 0] from pool4_good Unit ())) (by decide) (by decide) (by decide) (by decide)
       (by decide) (by decide)).imp
     (fun _ h => h.imp (fun _ hx => ⟨hx.1, hx.2.2.1, hx.2.2.2.2⟩))⟩

/-- C29 (counterexample): a listener with descriptor 0 is registered by `add(0)` with the
cookie `data.u32 = 0`, which reads as a null pointer. When the listener becomes
readable, the acceptor's `wait` takes the event for the control event: it reads
the control channel (descriptor 11), never calls `accept` on the listener, and
returns. -/
theorem C29_counterexample :
    ((acceptor4 Unit ()).add 0 0).2.clientPool_.trace.drop 1
      = [Call.epoll_ctl 12 EPOLL_CTL_ADD 0 (EPOLLIN ||| EPOLLET ||| EPOLLEXCLUSIVE)
          (Cookie.u32 0)] ∧
    (Cookie.u32 0).is_null = true ∧
    (server_pool.wait 0 [Polled.ready [⟨Cookie.u32 0, EPOLLIN, [], [], [⟨-1, 0, 0⟩]⟩]]
        ((acceptor4 Unit ()).add 0 0).2).map
          (fun r => (r.1.clientPool_.trace.drop 2, r.1.threadCount_, r.2))
      = some ([Call.endpoint_read 11 1,
               Call.epoll_ctl 12 EPOLL_CTL_MOD 11 (EPOLLIN ||| EPOLLET ||| EPOLLONESHOT)
                 (Cookie.ptr none)], 0, Outcome.returned) := by
  refine ⟨by decide, by decide, by decide⟩

/-- C29 (amended): for a listening descriptor `sfd` with `1 ≤ sfd < 2^31`, `add(sfd)` and
`bind` (when `endpoint_unblock` succeeds) register it with the cookie
`data.u32 = sfd`, which does not read as a null pointer; `wait` hands an event with
that cookie to `process(sfd, flags)` and goes on with the remaining events,
and does not take the control branch. -/
theorem C29_listener_cookie {σ : Type} (sp : server_pool σ) (sfd : Int)
    (hpos : 0 < sfd) (hint : sfd < 2147483648) :
    (∀ ctl_ret, (sp.add sfd ctl_ret).2.clientPool_.trace
      = sp.clientPool_.trace ++
          [Call.epoll_ctl sp.base.epfd_ EPOLL_CTL_ADD sfd
            (EPOLLIN ||| EPOLLET ||| EPOLLEXCLUSIVE) (Cookie.u32 sfd)]) ∧
    (∀ unblock_ret ctl_ret, unblock_ret ≠ -1 →
      (sp.bind sfd unblock_ret ctl_ret).2.clientPool_.trace
        = sp.clientPool_.trace ++
            [Call.endpoint_unblock sfd,
             Call.epoll_ctl sp.base.epfd_ EPOLL_CTL_ADD sfd
               (EPOLLIN ||| EPOLLET ||| EPOLLEXCLUSIVE) (Cookie.u32 sfd)]) ∧
    (Cookie.u32 sfd).is_null = false ∧
    (∀ (q : server_pool σ) (ctl_ret : Int) (flags : Nat) (rs : List RecvResult)
        (ps : List PriStep) (accepts : List Accepted) (es : List Event) (rest : List Polled),
      server_pool.wait ctl_ret
          (Polled.ready (⟨Cookie.u32 sfd, flags, rs, ps, accepts⟩ :: es) :: rest) q
        = (server_pool.process q sfd flags accepts).bind
            (fun q1 => server_pool.wait ctl_ret (Polled.ready es :: rest) q1)) := by
  have hnn : (Cookie.u32 sfd).is_null = false := by
    simp only [Cookie.is_null, decide_eq_false_iff_not]
    omega
  refine ⟨?_, ?_, hnn, ?_⟩
  · intro ctl_ret
    rfl
  · intro unblock_ret ctl_ret hu
    have hs : sfd ≠ -1 := by omega
    simp only [server_pool.bind, if_neg hs, if_neg hu, server_pool.log, client_pool.log,
      List.append_assoc, List.cons_append, List.nil_append]
  · intro q ctl_ret flags rs ps accepts es rest
    exact server_wait_listener ctl_ret sfd flags rs ps accepts es rest q hnn

/-- Witness of C29 (amended): listener 9 is registered with cookie 9; when it becomes
readable with no connection pending, `wait` calls `accept(9)` once and stays in its
loop until `epoll_wait` fails. -/
theorem C29_listener_cookie_witness :
    (Cookie.u32 9).is_null = false ∧
    (server_pool.wait 0 (Polled.ready (⟨Cookie.u32 9, EPOLLIN, [], [], [⟨-1, 0, 0⟩]⟩ :: [])
        :: [Polled.error]) ((acceptor4 Unit ()).add 9 0).2).map
          (fun r => (r.1.clientPool_.trace.drop 1, r.1.threadCount_, r.2))
      = some ([Call.epoll_ctl 12 EPOLL_CTL_ADD 9 (EPOLLIN ||| EPOLLET ||| EPOLLEXCLUSIVE)
                 (Cookie.u32 9),
               Call.endpoint_accept 9], 1, Outcome.broke) :=
  ⟨(C29_listener_cookie (acceptor4 Unit ()) 9 (by decide) (by decide)).2.2.1,
   by
     rw [(C29_listener_cookie (acceptor4 Unit ()) 9 (by decide) (by decide)).2.2.2
       ((acceptor4 Unit ()).add 9 0).2 0 EPOLLIN [] [] [⟨-1, 0, 0⟩] [] [Polled.error]]
     decide⟩

/-- C24: when every `ioctl(SIOCATMARK)` of the OOB-drain loop succeeds and reports "not at
the mark", `handle_epollpri` run on the read results `ps.map rd` and `handle_epollin`
run on the same read results either both are still looping after the last
result or both return, and then they leave the same state apart from the
`ioctl` calls in the log: the same handler state (the same `on_input` calls in the
same order), the same slot array and free-list, the same active count, and the
same calls in the same order (reads, then the `EPOLL_CTL_MOD` of the rearm or the
`EPOLL_CTL_DEL` and `close` of the eviction). -/
theorem C24_inband_part_of_oob_drain {σ : Type} (h : Tderiv σ) (s : client_pool σ) (cl : Nat)
    (ps : List PriStep) (hps : ∀ p ∈ ps, p.ioctl_ret ≠ -1 ∧ p.mark = 0) :
    (client_pool.handle_epollpri h ps s cl).map without_mark_queries
      = (client_pool.handle_epollin h (ps.map (fun p => p.rd)) s cl).map without_mark_queries ∧
    (client_pool.handle_epollpri h ps s cl).map
        (fun t => (t.derived, t.freeMem_, t.clientCount_,
          t.trace.filter (fun c => !c.is_mark_query)))
      = (client_pool.handle_epollin h (ps.map (fun p => p.rd)) s cl).map
        (fun t => (t.derived, t.freeMem_, t.clientCount_,
          t.trace.filter (fun c => !c.is_mark_query))) := by
  have key : (client_pool.handle_epollpri h ps s cl).map without_mark_queries
      = (client_pool.handle_epollin h (ps.map (fun p => p.rd)) s cl).map without_mark_queries := by
    rw [wmq_handle_epollpri h ps s cl hps, wmq_handle_epollin]
  refine ⟨key, ?_⟩
  have e := congrArg (Option.map (fun (u : client_pool σ) =>
    (u.derived, u.freeMem_, u.clientCount_, u.trace))) key
  simpa [Option.map_map, Function.comp_def, without_mark_queries] using e

/-- Witness of C24: slot 3 of the 4-slot reactor holds descriptor 7; the reads deliver
`"abc"` and then fail with `EAGAIN`. Both loops call `on_input(7, "abc", 3)` once and
rearm the slot after two reads; the OOB-drain loop has two `ioctl` calls on top. -/
theorem C24_inband_part_of_oob_drain_witness :
    (client_pool.handle_epollpri recorder
        [⟨0, 0, 0, 0, ⟨3, 0, [97, 98, 99]⟩⟩, ⟨0, 0, 0, 0, ⟨-1, 11, []⟩⟩]
        ((pool4 (List Callback) []).add_client 7 0).2 3).map
        (fun t => (t.derived, t.freeMem_, t.clientCount_,
          t.trace.filter (fun c => !c.is_mark_query)))
      = (client_pool.handle_epollin recorder
          (([⟨0, 0, 0, 0, ⟨3, 0, [97, 98, 99]⟩⟩, ⟨0, 0, 0, 0, ⟨-1, 11, []⟩⟩] : List PriStep).map
            (fun p => p.rd))
          ((pool4 (List Callback) []).add_client 7 0).2 3).map
        (fun t => (t.derived, t.freeMem_, t.clientCount_,
          t.trace.filter (fun c => !c.is_mark_query))) ∧
    (client_pool.handle_epollin recorder
        (([⟨0, 0, 0, 0, ⟨3, 0, [97, 98, 99]⟩⟩, ⟨0, 0, 0, 0, ⟨-1, 11, []⟩⟩] : List PriStep).map
            (fun p => p.rd))
        ((pool4 (List Callback) []).add_client 7 0).2 3).map
          (fun t => (t.derived, t.trace.drop 2))
      = some ([Callback.input 7 [97, 98, 99] 3],
              [Call.endpoint_read 7 4096, Call.endpoint_read 7 4096,
               Call.epoll_ctl 5 EPOLL_CTL_MOD 7
                 (EPOLLIN ||| EPOLLET ||| EPOLLRDHUP ||| EPOLLPRI ||| EPOLLONESHOT)
                 (Cookie.ptr (some 3))]) ∧
    (client_pool.handle_epollpri recorder
        [⟨0, 0, 0, 0, ⟨3, 0, [97, 98, 99]⟩⟩, ⟨0, 0, 0, 0, ⟨-1, 11, []⟩⟩]
        ((pool4 (List Callback) []).add_client 7 0).2 3).map (fun t => t.trace.drop 2)
      = some [Call.ioctl_SIOCATMARK 7, Call.endpoint_read 7 4096,
              Call.ioctl_SIOCATMARK 7, Call.endpoint_read 7 4096,
              Call.epoll_ctl 5 EPOLL_CTL_MOD 7
                (EPOLLIN ||| EPOLLET ||| EPOLLRDHUP ||| EPOLLPRI ||| EPOLLONESHOT)
                (Cookie.ptr (some 3))] :=
  ⟨(C24_inband_part_of_oob_drain recorder ((pool4 (List Callback) []).add_client 7 0).2 3
      [⟨0, 0, 0, 0, ⟨3, 0, [97, 98, 99]⟩⟩, ⟨0, 0, 0, 0, ⟨-1, 11, []⟩⟩] (by decide)).2,
   by decide, by decide⟩

/-- C30 (what the code does): `W ≥ 1` workers were started by `run()`; some of them leave
`wait` through a failed `epoll_wait` (`break`, without decrementing
`runningInstances`), before `close()` (the moves `pre`, which can only be such
failures) or during the shutdown (among the moves `post`); `stop()` has returned,
that is every worker has returned. Then `runningInstances` is the number of
workers that left through a failure, and a token is pending exactly when that
number is not 0. So after one failure before the shutdown `runningInstances` is
not 0, one token is left on the control channel with the registration enabled,
and after the following `run()` the first worker is handed the control event
although `close()` was not called. -/
theorem C30_stale_token_after_worker_error (W : Nat) (hpos : 0 < W) (hW : W < SIZE_MOD)
    (pre post : List shutdown.Action) (s0 t : shutdown.State)
    (hpre : shutdown.run_actions pre (shutdown.started W) = some s0)
    (hpost : shutdown.run_actions post (shutdown.close s0) = some t)
    (hjoin : ∀ w ∈ t.workers, w.pc = shutdown.Pc.exited) :
    pre.length ≤ shutdown.lost t ∧
    t.running = shutdown.lost t ∧
    t.pending = (if shutdown.lost t = 0 then 0 else 1) ∧
    t.armed = true ∧
    (pre ≠ [] → t.running ≠ 0 ∧ t.pending = 1 ∧
      shutdown.step 0 (shutdown.respawn W t)
        = some { shutdown.respawn W t with
                 workers := (shutdown.respawn W t).workers.set 0
                   { pc := shutdown.Pc.woken, reads := 0 },
                 armed := false }) := by
  obtain ⟨hb0, hl0⟩ := before_started W
  obtain ⟨hb1, hl1⟩ := before_run W pre _ s0 hb0 hpre
  obtain ⟨hi1, hl2⟩ := invg_close W hpos s0 hb1
  obtain ⟨hi2, hl3⟩ := invg_run W hW post _ t hi1 hpost
  obtain ⟨hr, hp, ha⟩ := invg_joined W t hi2 hjoin
  have hlen : pre.length ≤ shutdown.lost t := by omega
  refine ⟨hlen, hr, hp, ha, ?_⟩
  intro hne
  have hpl : 0 < pre.length := List.length_pos.mpr hne
  have hlt : shutdown.lost t ≠ 0 := by omega
  rw [if_neg hlt] at hp
  refine ⟨by omega, hp, ?_⟩
  have hw : (shutdown.respawn W t).workers
      = List.replicate W { pc := shutdown.Pc.waiting, reads := 0 } := rfl
  have h0 : 0 < (shutdown.respawn W t).workers.length := by
    rw [hw, List.length_replicate]
    exact hpos
  have hg : (shutdown.respawn W t).workers.get ⟨0, h0⟩
      = { pc := shutdown.Pc.waiting, reads := 0 } := by
    simp [hw]
  have hcond : (shutdown.respawn W t).armed = true ∧ 0 < (shutdown.respawn W t).pending := by
    refine ⟨ha, ?_⟩
    show 0 < t.pending
    omega
  unfold shutdown.step
  rw [dif_pos h0]
  rw [hg]
  simp only [if_pos hcond]

/-- Witness of C30: two workers; worker 0 leaves through a failed `epoll_wait`, then
`close()` is called and worker 1 goes through the five steps of the shutdown.
Both workers have returned, `runningInstances` is 1, one token is pending, and
after the following `run()` worker 0 is handed the control event. -/
theorem C30_stale_token_after_worker_error_witness :
    shutdown.run_actions [shutdown.Action.fail 0] (shutdown.started 2)
      = some { workers := [⟨shutdown.Pc.exited, 0⟩, ⟨shutdown.Pc.waiting, 0⟩], pending := 0,
               armed := true, running := 2, writes := 0 } ∧
    shutdown.run_actions
        [shutdown.Action.step 1, shutdown.Action.step 1, shutdown.Action.step 1,
         shutdown.Action.step 1, shutdown.Action.step 1]
        (shutdown.close { workers := [⟨shutdown.Pc.exited, 0⟩, ⟨shutdown.Pc.waiting, 0⟩],
                          pending := 0, armed := true, running := 2, writes := 0 })
      = some { workers := [⟨shutdown.Pc.exited, 0⟩, ⟨shutdown.Pc.exited, 1⟩], pending := 1,
               armed := true, running := 1, writes := 2 } ∧
    shutdown.step 0 (shutdown.respawn 2
        { workers := [⟨shutdown.Pc.exited, 0⟩, ⟨shutdown.Pc.exited, 1⟩], pending := 1,
          armed := true, running := 1, writes := 2 })
      = some { workers := [⟨shutdown.Pc.woken, 0⟩, ⟨shutdown.Pc.waiting, 0⟩], pending := 1,
               armed := false, running := 2, writes := 0 } :=
  ⟨by decide, by decide,
   ((C30_stale_token_after_worker_error 2 (by decide) (by decide) [shutdown.Action.fail 0]
      [shutdown.Action.step 1, shutdown.Action.step 1, shutdown.Action.step 1,
       shutdown.Action.step 1, shutdown.Action.step 1]
      { workers := [⟨shutdown.Pc.exited, 0⟩, ⟨shutdown.Pc.waiting, 0⟩], pending := 0,
        armed := true, running := 2, writes := 0 }
      { workers := [⟨shutdown.Pc.exited, 0⟩, ⟨shutdown.Pc.exited, 1⟩], pending := 1,
        armed := true, running := 1, writes := 2 }
      (by decide) (by decide) (by decide)).2.2.2.2 (by decide)).2.2⟩

end comm
